import Mathlib

/-!
# Property cells of the graphics object store (`graphics.in.h`)

A shallow embedding of the typed property classes of `src/src/graphics.in.h`
(`radio_values`, `radio_property`, `children_property`, the reference counted
`property` wrapper, the text, array, boolean and colour properties), of the
stand-in classes `base_graphics_toolkit` and `base_graphics_object` with the toolkit
lifecycle of an object, of the managers `gtk_manager` and `gh_manager`, of the
default and factory property dispatch of `root_figure`, `figure`, `axes` and
`uitoolbar`, of the name map of `base_properties`, of the listener lists of a property,
of the limit, pixel size, position and toolkit hooks of `axes`, `image`, `text` and
`figure`, of the handle table and the event queue of `gh_manager`, and of the
dimensions of `DiagArray2` (`src/liboctave/array/DiagArray2.h`), together with the
statements proved about them.

Conventions of the embedding:

* `std::string` is a Lean `String`, read through its list of characters;
* a method that updates `*this` returns the new object next to its C++ result;
* `error (...)` and `warning_with_id (...)` append their message to a log that
  is returned with the result, so "signals an error" reads "the log is non-empty";
* `double` handle values are exact rational numbers (the not-a-number sentinel
  is not a child handle); a `graphics_handle` holds `none` for that sentinel;
* where the code computes with `double` or `float` values (the limits of an axes
  object, the pixel size of an image) each result is rounded as IEEE 754 prescribes
  for binary64 and binary32, to nearest with ties to even, and is `none` when it is
  not finite;
* a `std::map` or `std::set` is the list of its entries in iteration order;
* an `octave_idx_type` value is an integer; a product that does not fit the type has
  no value (`none`), the overflow of a signed integer being undefined.
-/

namespace Graphics

/-! ## Messages -/

/-- The messages a call has issued through `error` and `warning_with_id`. -/
structure Log where
  errors : List String
  warnings : List String
  deriving DecidableEq, Repr

/-- The log of a call that issued nothing. -/
def Log.empty : Log := ⟨[], []⟩

/-- The effect of `error (msg)` on the log. -/
def Log.error (l : Log) (msg : String) : Log := { l with errors := l.errors ++ [msg] }

/-- The effect of `warning_with_id (id, msg)` on the log. -/
def Log.warning (l : Log) (msg : String) : Log := { l with warnings := l.warnings ++ [msg] }

/-- The test `error_state != 0` after a call. -/
def Log.error_state (l : Log) : Bool := !l.errors.isEmpty

/-! ## `caseless_str` -/

/-- Modelled from the spec: the loop of `caseless_str::compare (s, limit)`; the class
`caseless_str` is declared in `caseless-str.h`, not in `graphics.in.h`. The two texts are
walked in step for at most `limit` characters, letters compared with case folded; `none`
is a mismatch, `some k` the number of characters counted when the walk stops. -/
def caseless_str.compare_loop : List Char → List Char → Nat → Nat → Option Nat
  | c1 :: r1, c2 :: r2, k, limit =>
    if k < limit then
      if c1.toLower != c2.toLower then none
      else caseless_str.compare_loop r1 r2 (k + 1) limit
    else some (k + 1)
  | _, _, k, _ => some k

/-- Modelled from the spec: `caseless_str::compare (s, limit)` ("matched case-insensitively",
"has the input as a prefix"): true when the first `limit` characters of `p` and of `s`
exist and agree ignoring letter case. `radio_values::contains` only calls it with
`limit = s.length ()`. -/
def caseless_str.compare (p s : String) (limit : Nat) : Bool :=
  match caseless_str.compare_loop p.data s.data 0 limit with
  | none => false
  | some k => k == limit

/-! ## `radio_values` -/

/-- The class `radio_values`: the default option and the option set. `possible_vals`
lists the elements of the `std::set` in its iteration order. -/
structure radio_values where
  default_val : String
  possible_vals : List String
  deriving DecidableEq, Repr

/-- The `for` loop of `radio_values::contains` over the remaining options, with the
counter `k` and `first_match`. `Sum.inl p` is the early `return true` on the full match
`p`; `Sum.inr (k, first_match)` is the state when the loop runs to the end. -/
def radio_values.contains_loop (val : String) (len : Nat) :
    List String → Nat → String → Sum String (Nat × String)
  | [], k, first_match => Sum.inr (k, first_match)
  | p :: rest, k, first_match =>
    if caseless_str.compare p val len then
      if len == p.length then Sum.inl p
      else radio_values.contains_loop val len rest (k + 1) (if k == 0 then p else first_match)
    else radio_values.contains_loop val len rest k first_match

/-- The method `radio_values::contains (val, match)`: the C++ result paired with the
value of the reference parameter `match` after the call (`match_ ` is its value before). -/
def radio_values.contains (rv : radio_values) (val : String) (match_ : String) :
    Bool × String :=
  match radio_values.contains_loop val val.length rv.possible_vals 0 "" with
  | Sum.inl p => (true, p)
  | Sum.inr (k, first_match) => if k == 1 then (true, first_match) else (false, match_)

/-- The method `radio_values::validate (val, match)`: result, `match` after the call, and
the log. -/
def radio_values.validate (rv : radio_values) (val : String) (match_ : String) (log : Log) :
    Bool × String × Log :=
  let r := rv.contains val match_
  if !r.1 then (false, r.2, log.error ("invalid value = " ++ val))
  else (true, r.2, log)

/-! ### Spec-side notions for radio matching -/

/-- Text `a` with every letter folded to lower case. -/
def fold_case (a : String) : List Char := a.data.map Char.toLower

/-- Option `o` equals the input `v` ignoring letter case. -/
def equals_caseless (v o : String) : Bool := decide (fold_case o = fold_case v)

/-- Input `v` is a prefix of option `o` ignoring letter case. -/
def starts_caseless (v o : String) : Bool := decide (fold_case v <+: fold_case o)

/-! ## `octave_value` and `Matrix` (external collaborators) -/

/-- Modelled from the spec: the numeric buffer `Matrix` of the array library, which is
declared in the array library's headers: its two dimensions and its elements in storage
(column-major) order, the order in which `xelem (i)` reads them. -/
structure Matrix where
  rows : Nat
  cols : Nat
  data : List ℚ
  deriving DecidableEq, Repr

/-- Modelled from the spec: `Matrix::numel`, the number of stored elements. -/
def Matrix.numel (m : Matrix) : Nat := m.data.length

/-- Modelled from the spec: `Matrix::xelem (i)`, the element at linear index `i`. -/
def Matrix.xelem (m : Matrix) (i : Nat) : ℚ := m.data.getD i 0

/-- Modelled from the spec: `Matrix::reshape (dim_vector (r, c))`: same elements in the
same storage order under new dimensions. -/
def Matrix.reshape (m : Matrix) (r c : Nat) : Matrix := ⟨r, c, m.data⟩

/-- Modelled from the spec: `Matrix::sort ()` on a column vector: the elements in
ascending order. -/
def Matrix.sort (m : Matrix) : Matrix := ⟨m.rows, m.cols, m.data.insertionSort (· ≤ ·)⟩

/-- Modelled from the spec: `Matrix::stack`, one column vector on top of another. -/
def Matrix.stack (a b : Matrix) : Matrix := ⟨a.rows + b.rows, a.cols, a.data ++ b.data⟩

/-- Modelled from the spec: an element of a `Cell` as the property classes look at it
(the class is declared in `Cell.h`): a text, a value that `double_value ()` converts to
the real number `d`, or anything else. -/
inductive cell_entry where
  | string (s : String)
  | real (d : ℚ)
  | other
  deriving DecidableEq, Repr

/-- Modelled from the spec: the `octave_value` payloads that the property classes tell
apart (the value representation is declared in `ov.h`): text, a boolean, a real
matrix, a cell, or anything else (undefined values, structs, function handles). -/
inductive octave_value where
  | string (s : String)
  | bool (b : Bool)
  | matrix (m : Matrix)
  | cell (c : List cell_entry)
  | other
  deriving DecidableEq, Repr

/-- Modelled from the spec: `octave_value::is_string`. -/
def octave_value.is_string : octave_value → Bool
  | octave_value.string _ => true
  | _ => false

/-- Modelled from the spec: `octave_value::string_value`. -/
def octave_value.string_value : octave_value → String
  | octave_value.string s => s
  | _ => ""

/-- Modelled from the spec: `octave_value::matrix_value`: the numeric array a value
converts to. A value that does not convert raises an error and yields the empty matrix. -/
def octave_value.matrix_value (v : octave_value) (log : Log) : Matrix × Log :=
  match v with
  | octave_value.matrix m => (m, log)
  | octave_value.bool b => (⟨1, 1, [if b then 1 else 0]⟩, log)
  | _ => (⟨0, 0, []⟩, log.error "invalid conversion to real matrix")

/-! ## `radio_property` -/

/-- The class `radio_property`: the name kept by its `base_property` part, the option
set and the current value. -/
structure radio_property where
  name : String
  vals : radio_values
  current_val : String
  deriving DecidableEq, Repr

/-- The method `radio_property::get`, the current value as text. -/
def radio_property.get (p : radio_property) : octave_value :=
  octave_value.string p.current_val

/-- The method `radio_property::do_set (newval)`: the C++ result, the property after the
call and the messages issued. -/
def radio_property.do_set (p : radio_property) (newval : octave_value) :
    Bool × radio_property × Log :=
  if newval.is_string then
    let s := newval.string_value
    let r := p.vals.validate s "" Log.empty
    let match_ := r.2.1
    let log := r.2.2
    if r.1 then
      if match_ != p.current_val then
        let log1 :=
          if s.length != match_.length then
            log.warning ("set: allowing " ++ s ++ " to match " ++ p.name ++ " value " ++ match_)
          else log
        (true, { p with current_val := match_ }, log1)
      else (false, p, log)
    else
      (false, p, log.error ("set: invalid value for radio property \"" ++ p.name
        ++ "\" (value = " ++ s ++ ")"))
  else
    (false, p, Log.empty.error ("set: invalid value for radio property \"" ++ p.name ++ "\""))

/-! ## `children_property` -/

/-- The class `children_property`: its `std::list<double> children_list`, front first. -/
structure children_property where
  name : String
  children_list : List ℚ
  deriving DecidableEq, Repr

/-- Modelled from the spec: `children_property::do_get_children (return_hidden)`, defined
in `graphics.cc`: the column of the stored children whose handle is visible
(`return_hidden = false`) or hidden (`return_hidden = true`), in stored order. `vis` is
the handle manager's `is_handle_visible`. -/
def children_property.do_get_children (vis : ℚ → Bool) (p : children_property)
    (return_hidden : Bool) : Matrix :=
  let kids := p.children_list.filter (fun kid => if vis kid then !return_hidden else return_hidden)
  ⟨kids.length, 1, kids⟩

/-- The method `children_property::get_children`. -/
def children_property.get_children (vis : ℚ → Bool) (p : children_property) : Matrix :=
  p.do_get_children vis false

/-- The method `children_property::get_hidden`. -/
def children_property.get_hidden (vis : ℚ → Bool) (p : children_property) : Matrix :=
  p.do_get_children vis true

/-- The method `children_property::do_get_all_children`: every stored child, as a column. -/
def children_property.do_get_all_children (p : children_property) : Matrix :=
  ⟨p.children_list.length, 1, p.children_list⟩

/-- The method `children_property::get_all`. -/
def children_property.get_all (p : children_property) : Matrix :=
  p.do_get_all_children

/-- The method `children_property::get`. -/
def children_property.get (vis : ℚ → Bool) (p : children_property) : octave_value :=
  octave_value.matrix (p.get_children vis)

/-- The `push_back` loop at the end of `children_property::do_set`: the elements
`tmp.xelem (0)`, ..., `tmp.xelem (tmp.numel () - 1)` appended to the cleared list. -/
def children_property.push_back_all (tmp : Matrix) : List ℚ :=
  (List.range tmp.numel).foldl (fun l i => l ++ [tmp.xelem i]) []

/-- The method `children_property::do_set (val)`: the C++ result, the property after the
call and the messages issued. -/
def children_property.do_set (vis : ℚ → Bool) (p : children_property) (val : octave_value) :
    Bool × children_property × Log :=
  let conv := val.matrix_value Log.empty
  let new_kids := conv.1
  let nel := new_kids.numel
  let new_kids_column := new_kids.reshape nel 1
  let checked : Bool × Log :=
    if !conv.2.error_state then
      let visible_kids := p.do_get_children vis false
      let is_ok :=
        if visible_kids.numel == new_kids.numel then
          let t1 := visible_kids.sort
          let t2 := new_kids_column.sort
          if t1 != t2 then false else true
        else false
      if !is_ok then
        (is_ok, conv.2.error "set: new children must be a permutation of existing children")
      else (is_ok, conv.2)
    else
      (false, conv.2.error "set: expecting children to be array of graphics handles")
  if checked.1 then
    let tmp := new_kids_column.stack (p.get_hidden vis)
    (true, { p with children_list := children_property.push_back_all tmp }, checked.2)
  else (false, p, checked.2)

/-- The method `children_property::do_init_children (const std::list<double>&)`: the
list is cleared and every element of `val` is pushed to the front in turn. -/
def children_property.do_init_children (p : children_property) (val : List ℚ) :
    children_property :=
  { p with children_list := val.foldl (fun l x => x :: l) [] }

/-- The copy constructor `children_property (const children_property& p)`. -/
def children_property.copy (p : children_property) : children_property :=
  children_property.do_init_children { name := p.name, children_list := [] } p.children_list

/-- The method `children_property::clone`, a new object made by the copy constructor. -/
def children_property.clone (p : children_property) : children_property :=
  children_property.copy p

/-- The method `children_property::do_adopt_child`. -/
def children_property.do_adopt_child (p : children_property) (val : ℚ) : children_property :=
  { p with children_list := val :: p.children_list }

/-- The method `children_property::adopt`. -/
def children_property.adopt (p : children_property) (val : ℚ) : children_property :=
  p.do_adopt_child val

/-- The loop of `children_property::do_remove_child` from the iterator position on:
`none` when the end is reached without a hit, otherwise the rest of the list with the
first entry equal to `child` erased. -/
def children_property.remove_loop (child : ℚ) : List ℚ → Option (List ℚ)
  | [] => none
  | x :: rest =>
    if x == child then some rest
    else (children_property.remove_loop child rest).map (fun l => x :: l)

/-- The method `children_property::do_remove_child`. -/
def children_property.do_remove_child (p : children_property) (child : ℚ) :
    Bool × children_property :=
  match children_property.remove_loop child p.children_list with
  | some l => (true, { p with children_list := l })
  | none => (false, p)

/-- The method `children_property::remove_child`. -/
def children_property.remove_child (p : children_property) (val : ℚ) :
    Bool × children_property :=
  p.do_remove_child val

/-- The loop of `children_property::renumber` from the iterator position on: `none` when
the end is reached without a hit, otherwise the rest of the list with the first entry
equal to `old_gh` overwritten by `new_gh`. -/
def children_property.renumber_loop (old_gh new_gh : ℚ) : List ℚ → Option (List ℚ)
  | [] => none
  | x :: rest =>
    if x == old_gh then some (new_gh :: rest)
    else (children_property.renumber_loop old_gh new_gh rest).map (fun l => x :: l)

/-- The method `children_property::renumber (old_gh, new_gh)`, handles given by value. -/
def children_property.renumber (p : children_property) (old_gh new_gh : ℚ) :
    children_property × Log :=
  match children_property.renumber_loop old_gh new_gh p.children_list with
  | some l => ({ p with children_list := l }, Log.empty)
  | none => (p, Log.empty.error "children_list::renumber: child not found!")

/-! ## The reference counted wrapper `property` -/

/-- The heap as the class `property` sees it. `cells` maps the address of a
`base_property` to its `count` field, `none` once the cell has been deleted; `reps` maps
a wrapper to its `rep` pointer, `none` once the wrapper has been destroyed. -/
structure property_store where
  cells : List (Option Int)
  reps : List (Option Nat)
  deriving DecidableEq, Repr

/-- The store before any cell or wrapper exists. -/
def property_store.init : property_store := ⟨[], []⟩

/-- The field `rep->count` of the cell at address `a`, `none` for a deleted cell. -/
def property_store.count (st : property_store) (a : Nat) : Option Int :=
  st.cells.getD a none

/-- The pointer `rep` of wrapper `w`, `none` for a destroyed wrapper. -/
def property_store.rep (st : property_store) (w : Nat) : Option Nat :=
  st.reps.getD w none

/-- The statement `rep->count++`. On a deleted cell it writes to freed memory, which the
store does not record. -/
def property_store.incr (st : property_store) (a : Nat) : property_store :=
  match st.count a with
  | some c => { st with cells := st.cells.set a (some (c + 1)) }
  | none => st

/-- The statement `if (--rep->count == 0) delete rep;`. -/
def property_store.decr_delete (st : property_store) (a : Nat) : property_store :=
  match st.count a with
  | some c =>
    if c - 1 == 0 then { st with cells := st.cells.set a none }
    else { st with cells := st.cells.set a (some (c - 1)) }
  | none => st

/-- The constructor `property (base_property *bp, bool persist)` applied to a fresh cell
`new base_property (...)`, whose constructors set `count (1)`; the new wrapper is the
last entry of `reps`. The default constructor `property (void)` is `wrap false`. -/
def property_store.wrap (st : property_store) (persist : Bool) : property_store :=
  let a := st.cells.length
  let st1 : property_store := { cells := st.cells ++ [some 1], reps := st.reps ++ [some a] }
  if persist then st1.incr a else st1

/-- The copy constructor `property (const property& p)`; the new wrapper is the last
entry of `reps`. -/
def property_store.copy (st : property_store) (p : Nat) : property_store :=
  match st.rep p with
  | some a => ({ st with reps := st.reps ++ [some a] } : property_store).incr a
  | none => st

/-- The destructor `~property` of wrapper `w`. -/
def property_store.destroy (st : property_store) (w : Nat) : property_store :=
  match st.rep w with
  | some a => { st.decr_delete a with reps := (st.decr_delete a).reps.set w none }
  | none => st

/-- The assignment `w = p` of `property::operator = (const property& p)`: release the
old cell, take the pointer of `p`, count the new reference. -/
def property_store.assign (st : property_store) (w p : Nat) : property_store :=
  match st.rep w, st.rep p with
  | some a, some b =>
    let st1 := st.decr_delete a
    let st2 : property_store := { st1 with reps := st1.reps.set w (some b) }
    st2.incr b
  | _, _ => st

/-- One operation on property wrappers. -/
inductive property_op where
  | wrap (persist : Bool)
  | copy (p : Nat)
  | assign (w p : Nat)
  | destroy (w : Nat)
  deriving DecidableEq, Repr

/-- The store after one operation. -/
def property_store.step (st : property_store) : property_op → property_store
  | property_op.wrap persist => st.wrap persist
  | property_op.copy p => st.copy p
  | property_op.assign w p => st.assign w p
  | property_op.destroy w => st.destroy w

/-- The store after a sequence of operations, starting from the empty store. -/
def property_store.run (ops : List property_op) : property_store :=
  ops.foldl property_store.step property_store.init

/-- The number of live wrappers whose `rep` is the cell at address `a`. -/
def property_store.referrers (st : property_store) (a : Nat) : Nat :=
  st.reps.count (some a)

/-! ## More of `octave_value` -/

/-- Modelled from the spec: `octave_value::is_cell`. -/
def octave_value.is_cell : octave_value → Bool
  | octave_value.cell _ => true
  | _ => false

/-- Modelled from the spec: `octave_value::cell_value`, the elements of a cell. -/
def octave_value.cell_value : octave_value → List cell_entry
  | octave_value.cell c => c
  | _ => []

/-- Modelled from the spec: `cell_entry` counterpart of `octave_value::is_string`. -/
def cell_entry.is_string : cell_entry → Bool
  | cell_entry.string _ => true
  | _ => false

/-- Modelled from the spec: `cell_entry` counterpart of `octave_value::string_value`. -/
def cell_entry.string_value : cell_entry → String
  | cell_entry.string s => s
  | _ => ""

/-- Modelled from the spec: `octave_value::double_value` on a cell element: the number
it converts to; a value that does not convert raises an error and yields 0. -/
def cell_entry.double_value (e : cell_entry) (log : Log) : ℚ × Log :=
  match e with
  | cell_entry.real d => (d, log)
  | _ => (0, log.error "invalid conversion to real scalar")

/-- Modelled from the spec: `octave_value::is_cellstr`, a cell all of whose elements are
text ("cell-of-text"). -/
def octave_value.is_cellstr : octave_value → Bool
  | octave_value.cell c => c.all cell_entry.is_string
  | _ => false

/-- Modelled from the spec: `Cell::cellstr_value`, the texts of a cell-of-text. -/
def cellstr_value (c : List cell_entry) : List String := c.map cell_entry.string_value

/-- Modelled from the spec: the constructor `Cell (const string_vector&)`, the cell whose
elements are the given texts. -/
def Cell_of_strings (sv : List String) : octave_value :=
  octave_value.cell (sv.map cell_entry.string)

/-- Modelled from the spec: `octave_value::all_strings`, the rows of a text value. -/
def octave_value.all_strings : octave_value → List String
  | octave_value.string s => [s]
  | _ => []

/-- Modelled from the spec: `octave_value::array_value`: the numeric array a value
converts to; a value that does not convert raises an error. -/
def octave_value.array_value (v : octave_value) (log : Log) : Matrix × Log :=
  v.matrix_value log

/-- Modelled from the spec: `octave_value::is_bool_scalar`. -/
def octave_value.is_bool_scalar : octave_value → Bool
  | octave_value.bool _ => true
  | _ => false

/-- Modelled from the spec: `octave_value::bool_value`. -/
def octave_value.bool_value : octave_value → Bool
  | octave_value.bool b => b
  | _ => false

/-! ## `string_property` -/

/-- The class `string_property`: the name kept by its `base_property` part and the
stored text. -/
structure string_property where
  name : String
  str : String
  deriving DecidableEq, Repr

/-- The method `string_property::get`. -/
def string_property.get (p : string_property) : octave_value := octave_value.string p.str

/-- The method `string_property::do_set (val)`: the C++ result, the property after the
call and the messages issued. -/
def string_property.do_set (p : string_property) (val : octave_value) :
    Bool × string_property × Log :=
  if val.is_string then
    let new_str := val.string_value
    if new_str != p.str then (true, { p with str := new_str }, Log.empty)
    else (false, p, Log.empty)
  else
    (false, p, Log.empty.error ("set: invalid string property value for \"" ++ p.name ++ "\""))

/-! ## `string_array_property` -/

/-- The enumeration `string_array_property::desired_enum`. -/
inductive desired_enum where
  | string_t
  | cell_t
  deriving DecidableEq, Repr

/-- The class `string_array_property`: the name kept by its `base_property` part, the
representation `get` answers in, the separator and the stored `string_vector`. -/
structure string_array_property where
  name : String
  desired_type : desired_enum
  separator : Char
  str : List String
  deriving DecidableEq, Repr

/-- Modelled from the spec: the scan of `std::string::find_first_of (c, pos)` over the
characters from index `i` on: the index of the first `c`, `none` for `npos`. -/
def find_from (c : Char) : List Char → Nat → Option Nat
  | [], _ => none
  | x :: rest, i => if x == c then some i else find_from c rest (i + 1)

/-- Modelled from the spec: `std::string::find_first_of (c, pos)`. -/
def find_first_of (s : String) (c : Char) (pos : Nat) : Option Nat :=
  find_from c (s.data.drop pos) pos

/-- Modelled from the spec: `std::string::substr (pos)`, the text from `pos` to the end. -/
def substr_from (s : String) (pos : Nat) : String := ⟨s.data.drop pos⟩

/-- Modelled from the spec: `std::string::substr (pos, n)`, at most `n` characters from
`pos` on. -/
def substr (s : String) (pos n : Nat) : String := ⟨(s.data.drop pos).take n⟩

/-- The `while` loop of the text branch of `string_array_property::do_set`, with `pos` and
the `string_vector strings` built so far. Every round moves `pos` past one separator, so
`fuel = new_str.length () + 1` rounds are enough; `pos` is at most the length of the text
and never `npos`. -/
def string_array_property.split_loop (separator : Char) (new_str : String) :
    Nat → Nat → List String → List String
  | 0, _, strings => strings
  | fuel + 1, pos, strings =>
    match find_first_of new_str separator pos with
    | none => strings ++ [substr_from new_str pos]
    | some new_pos =>
      string_array_property.split_loop separator new_str fuel (new_pos + 1)
        (strings ++ [substr new_str pos (new_pos - pos)])

/-- The `for` loop with `break` that compares `strings[i]` with `str[i]` over vectors of
the same number of elements: true when some pair differs. -/
def string_vector_differs : List String → List String → Bool
  | a :: as, b :: bs => if a != b then true else string_vector_differs as bs
  | _, _ => false

/-- The method `string_array_property::string_value`: the loop appends every element and,
after every element but the last, the separator. -/
def string_array_property.string_value (p : string_array_property) : String :=
  (List.range p.str.length).foldl
    (fun s i =>
      let s1 := s ++ p.str.getD i ""
      if i != p.str.length - 1 then s1.push p.separator else s1)
    ""

/-- The method `string_array_property::cell_value`. -/
def string_array_property.cell_value (p : string_array_property) : octave_value :=
  Cell_of_strings p.str

/-- The method `string_array_property::get`. -/
def string_array_property.get (p : string_array_property) : octave_value :=
  if p.desired_type == desired_enum.string_t then octave_value.string p.string_value
  else p.cell_value

/-- The method `string_array_property::do_set (val)`: the C++ result, the property after
the call and the messages issued. -/
def string_array_property.do_set (p : string_array_property) (val : octave_value) :
    Bool × string_array_property × Log :=
  if val.is_string then
    let new_str := val.string_value
    let strings :=
      string_array_property.split_loop p.separator new_str (new_str.length + 1) 0 []
    let replace :=
      if p.str.length == strings.length then string_vector_differs strings p.str else true
    let p1 := { p with desired_type := desired_enum.string_t }
    if replace then (true, { p1 with str := strings }, Log.empty)
    else (false, p1, Log.empty)
  else if val.is_cellstr then
    let new_cell := val.cell_value
    let strings := cellstr_value new_cell
    let nel := strings.length
    let replace :=
      if nel != p.str.length then true else string_vector_differs strings p.str
    let p1 := { p with desired_type := desired_enum.cell_t }
    if replace then (true, { p1 with str := strings }, Log.empty)
    else (false, p1, Log.empty)
  else
    (false, p, Log.empty.error ("set: invalid string property value for \"" ++ p.name ++ "\""))

/-- The fields of a text delimited by `c`, following the spec's words: the text is cut
at every occurrence of `c`, empty fields kept. -/
def fields_of (c : Char) : List Char → List (List Char)
  | [] => [[]]
  | x :: rest =>
    if x = c then [] :: fields_of c rest
    else
      match fields_of c rest with
      | f :: fs => (x :: f) :: fs
      | [] => [[x]]

/-- The fields joined again, following the spec's words: the separator `c` is put
between every two neighbouring fields. -/
def join_with (c : Char) : List (List Char) → List Char
  | [] => []
  | [f] => f
  | f :: g :: rest => f ++ c :: join_with c (g :: rest)

/-! ## `text_label_property` -/

/-- The enumeration `text_label_property::type`. -/
inductive text_label_type where
  | char_t
  | cellstr_t
  deriving DecidableEq, Repr

/-- The class `text_label_property`: the name kept by its `base_property` part, the
stored lines `value` and the stored kind. -/
structure text_label_property where
  name : String
  value : List String
  stored_type : text_label_type
  deriving DecidableEq, Repr

/-- Modelled from the spec: `string_vector::resize (n)`: the first `n` elements are kept
and missing ones are empty texts. -/
def string_vector_resize (v : List String) (n : Nat) : List String :=
  v.take n ++ List.replicate (n - v.length) ""

/-- Modelled from the spec: the constructor `charMatrix (const string_vector&, char)`:
one row per text, every row filled up with `fill` to the length of the longest. -/
def charMatrix_rows (sv : List String) (fill : Char) : List String :=
  sv.map (fun r =>
    r ++ String.mk (List.replicate ((sv.map String.length).foldl max 0 - r.length) fill))

/-- The two shapes of value that `text_label_property::get` hands out: a character matrix,
given by its rows, or a cell of texts. -/
inductive text_label_value where
  | char_matrix (rows : List String)
  | cell (c : List String)
  deriving DecidableEq, Repr

/-- The method `text_label_property::get`. -/
def text_label_property.get (p : text_label_property) : text_label_value :=
  if p.stored_type == text_label_type.char_t then
    text_label_value.char_matrix (charMatrix_rows p.value ' ')
  else text_label_value.cell p.value

/-- The `for` loop of the cell branch of `text_label_property::do_set` from element `i`
on, writing into the member `value`: the lines written so far, whether the loop ran to
the end (`false` is the `return false` inside the loop) and the log. `fmt` is the
default numeric formatting of `buf << d`. -/
def text_label_property.cell_loop (fmt : ℚ → String) :
    List cell_entry → Nat → List String → Log → List String × Bool × Log
  | [], _, value, log => (value, true, log)
  | tmp :: rest, i, value, log =>
    if tmp.is_string then
      text_label_property.cell_loop fmt rest (i + 1) (value.set i tmp.string_value) log
    else
      let r := tmp.double_value log
      if !r.2.error_state then
        text_label_property.cell_loop fmt rest (i + 1) (value.set i (fmt r.1)) r.2
      else (value, false, r.2)

/-- The `for` loop of the numeric branch of `text_label_property::do_set`: every element
of `nda` is formatted into its line. -/
def text_label_property.array_loop (fmt : ℚ → String) (nda : Matrix) (value : List String) :
    List String :=
  (List.range nda.numel).foldl (fun v i => v.set i (fmt (nda.xelem i))) value

/-- The method `text_label_property::do_set (val)`: the C++ result, the property after
the call and the messages issued. -/
def text_label_property.do_set (fmt : ℚ → String) (p : text_label_property)
    (val : octave_value) : Bool × text_label_property × Log :=
  if val.is_string then
    (true, { p with value := val.all_strings, stored_type := text_label_type.char_t },
      Log.empty)
  else if val.is_cell then
    let c := val.cell_value
    let nel := c.length
    let r := text_label_property.cell_loop fmt c 0 (string_vector_resize p.value nel) Log.empty
    if r.2.1 then
      (true, { p with value := r.1, stored_type := text_label_type.cellstr_t }, r.2.2)
    else (false, { p with value := r.1 }, r.2.2)
  else
    let conv := val.array_value Log.empty
    if !conv.2.error_state then
      let nel := conv.1.numel
      (true,
        { p with value := text_label_property.array_loop fmt conv.1
                   (string_vector_resize p.value nel),
                 stored_type := text_label_type.char_t },
        conv.2)
    else
      (false, p,
        conv.2.error ("set: invalid string property value for \"" ++ p.name ++ "\""))

/-- A cell element that the cell branch of `do_set` takes: a text or a value convertible
to a real number. -/
def cell_entry.is_label (e : cell_entry) : Bool :=
  match e with
  | cell_entry.string _ => true
  | cell_entry.real _ => true
  | cell_entry.other => false

/-- The values that `text_label_property::do_set` accepts, following the spec's words:
text, a cell whose elements are all text or convertible to a real number, or a value
that converts to a numeric array. -/
def text_label_accepts (val : octave_value) : Bool :=
  val.is_string ||
  (val.is_cell && val.cell_value.all cell_entry.is_label) ||
  (!val.is_string && !val.is_cell && !(val.array_value Log.empty).2.error_state)

/-! ## `array_property` and `row_vector_property` -/

/-- The class `array_property` for real matrix data: the name kept by its `base_property`
part, the data, the cached limits (`none` when the data has no element of the kind) and
the accumulated type and size constraints; a `dim_vector` constraint is a pair of
integers, a negative entry standing for "any size in this dimension". -/
structure array_property where
  name : String
  data : Matrix
  xmin : Option ℚ
  xmax : Option ℚ
  xminp : Option ℚ
  xmaxp : Option ℚ
  type_constraints : List String
  size_constraints : List (Int × Int)
  deriving DecidableEq, Repr

/-- Modelled from the spec: `array_property::validate`, defined in `graphics.cc`: the
value is a real matrix, its class is among the type constraints when there are any, and
its shape fits one of the size constraints when there are any. -/
def array_property.validate (p : array_property) (v : octave_value) : Bool :=
  match v with
  | octave_value.matrix m =>
    (p.type_constraints.isEmpty || p.type_constraints.contains "double") &&
    (p.size_constraints.isEmpty ||
      p.size_constraints.any (fun d =>
        (d.1 < 0 || d.1 == (m.rows : Int)) && (d.2 < 0 || d.2 == (m.cols : Int))))
  | _ => false

/-- Modelled from the spec: `array_property::is_equal`, defined in `graphics.cc`: "matrix
equality for arrays", the same shape and the same elements. -/
def array_property.is_equal (p : array_property) (v : octave_value) : Bool :=
  match v with
  | octave_value.matrix m => p.data == m
  | _ => false

/-- Modelled from the spec: `array_property::get_data_limits`, defined in `graphics.cc`:
"caches min, max, minimum-positive, and maximum-negative values over the buffer". -/
def array_property.get_data_limits (p : array_property) : array_property :=
  { p with xmin := p.data.data.min?,
           xmax := p.data.data.max?,
           xminp := (p.data.data.filter (fun x => 0 < x)).min?,
           xmaxp := (p.data.data.filter (fun x => x < 0)).max? }

/-- The method `array_property::add_constraint (const dim_vector&)`. -/
def array_property.add_constraint (p : array_property) (dims : Int × Int) : array_property :=
  { p with size_constraints := p.size_constraints ++ [dims] }

/-- The method `array_property::do_set (v)`: the C++ result, the property after the call
and the messages issued. -/
def array_property.do_set (p : array_property) (v : octave_value) :
    Bool × array_property × Log :=
  if p.validate v then
    if !p.is_equal v then
      (true, ({ p with data := (v.array_value Log.empty).1 }).get_data_limits, Log.empty)
    else (false, p, Log.empty)
  else
    (false, p, Log.empty.error ("invalid value for array property \"" ++ p.name ++ "\""))

/-- The constructor `row_vector_property (nm, h, m)`: an `array_property` holding `m`
with the two size constraints N-by-1 and 1-by-N. -/
def row_vector_property.new (nm : String) (m : Matrix) : array_property :=
  ((({ name := nm, data := m, xmin := none, xmax := none, xminp := none, xmaxp := none,
       type_constraints := [], size_constraints := [] } : array_property).get_data_limits
    ).add_constraint (-1, 1)).add_constraint (1, -1)

/-- The method `row_vector_property::do_set (v)`: `array_property::do_set`, then a column
with more than one row is turned into a row. -/
def row_vector_property.do_set (p : array_property) (v : octave_value) :
    Bool × array_property × Log :=
  let r := array_property.do_set p v
  if !r.2.2.error_state then
    let dv : Nat × Nat := (r.2.1.data.rows, r.2.1.data.cols)
    if dv.1 > 1 && dv.2 == 1 then
      (r.1, { r.2.1 with data := r.2.1.data.reshape dv.2 dv.1 }, r.2.2)
    else (r.1, r.2.1, r.2.2)
  else (false, r.2.1, r.2.2)

/-! ## `bool_property` -/

/-- Modelled from the spec: the constant `std::string::npos`. -/
def npos : Nat := 18446744073709551615

/-- Modelled from the spec: `caseless_str::compare (s)` with the default limit `npos`:
the two texts have the same length and agree ignoring letter case. -/
def caseless_str.compare_all (p s : String) : Bool :=
  match caseless_str.compare_loop p.data s.data 0 npos with
  | none => false
  | some _ => p.length == s.length

/-- The method `radio_property::is (v)`. -/
def radio_property.is (p : radio_property) (v : String) : Bool :=
  caseless_str.compare_all v p.current_val

/-- The constructor `bool_property (nm, h, bool val)`: a `radio_property` over the
options on and off, the default being the current value. -/
def bool_property.new (nm : String) (val : Bool) : radio_property :=
  { name := nm,
    vals := ⟨if val then "on" else "off", ["off", "on"]⟩,
    current_val := if val then "on" else "off" }

/-- The method `bool_property::is_on`. -/
def bool_property.is_on (p : radio_property) : Bool := p.is "on"

/-- The method `bool_property::do_set (val)`. -/
def bool_property.do_set (p : radio_property) (val : octave_value) :
    Bool × radio_property × Log :=
  if val.is_bool_scalar then
    radio_property.do_set p (octave_value.string (if val.bool_value then "on" else "off"))
  else radio_property.do_set p val

/-! ## `color_values` -/

/-- The class `color_values`: the 1-by-3 matrix `xrgb`. -/
structure color_values where
  xrgb : Matrix
  deriving DecidableEq, Repr

/-- The `for` loop of `color_values::validate` over the indices that are left, with its
`break` after the first error. -/
def color_values.validate_from (c : color_values) : List Nat → Log → Log
  | [], log => log
  | i :: rest, log =>
    if c.xrgb.xelem i < 0 || c.xrgb.xelem i > 1 then
      log.error "invalid RGB color specification"
    else color_values.validate_from c rest log

/-- The method `color_values::validate`. -/
def color_values.validate (c : color_values) (log : Log) : Log :=
  c.validate_from [0, 1, 2] log

/-- The constructor `color_values (double r, double g, double b)`: the object and the
messages issued. -/
def color_values.new (r g b : ℚ) : color_values × Log :=
  let c : color_values := ⟨⟨1, 3, [r, g, b]⟩⟩
  (c, c.validate Log.empty)

/-! ## `base_graphics_toolkit` -/

/-- The class `base_graphics_toolkit`: its name, its reference count and the answer of
the virtual `is_valid ()`, which is false in the base class itself. -/
structure base_graphics_toolkit where
  name : String
  count : Int
  valid : Bool
  deriving DecidableEq, Repr

/-- The constructor `base_graphics_toolkit (nm)`. -/
def base_graphics_toolkit.new (nm : String) : base_graphics_toolkit := ⟨nm, 0, false⟩

/-- The method `base_graphics_toolkit::is_valid`. -/
def base_graphics_toolkit.is_valid (tk : base_graphics_toolkit) : Bool := tk.valid

/-- The method `base_graphics_toolkit::gripe_invalid (fname)`. -/
def base_graphics_toolkit.gripe_invalid (tk : base_graphics_toolkit) (fname : String)
    (log : Log) : Log :=
  if !tk.is_valid then log.error (fname ++ ": invalid graphics toolkit") else log

/-- What a toolkit operation hands back. -/
inductive toolkit_result where
  | void
  | matrix (m : Matrix)
  | number (d : ℚ)
  | flag (b : Bool)
  deriving DecidableEq, Repr

/-- The method `base_graphics_toolkit::redraw_figure`. -/
def base_graphics_toolkit.redraw_figure (tk : base_graphics_toolkit) (log : Log) :
    toolkit_result × base_graphics_toolkit × Log :=
  (toolkit_result.void, tk, tk.gripe_invalid "redraw_figure" log)

/-- The method `base_graphics_toolkit::print_figure`. -/
def base_graphics_toolkit.print_figure (tk : base_graphics_toolkit) (log : Log) :
    toolkit_result × base_graphics_toolkit × Log :=
  (toolkit_result.void, tk, tk.gripe_invalid "print_figure" log)

/-- The method `base_graphics_toolkit::get_canvas_size`. -/
def base_graphics_toolkit.get_canvas_size (tk : base_graphics_toolkit) (log : Log) :
    toolkit_result × base_graphics_toolkit × Log :=
  (toolkit_result.matrix ⟨1, 2, [0, 0]⟩, tk, tk.gripe_invalid "get_canvas_size" log)

/-- The method `base_graphics_toolkit::get_screen_resolution`. -/
def base_graphics_toolkit.get_screen_resolution (tk : base_graphics_toolkit) (log : Log) :
    toolkit_result × base_graphics_toolkit × Log :=
  (toolkit_result.number 72, tk, tk.gripe_invalid "get_screen_resolution" log)

/-- The method `base_graphics_toolkit::get_screen_size`. -/
def base_graphics_toolkit.get_screen_size (tk : base_graphics_toolkit) (log : Log) :
    toolkit_result × base_graphics_toolkit × Log :=
  (toolkit_result.matrix ⟨1, 2, [0, 0]⟩, tk, tk.gripe_invalid "get_screen_size" log)

/-- The method `base_graphics_toolkit::update (const graphics_object&, int)`. -/
def base_graphics_toolkit.update (tk : base_graphics_toolkit) (log : Log) :
    toolkit_result × base_graphics_toolkit × Log :=
  (toolkit_result.void, tk, tk.gripe_invalid "base_graphics_toolkit::update" log)

/-- The method `base_graphics_toolkit::initialize (const graphics_object&)`. -/
def base_graphics_toolkit.initialize (tk : base_graphics_toolkit) (log : Log) :
    toolkit_result × base_graphics_toolkit × Log :=
  (toolkit_result.flag false, tk, tk.gripe_invalid "base_graphics_toolkit::initialize" log)

/-- The method `base_graphics_toolkit::finalize (const graphics_object&)`. -/
def base_graphics_toolkit.finalize (tk : base_graphics_toolkit) (log : Log) :
    toolkit_result × base_graphics_toolkit × Log :=
  (toolkit_result.void, tk, tk.gripe_invalid "base_graphics_toolkit::finalize" log)

/-- The method `base_graphics_toolkit::close`. -/
def base_graphics_toolkit.close (tk : base_graphics_toolkit) (log : Log) :
    toolkit_result × base_graphics_toolkit × Log :=
  (toolkit_result.void, tk, tk.gripe_invalid "base_graphics_toolkit::close" log)

/-- The virtual operations of a toolkit delegate; `update_object`, `initialize_object`
and `finalize_object` are the overloads of `update`, `initialize` and `finalize` that
take a `graphics_object`. -/
inductive toolkit_op where
  | redraw_figure
  | print_figure
  | get_canvas_size
  | get_screen_resolution
  | get_screen_size
  | update_object
  | initialize_object
  | finalize_object
  | close
  deriving DecidableEq, Repr

/-- The call of an operation on a delegate that runs the bodies of the base class. -/
def base_graphics_toolkit.invoke (tk : base_graphics_toolkit) (op : toolkit_op) (log : Log) :
    toolkit_result × base_graphics_toolkit × Log :=
  match op with
  | toolkit_op.redraw_figure => tk.redraw_figure log
  | toolkit_op.print_figure => tk.print_figure log
  | toolkit_op.get_canvas_size => tk.get_canvas_size log
  | toolkit_op.get_screen_resolution => tk.get_screen_resolution log
  | toolkit_op.get_screen_size => tk.get_screen_size log
  | toolkit_op.update_object => tk.update log
  | toolkit_op.initialize_object => tk.initialize log
  | toolkit_op.finalize_object => tk.finalize log
  | toolkit_op.close => tk.close log

/-! ## `base_graphics_object` -/

/-- The class `base_graphics_object`: the reference count and the toolkit flag. -/
structure base_graphics_object where
  count : Int
  toolkit_flag : Bool
  deriving DecidableEq, Repr

/-- The constructor `base_graphics_object (void)`, the object that the default
`graphics_object` wraps. -/
def base_graphics_object.new : base_graphics_object := ⟨1, false⟩

/-- The method `base_graphics_object::valid_object` of the base class. -/
def base_graphics_object.valid_object (_obj : base_graphics_object) : Bool := false

/-- What an operation on a graphics object hands back: nothing, the undefined
`octave_value ()`, the invalid `graphics_handle ()`, the static stand-in property table,
the default `graphics_toolkit ()`, a text or a flag. -/
inductive object_result where
  | void
  | undefined_value
  | invalid_handle
  | static_properties
  | default_toolkit
  | text (s : String)
  | flag (b : Bool)
  deriving DecidableEq, Repr

/-- The method `base_graphics_object::get_properties` of the base class: an error, and
the static stand-in table. -/
def base_graphics_object.get_properties (obj : base_graphics_object) (log : Log) :
    object_result × base_graphics_object × Log :=
  (object_result.static_properties, obj,
    log.error "base_graphics_object::get_properties: invalid graphics object")

/-- The common shape `if (valid_object ()) get_properties ().f (...); else error (msg);`
of the guarded methods: in the first branch the call goes to the table that
`get_properties ()` hands out, and the object itself is not touched. -/
def base_graphics_object.guarded (obj : base_graphics_object) (res : object_result)
    (msg : String) (log : Log) : object_result × base_graphics_object × Log :=
  if obj.valid_object then (res, obj, (obj.get_properties log).2.2)
  else (res, obj, log.error msg)

/-- The method `base_graphics_object::mark_modified`. -/
def base_graphics_object.mark_modified (obj : base_graphics_object) (log : Log) :
    object_result × base_graphics_object × Log :=
  obj.guarded object_result.void
    "base_graphics_object::mark_modified: invalid graphics object" log

/-- The method `base_graphics_object::override_defaults`. -/
def base_graphics_object.override_defaults (obj : base_graphics_object) (log : Log) :
    object_result × base_graphics_object × Log :=
  obj.guarded object_result.void
    "base_graphics_object::override_defaults: invalid graphics object" log

/-- The method `base_graphics_object::set_from_list`. -/
def base_graphics_object.set_from_list (obj : base_graphics_object) (log : Log) :
    object_result × base_graphics_object × Log :=
  obj.guarded object_result.void
    "base_graphics_object::set_from_list: invalid graphics object" log

/-- The method `base_graphics_object::set (pname, pval)`. -/
def base_graphics_object.set (obj : base_graphics_object) (_pname : String)
    (_pval : octave_value) (log : Log) : object_result × base_graphics_object × Log :=
  obj.guarded object_result.void "base_graphics_object::set: invalid graphics object" log

/-- The method `base_graphics_object::set_defaults`. -/
def base_graphics_object.set_defaults (obj : base_graphics_object) (log : Log) :
    object_result × base_graphics_object × Log :=
  (object_result.void, obj,
    log.error "base_graphics_object::set_defaults: invalid graphics object")

/-- The two overloads of `base_graphics_object::get`. -/
def base_graphics_object.get (obj : base_graphics_object) (log : Log) :
    object_result × base_graphics_object × Log :=
  obj.guarded object_result.undefined_value
    "base_graphics_object::get: invalid graphics object" log

/-- The method `base_graphics_object::get_defaults`. -/
def base_graphics_object.get_defaults (obj : base_graphics_object) (log : Log) :
    object_result × base_graphics_object × Log :=
  (object_result.undefined_value, obj,
    log.error "base_graphics_object::get_defaults: invalid graphics object")

/-- The method `base_graphics_object::get_factory_defaults`. -/
def base_graphics_object.get_factory_defaults (obj : base_graphics_object) (log : Log) :
    object_result × base_graphics_object × Log :=
  (object_result.undefined_value, obj,
    log.error "base_graphics_object::get_factory_defaults: invalid graphics object")

/-- The method `base_graphics_object::get_parent`. -/
def base_graphics_object.get_parent (obj : base_graphics_object) (log : Log) :
    object_result × base_graphics_object × Log :=
  obj.guarded object_result.invalid_handle
    "base_graphics_object::get_parent: invalid graphics object" log

/-- The method `base_graphics_object::get_handle`. -/
def base_graphics_object.get_handle (obj : base_graphics_object) (log : Log) :
    object_result × base_graphics_object × Log :=
  obj.guarded object_result.invalid_handle
    "base_graphics_object::get_handle: invalid graphics object" log

/-- The method `base_graphics_object::remove_child (h)`. -/
def base_graphics_object.remove_child (obj : base_graphics_object) (_h : ℚ) (log : Log) :
    object_result × base_graphics_object × Log :=
  obj.guarded object_result.void
    "base_graphics_object::remove_child: invalid graphics object" log

/-- The method `base_graphics_object::adopt (h)`. -/
def base_graphics_object.adopt (obj : base_graphics_object) (_h : ℚ) (log : Log) :
    object_result × base_graphics_object × Log :=
  obj.guarded object_result.void "base_graphics_object::adopt: invalid graphics object" log

/-- The method `base_graphics_object::reparent (np)`. -/
def base_graphics_object.reparent (obj : base_graphics_object) (_np : ℚ) (log : Log) :
    object_result × base_graphics_object × Log :=
  obj.guarded object_result.void
    "base_graphics_object::reparent: invalid graphics object" log

/-- The method `base_graphics_object::type`: the name that the property table reports
(`base_properties::graphics_object_name` answers "unknonwn") for a valid object, and
"unknown" otherwise. -/
def base_graphics_object.type (obj : base_graphics_object) (log : Log) :
    object_result × base_graphics_object × Log :=
  if obj.valid_object then (object_result.text "unknonwn", obj, (obj.get_properties log).2.2)
  else (object_result.text "unknown", obj, log)

/-- The method `base_graphics_object::defaults`; for a valid object it asks for the type
name and calls `gripe_not_implemented`. -/
def base_graphics_object.defaults (obj : base_graphics_object) (log : Log) :
    object_result × base_graphics_object × Log :=
  if obj.valid_object then
    (object_result.void, obj, (obj.type log).2.2.error "defaults: not implemented")
  else
    (object_result.void, obj,
      log.error "base_graphics_object::default: invalid graphics object")

/-- The method `base_graphics_object::reset_default_properties`; for a valid object it
asks for the type name and calls `gripe_not_implemented`. -/
def base_graphics_object.reset_default_properties (obj : base_graphics_object) (log : Log) :
    object_result × base_graphics_object × Log :=
  if obj.valid_object then
    (object_result.void, obj,
      (obj.type log).2.2.error "reset_default_properties: not implemented")
  else
    (object_result.void, obj,
      log.error "base_graphics_object::default: invalid graphics object")

/-- The method `base_graphics_object::get_toolkit`. -/
def base_graphics_object.get_toolkit (obj : base_graphics_object) (log : Log) :
    object_result × base_graphics_object × Log :=
  obj.guarded object_result.default_toolkit
    "base_graphics_object::get_toolkit: invalid graphics object" log

/-- The method `base_graphics_object::add_property_listener (nm, v, mode)`: the call to
the property table is guarded by `valid_object ()` and there is no `else`. -/
def base_graphics_object.add_property_listener (obj : base_graphics_object) (_nm : String)
    (log : Log) : object_result × base_graphics_object × Log :=
  if obj.valid_object then (object_result.void, obj, (obj.get_properties log).2.2)
  else (object_result.void, obj, log)

/-- The method `base_graphics_object::delete_property_listener (nm, v, mode)`: the call
to the property table is guarded by `valid_object ()` and there is no `else`. -/
def base_graphics_object.delete_property_listener (obj : base_graphics_object) (_nm : String)
    (log : Log) : object_result × base_graphics_object × Log :=
  if obj.valid_object then (object_result.void, obj, (obj.get_properties log).2.2)
  else (object_result.void, obj, log)

/-- The public operations of `base_graphics_object`, with the arguments the bodies of the
base class could look at. -/
inductive object_op where
  | mark_modified
  | override_defaults
  | set_from_list
  | set (pname : String) (pval : octave_value)
  | set_defaults
  | get
  | get_defaults
  | get_factory_defaults
  | get_parent
  | get_handle
  | remove_child (h : ℚ)
  | adopt (h : ℚ)
  | reparent (np : ℚ)
  | defaults
  | get_properties
  | type
  | get_toolkit
  | add_property_listener (nm : String)
  | delete_property_listener (nm : String)
  | reset_default_properties
  deriving DecidableEq, Repr

/-- The call of an operation on a `base_graphics_object`. -/
def base_graphics_object.invoke (obj : base_graphics_object) (op : object_op) (log : Log) :
    object_result × base_graphics_object × Log :=
  match op with
  | object_op.mark_modified => obj.mark_modified log
  | object_op.override_defaults => obj.override_defaults log
  | object_op.set_from_list => obj.set_from_list log
  | object_op.set pname pval => obj.set pname pval log
  | object_op.set_defaults => obj.set_defaults log
  | object_op.get => obj.get log
  | object_op.get_defaults => obj.get_defaults log
  | object_op.get_factory_defaults => obj.get_factory_defaults log
  | object_op.get_parent => obj.get_parent log
  | object_op.get_handle => obj.get_handle log
  | object_op.remove_child h => obj.remove_child h log
  | object_op.adopt h => obj.adopt h log
  | object_op.reparent np => obj.reparent np log
  | object_op.defaults => obj.defaults log
  | object_op.get_properties => obj.get_properties log
  | object_op.type => obj.type log
  | object_op.get_toolkit => obj.get_toolkit log
  | object_op.add_property_listener nm => obj.add_property_listener nm log
  | object_op.delete_property_listener nm => obj.delete_property_listener nm log
  | object_op.reset_default_properties => obj.reset_default_properties log

/-- The operations that the base class answers with an error: all but `type` and the two
listener operations. -/
def object_op.rejected : object_op → Bool
  | object_op.type => false
  | object_op.add_property_listener _ => false
  | object_op.delete_property_listener _ => false
  | _ => true

/-! ## The toolkit flag of a graphics object -/

/-- A call that reaches the toolkit of a graphics object; `initialize_call accepted`
carries the answer of the toolkit's `initialize`. -/
inductive toolkit_call where
  | initialize_call (accepted : Bool)
  | finalize_call
  | update_call (id : Int)
  deriving DecidableEq, Repr

/-- A graphics object together with the calls that its toolkit has received so far,
oldest first. -/
structure object_session where
  obj : base_graphics_object
  calls : List toolkit_call
  deriving DecidableEq, Repr

/-- The method `base_graphics_object::initialize (go)`. `accepts` is the answer of
`get_toolkit ().initialize (go)`, which may depend on the calls the toolkit has seen. -/
def base_graphics_object.initialize (accepts : List toolkit_call → Bool)
    (s : object_session) : object_session :=
  if !s.obj.toolkit_flag then
    { obj := { s.obj with toolkit_flag := accepts s.calls },
      calls := s.calls ++ [toolkit_call.initialize_call (accepts s.calls)] }
  else s

/-- The method `base_graphics_object::finalize (go)`. -/
def base_graphics_object.finalize (s : object_session) : object_session :=
  if s.obj.toolkit_flag then
    { obj := { s.obj with toolkit_flag := false },
      calls := s.calls ++ [toolkit_call.finalize_call] }
  else s

/-- The method `base_graphics_object::update (go, id)`. -/
def base_graphics_object.update (s : object_session) (id : Int) : object_session :=
  if s.obj.toolkit_flag then
    { s with calls := s.calls ++ [toolkit_call.update_call id] }
  else s

/-- The answer that `base_graphics_toolkit::initialize` gives, whatever it has seen. -/
def base_graphics_toolkit.accepts (tk : base_graphics_toolkit) (_seen : List toolkit_call) :
    Bool :=
  match ( base_graphics_toolkit.initialize tk Log.empty).1 with
  | toolkit_result.flag b => b
  | _ => false

/-- The three calls of the toolkit lifecycle on one graphics object. -/
inductive lifecycle_op where
  | initialize_object
  | finalize_object
  | update_object (id : Int)
  deriving DecidableEq, Repr

/-- One lifecycle call on the object. -/
def object_session.step (accepts : List toolkit_call → Bool) (s : object_session) :
    lifecycle_op → object_session
  | lifecycle_op.initialize_object => base_graphics_object.initialize accepts s
  | lifecycle_op.finalize_object => base_graphics_object.finalize s
  | lifecycle_op.update_object id => base_graphics_object.update s id

/-- A sequence of lifecycle calls on the object. -/
def object_session.run (accepts : List toolkit_call → Bool) (s : object_session)
    (ops : List lifecycle_op) : object_session :=
  ops.foldl (object_session.step accepts) s

/-- The object's `initialize` called `n` times in a row. -/
def object_session.initialize_times (accepts : List toolkit_call → Bool) :
    Nat → object_session → object_session
  | 0, s => s
  | n + 1, s =>
    object_session.initialize_times accepts n ( base_graphics_object.initialize accepts s)

/-- The lifecycle that the spec allows, as a reading of the calls a toolkit has received
from a state of the toolkit flag: `initialize` arrives only while the flag is clear and
sets it when accepted, `update` and `finalize` arrive only while it is set, and
`finalize` clears it. The result is the flag after the calls, `none` when a call arrives
out of turn. -/
def toolkit_flag_after : Bool → List toolkit_call → Option Bool
  | flag, [] => some flag
  | flag, toolkit_call.initialize_call a :: rest =>
    if flag then none else toolkit_flag_after a rest
  | flag, toolkit_call.finalize_call :: rest =>
    if flag then toolkit_flag_after false rest else none
  | flag, toolkit_call.update_call _ :: rest =>
    if flag then toolkit_flag_after true rest else none

/-! ## Ordered containers of the standard library -/

/-- The comparison `a < b` of two `std::string`s: lexicographic by character code, a
proper prefix being smaller. -/
def chars_less : List Char → List Char → Bool
  | _, [] => false
  | [], _ :: _ => true
  | a :: as, b :: bs =>
    if a.toNat < b.toNat then true
    else if b.toNat < a.toNat then false
    else chars_less as bs

/-- The comparison `a < b` of two `std::string`s. -/
def string_less (a b : String) : Bool := chars_less a.data b.data

/-- A `std::map` is modelled by the list of its entries in iteration order, that is in
ascending order of the keys under the comparison `lt` of the map. The member `find (key)`:
the first entry whose key is not less than `key`, when `key` is not less than it either. -/
def std_map.find {κ β : Type} (lt : κ → κ → Bool) : List (κ × β) → κ → Option (κ × β)
  | [], _ => none
  | (k, v) :: rest, key =>
    if lt k key then std_map.find lt rest key
    else if lt key k then none
    else some (k, v)

/-- The assignment `m[key] = val` on a `std::map`: an entry with an equivalent key keeps
its key and takes the value, otherwise a new entry is inserted in order. -/
def std_map.assign {κ β : Type} (lt : κ → κ → Bool) : List (κ × β) → κ → β → List (κ × β)
  | [], key, val => [(key, val)]
  | (k, v) :: rest, key, val =>
    if lt k key then (k, v) :: std_map.assign lt rest key val
    else if lt key k then (key, val) :: (k, v) :: rest
    else (k, val) :: rest

/-- The member `erase (key)` of a `std::map`. -/
def std_map.erase {κ β : Type} (lt : κ → κ → Bool) : List (κ × β) → κ → List (κ × β)
  | [], _ => []
  | (k, v) :: rest, key =>
    if lt k key then (k, v) :: std_map.erase lt rest key
    else if lt key k then (k, v) :: rest
    else rest

/-- The member `insert (key)` of a `std::set`, the set being the list of its elements in
ascending order: an equivalent element already there is kept. -/
def std_set.insert {κ : Type} (lt : κ → κ → Bool) : List κ → κ → List κ
  | [], key => [key]
  | k :: rest, key =>
    if lt k key then k :: std_set.insert lt rest key
    else if lt key k then key :: k :: rest
    else k :: rest

/-- The member `erase (key)` of a `std::set`. -/
def std_set.erase {κ : Type} (lt : κ → κ → Bool) : List κ → κ → List κ
  | [], _ => []
  | k :: rest, key =>
    if lt k key then k :: std_set.erase lt rest key
    else if lt key k then k :: rest
    else rest

/-- What the standard library asks of the comparison of an ordered container: a strict
weak ordering. -/
structure strict_weak {κ : Type} (lt : κ → κ → Bool) : Prop where
  irrefl : ∀ a, lt a a = false
  trans : ∀ a b c, lt a b = true → lt b c = true → lt a c = true
  equiv_left : ∀ a b c, lt a b = false → lt b a = false → lt a c = lt b c
  equiv_right : ∀ a b c, lt a b = false → lt b a = false → lt c a = lt c b

/-- The entries of a map come in strictly ascending order of their keys. -/
def std_map.sorted {κ β : Type} (lt : κ → κ → Bool) (m : List (κ × β)) : Prop :=
  List.Pairwise (fun p q => lt p.1 q.1 = true) m

/-! ## The toolkit manager -/

/-- The wrapper `graphics_toolkit`, a counted reference to a toolkit. The model keeps the
toolkit referred to; copies of a wrapper refer to the same toolkit. -/
structure graphics_toolkit where
  rep : base_graphics_toolkit
  deriving DecidableEq, Repr

/-- The constructor `graphics_toolkit (base_graphics_toolkit *b)`. -/
def graphics_toolkit.wrap (b : base_graphics_toolkit) : graphics_toolkit :=
  ⟨{ b with count := b.count + 1 }⟩

/-- The constructor `graphics_toolkit (void)`. -/
def graphics_toolkit.new : graphics_toolkit :=
  graphics_toolkit.wrap (base_graphics_toolkit.new "unknown")

/-- The conversion `operator bool` of `graphics_toolkit`. -/
def graphics_toolkit.to_bool (tk : graphics_toolkit) : Bool := tk.rep.is_valid

/-- The method `graphics_toolkit::get_name`. -/
def graphics_toolkit.get_name (tk : graphics_toolkit) : String := tk.rep.name

/-- The class `gtk_manager`: the name of the default toolkit, the set of the toolkits
known about and the map of the toolkits loaded. -/
structure gtk_manager where
  dtk : String
  available_toolkits : List String
  loaded_toolkits : List (String × graphics_toolkit)
  deriving DecidableEq, Repr

/-- The constructor `gtk_manager (void)`. -/
def gtk_manager.new : gtk_manager := ⟨"gnuplot", [], []⟩

/-- The method `gtk_manager::do_register_toolkit`. -/
def gtk_manager.do_register_toolkit (m : gtk_manager) (name : String) : gtk_manager :=
  { m with available_toolkits := std_set.insert string_less m.available_toolkits name }

/-- The method `gtk_manager::do_unregister_toolkit`. -/
def gtk_manager.do_unregister_toolkit (m : gtk_manager) (name : String) : gtk_manager :=
  { m with available_toolkits := std_set.erase string_less m.available_toolkits name }

/-- The method `gtk_manager::do_load_toolkit`. -/
def gtk_manager.do_load_toolkit (m : gtk_manager) (tk : graphics_toolkit) : gtk_manager :=
  { m with loaded_toolkits := std_map.assign string_less m.loaded_toolkits tk.get_name tk }

/-- The method `gtk_manager::do_unload_toolkit`. -/
def gtk_manager.do_unload_toolkit (m : gtk_manager) (name : String) : gtk_manager :=
  { m with loaded_toolkits := std_map.erase string_less m.loaded_toolkits name }

/-- The method `gtk_manager::do_find_toolkit`. -/
def gtk_manager.do_find_toolkit (m : gtk_manager) (name : String) : graphics_toolkit :=
  match std_map.find string_less m.loaded_toolkits name with
  | some p => p.2
  | none => graphics_toolkit.new

/-- The method `gtk_manager::do_available_toolkits_list`: the elements of the row cell. -/
def gtk_manager.do_available_toolkits_list (m : gtk_manager) : List String :=
  m.available_toolkits

/-- The method `gtk_manager::do_loaded_toolkits_list`: the elements of the row cell. -/
def gtk_manager.do_loaded_toolkits_list (m : gtk_manager) : List String :=
  m.loaded_toolkits.map (fun p => p.1)

/-- The four calls that change a toolkit manager. -/
inductive gtk_op where
  | register_toolkit (name : String)
  | unregister_toolkit (name : String)
  | load_toolkit (tk : graphics_toolkit)
  | unload_toolkit (name : String)
  deriving DecidableEq, Repr

/-- One call on the manager. -/
def gtk_manager.step (m : gtk_manager) : gtk_op → gtk_manager
  | gtk_op.register_toolkit name => m.do_register_toolkit name
  | gtk_op.unregister_toolkit name => m.do_unregister_toolkit name
  | gtk_op.load_toolkit tk => m.do_load_toolkit tk
  | gtk_op.unload_toolkit name => m.do_unload_toolkit name

/-- A sequence of calls on the manager. -/
def gtk_manager.run (m : gtk_manager) (ops : List gtk_op) : gtk_manager :=
  ops.foldl gtk_manager.step m

/-- The method `gtk_manager::do_unload_all_toolkits`, with the toolkits closed so far,
oldest first. `close tk m` is the manager after `tk.close ()`; `fuel` bounds the rounds
of the loop, and the result is `none` when the loop has not ended within them. -/
def gtk_manager.do_unload_all_toolkits (close : graphics_toolkit → gtk_manager → gtk_manager) :
    Nat → gtk_manager → List graphics_toolkit → Option (gtk_manager × List graphics_toolkit)
  | 0, m, closed => if m.loaded_toolkits.isEmpty then some (m, closed) else none
  | fuel + 1, m, closed =>
    match m.loaded_toolkits with
    | [] => some (m, closed)
    | (name, tk) :: _ =>
      let m1 := close tk m
      let m2 :=
        if (std_map.find string_less m1.loaded_toolkits name).isSome
        then m1.do_unload_toolkit name else m1
      gtk_manager.do_unload_all_toolkits close fuel m2 (closed ++ [tk])

/-- The loaded map of a manager is in order and every toolkit is filed under its own
name. -/
def gtk_manager.wf (m : gtk_manager) : Prop :=
  std_map.sorted string_less m.loaded_toolkits ∧
  ∀ p ∈ m.loaded_toolkits, p.1 = p.2.get_name

/-! ## Handles and the handle manager -/

/-- The class `graphics_handle`: a `double`, of which `none` stands for the value that is
not a number. -/
structure graphics_handle where
  val : Option ℚ
  deriving DecidableEq, Repr

/-- The constructor `graphics_handle (void)`, whose value is not a number. -/
def graphics_handle.new : graphics_handle := ⟨none⟩

/-- The method `graphics_handle::value`. -/
def graphics_handle.value (h : graphics_handle) : Option ℚ := h.val

/-- The method `graphics_handle::ok`. -/
def graphics_handle.ok (h : graphics_handle) : Bool := h.val.isSome

/-- The comparison `operator <` of two handles, that of their values; a comparison with
the value that is not a number is false. -/
def graphics_handle.lt (a b : graphics_handle) : Bool :=
  match a.value, b.value with
  | some x, some y => decide (x < y)
  | _, _ => false

/-- The wrapper `graphics_object`, a counted reference to an object of
`base_graphics_object` or of a class derived from it. `derived` tells that the object is
of a derived class (`root_figure`, `figure`, `axes` and so on), each of which overrides
`valid_object` to return true; `handle_visible` is the answer of
`get_properties ().is_handle_visible ()`. -/
structure graphics_object where
  rep : base_graphics_object
  derived : Bool
  handle_visible : Bool
  deriving DecidableEq, Repr

/-- The constructor `graphics_object (void)`, around `new base_graphics_object ()`. -/
def graphics_object.new : graphics_object := ⟨base_graphics_object.new, false, false⟩

/-- The method `graphics_object::valid_object`, which asks the object referred to. -/
def graphics_object.valid_object (go : graphics_object) : Bool :=
  if go.derived then true else go.rep.valid_object

/-- The method `graphics_object::is_handle_visible`. -/
def graphics_object.is_handle_visible (go : graphics_object) : Bool := go.handle_visible

/-- The constructor `Matrix (void)`, the empty matrix. -/
def Matrix.new : Matrix := ⟨0, 0, []⟩

/-- The class `graphics_event` by what its four static constructors make: a callback
named by the property that holds it, a callback given by value, a function with its data
(both given by their addresses) and a property to set. -/
inductive graphics_event where
  | callback_event (h : graphics_handle) (name : String) (data : octave_value)
  | callback_value_event (h : graphics_handle) (cb data : octave_value)
  | function_event (fcn data : Nat)
  | set_event (h : graphics_handle) (name : String) (value : octave_value)
      (notify_toolkit : Bool)
  deriving DecidableEq, Repr

/-- The class `gh_manager`, with the members that the modelled methods read: the map of
handles to objects, the free handles, the next handle, the list of figure handles, the
event processing count and the queue of events. -/
structure gh_manager where
  handle_map : List (graphics_handle × graphics_object)
  handle_free_list : List graphics_handle
  next_handle : ℚ
  figure_list : List graphics_handle
  event_processing : Int
  event_queue : List graphics_event
  deriving DecidableEq, Repr

/-- The method `gh_manager::do_lookup (double val)`, with the manager after the call. -/
def gh_manager.do_lookup (g : gh_manager) (val : Option ℚ) : graphics_handle × gh_manager :=
  let p := if val.isNone then none else std_map.find graphics_handle.lt g.handle_map ⟨val⟩
  match p with
  | some e => (e.1, g)
  | none => (graphics_handle.new, g)

/-- The method `gh_manager::do_get_object (h)`, with the manager after the call. -/
def gh_manager.do_get_object (g : gh_manager) (h : graphics_handle) :
    graphics_object × gh_manager :=
  let p := if h.ok then std_map.find graphics_handle.lt g.handle_map h else none
  match p with
  | some e => (e.2, g)
  | none => (graphics_object.new, g)

/-- The static `gh_manager::is_handle_visible (h)`, as called from a method of the
instance `g`. -/
def gh_manager.is_handle_visible (g : gh_manager) (h : graphics_handle) : Bool :=
  let go := (g.do_get_object h).1
  if go.valid_object then go.is_handle_visible else false

/-- The loop of `gh_manager::do_current_figure` over the rest of `figure_list`, with
`retval` so far. -/
def gh_manager.current_figure_loop (g : gh_manager) :
    List graphics_handle → graphics_handle → graphics_handle
  | [], retval => retval
  | h :: rest, retval =>
    gh_manager.current_figure_loop g rest (if g.is_handle_visible h then h else retval)

/-- The method `gh_manager::do_current_figure`, with the manager after the call. -/
def gh_manager.do_current_figure (g : gh_manager) : graphics_handle × gh_manager :=
  (gh_manager.current_figure_loop g g.figure_list graphics_handle.new, g)

/-- The handle map of a manager is in order and holds no handle that is not a number. -/
def gh_manager.wf (g : gh_manager) : Prop :=
  std_map.sorted graphics_handle.lt g.handle_map ∧ ∀ e ∈ g.handle_map, e.1.ok = true

/-- The static `gh_manager::instance_ok`: the result, `instance` after the call and the
log. `created` is what `create_instance ()` leaves in `instance`, `none` when it could
not create the manager. -/
def gh_manager.instance_ok (created inst : Option gh_manager) (log : Log) :
    Bool × Option gh_manager × Log :=
  let inst1 := if inst.isNone then created else inst
  if inst1.isNone then (false, inst1, log.error "unable to create gh_manager!")
  else (true, inst1, log)

/-- What a static entry point of `gh_manager` hands back. -/
inductive gh_result where
  | void
  | handle (h : graphics_handle)
  | object (go : graphics_object)
  | matrix (m : Matrix)
  | flag (b : Bool)
  | count (n : Int)
  deriving DecidableEq, Repr

/-- The shape `instance_ok () ? instance->member (...) : otherwise` of the static entry
points, also written `if (instance_ok ()) instance->member (...)` where nothing is
returned. -/
def gh_manager.with_instance (created inst : Option gh_manager) (log : Log)
    (member : gh_manager → Log → gh_result × gh_manager × Log) (otherwise : gh_result) :
    gh_result × Option gh_manager × Log :=
  let r := gh_manager.instance_ok created inst log
  match r.1, r.2.1 with
  | true, some g =>
    let q := member g r.2.2
    (q.1, some q.2.1, q.2.2)
  | _, inst1 => (otherwise, inst1, r.2.2)

/-- The methods of `gh_manager` behind the static entry points whose bodies are not in
`graphics.in.h`, or that act on members left out of the model (the lock, the event
queue). -/
structure gh_members where
  do_get_handle : Bool → gh_manager → Log → gh_result × gh_manager × Log
  do_free : graphics_handle → gh_manager → Log → gh_result × gh_manager × Log
  do_make_graphics_handle : String → graphics_handle → Bool → Bool → Bool →
    gh_manager → Log → gh_result × gh_manager × Log
  do_make_figure_handle : Option ℚ → Bool → gh_manager → Log → gh_result × gh_manager × Log
  do_push_figure : graphics_handle → gh_manager → Log → gh_result × gh_manager × Log
  do_pop_figure : graphics_handle → gh_manager → Log → gh_result × gh_manager × Log
  do_handle_list : Bool → gh_manager → Log → gh_result × gh_manager × Log
  do_figure_handle_list : Bool → gh_manager → Log → gh_result × gh_manager × Log
  do_try_lock : gh_manager → Log → gh_result × gh_manager × Log
  do_post_callback : graphics_handle → String → octave_value →
    gh_manager → Log → gh_result × gh_manager × Log
  do_post_function : Nat → Nat → gh_manager → Log → gh_result × gh_manager × Log
  do_post_set : graphics_handle → String → octave_value → Bool →
    gh_manager → Log → gh_result × gh_manager × Log
  do_process_events : Bool → gh_manager → Log → gh_result × gh_manager × Log

/-- The static `gh_manager::get_handle`. -/
def gh_manager.get_handle (ms : gh_members) (created inst : Option gh_manager) (log : Log)
    (integer_figure_handle : Bool) : gh_result × Option gh_manager × Log :=
  gh_manager.with_instance created inst log (ms.do_get_handle integer_figure_handle)
    (gh_result.handle graphics_handle.new)

/-- The static `gh_manager::free`. -/
def gh_manager.free (ms : gh_members) (created inst : Option gh_manager) (log : Log)
    (h : graphics_handle) : gh_result × Option gh_manager × Log :=
  gh_manager.with_instance created inst log (ms.do_free h) gh_result.void

/-- The static `gh_manager::lookup (double val)`. -/
def gh_manager.lookup (created inst : Option gh_manager) (log : Log) (val : Option ℚ) :
    gh_result × Option gh_manager × Log :=
  gh_manager.with_instance created inst log
    (fun g l => (gh_result.handle (g.do_lookup val).1, (g.do_lookup val).2, l))
    (gh_result.handle graphics_handle.new)

/-- The static `gh_manager::get_object (const graphics_handle& h)`. -/
def gh_manager.get_object (created inst : Option gh_manager) (log : Log)
    (h : graphics_handle) : gh_result × Option gh_manager × Log :=
  gh_manager.with_instance created inst log
    (fun g l => (gh_result.object (g.do_get_object h).1, (g.do_get_object h).2, l))
    (gh_result.object graphics_object.new)

/-- The static `gh_manager::make_graphics_handle`. -/
def gh_manager.make_graphics_handle (ms : gh_members) (created inst : Option gh_manager)
    (log : Log) (go_name : String) (parent : graphics_handle)
    (integer_figure_handle do_createfcn do_notify_toolkit : Bool) :
    gh_result × Option gh_manager × Log :=
  gh_manager.with_instance created inst log
    (ms.do_make_graphics_handle go_name parent integer_figure_handle do_createfcn
      do_notify_toolkit)
    (gh_result.handle graphics_handle.new)

/-- The static `gh_manager::make_figure_handle`. -/
def gh_manager.make_figure_handle (ms : gh_members) (created inst : Option gh_manager)
    (log : Log) (val : Option ℚ) (do_notify_toolkit : Bool) :
    gh_result × Option gh_manager × Log :=
  gh_manager.with_instance created inst log (ms.do_make_figure_handle val do_notify_toolkit)
    (gh_result.handle graphics_handle.new)

/-- The static `gh_manager::push_figure`. -/
def gh_manager.push_figure (ms : gh_members) (created inst : Option gh_manager) (log : Log)
    (h : graphics_handle) : gh_result × Option gh_manager × Log :=
  gh_manager.with_instance created inst log (ms.do_push_figure h) gh_result.void

/-- The static `gh_manager::pop_figure`. -/
def gh_manager.pop_figure (ms : gh_members) (created inst : Option gh_manager) (log : Log)
    (h : graphics_handle) : gh_result × Option gh_manager × Log :=
  gh_manager.with_instance created inst log (ms.do_pop_figure h) gh_result.void

/-- The static `gh_manager::current_figure`. -/
def gh_manager.current_figure (created inst : Option gh_manager) (log : Log) :
    gh_result × Option gh_manager × Log :=
  gh_manager.with_instance created inst log
    (fun g l => (gh_result.handle g.do_current_figure.1, g.do_current_figure.2, l))
    (gh_result.handle graphics_handle.new)

/-- The static `gh_manager::handle_list`. -/
def gh_manager.handle_list (ms : gh_members) (created inst : Option gh_manager) (log : Log)
    (show_hidden : Bool) : gh_result × Option gh_manager × Log :=
  gh_manager.with_instance created inst log (ms.do_handle_list show_hidden)
    (gh_result.matrix Matrix.new)

/-- The static `gh_manager::figure_handle_list`. -/
def gh_manager.figure_handle_list (ms : gh_members) (created inst : Option gh_manager)
    (log : Log) (show_hidden : Bool) : gh_result × Option gh_manager × Log :=
  gh_manager.with_instance created inst log (ms.do_figure_handle_list show_hidden)
    (gh_result.matrix Matrix.new)

/-- The static `gh_manager::try_lock`. -/
def gh_manager.try_lock (ms : gh_members) (created inst : Option gh_manager) (log : Log) :
    gh_result × Option gh_manager × Log :=
  gh_manager.with_instance created inst log ms.do_try_lock (gh_result.flag false)

/-- The static `gh_manager::post_callback`. -/
def gh_manager.post_callback (ms : gh_members) (created inst : Option gh_manager) (log : Log)
    (h : graphics_handle) (name : String) (data : octave_value) :
    gh_result × Option gh_manager × Log :=
  gh_manager.with_instance created inst log (ms.do_post_callback h name data) gh_result.void

/-- The static `gh_manager::post_function`; the function and its data are given by their
addresses. -/
def gh_manager.post_function (ms : gh_members) (created inst : Option gh_manager) (log : Log)
    (fcn data : Nat) : gh_result × Option gh_manager × Log :=
  gh_manager.with_instance created inst log (ms.do_post_function fcn data) gh_result.void

/-- The static `gh_manager::post_set`. -/
def gh_manager.post_set (ms : gh_members) (created inst : Option gh_manager) (log : Log)
    (h : graphics_handle) (name : String) (value : octave_value) (notify_toolkit : Bool) :
    gh_result × Option gh_manager × Log :=
  gh_manager.with_instance created inst log (ms.do_post_set h name value notify_toolkit)
    gh_result.void

/-- The static `gh_manager::process_events`. -/
def gh_manager.process_events (ms : gh_members) (created inst : Option gh_manager)
    (log : Log) : gh_result × Option gh_manager × Log :=
  gh_manager.with_instance created inst log (ms.do_process_events false) (gh_result.count 0)

/-- The static `gh_manager::flush_events`. -/
def gh_manager.flush_events (ms : gh_members) (created inst : Option gh_manager)
    (log : Log) : gh_result × Option gh_manager × Log :=
  gh_manager.with_instance created inst log (ms.do_process_events true) (gh_result.count 0)

/-- A call of one of the static entry points of `gh_manager`, with its arguments. -/
inductive gh_call where
  | get_handle (integer_figure_handle : Bool)
  | free (h : graphics_handle)
  | lookup (val : Option ℚ)
  | get_object (h : graphics_handle)
  | make_graphics_handle (go_name : String) (parent : graphics_handle)
      (integer_figure_handle do_createfcn do_notify_toolkit : Bool)
  | make_figure_handle (val : Option ℚ) (do_notify_toolkit : Bool)
  | push_figure (h : graphics_handle)
  | pop_figure (h : graphics_handle)
  | current_figure
  | handle_list (show_hidden : Bool)
  | figure_handle_list (show_hidden : Bool)
  | try_lock
  | post_callback (h : graphics_handle) (name : String) (data : octave_value)
  | post_function (fcn data : Nat)
  | post_set (h : graphics_handle) (name : String) (value : octave_value)
      (notify_toolkit : Bool)
  | process_events
  | flush_events

/-- The call carried out. -/
def gh_manager.invoke (ms : gh_members) (created inst : Option gh_manager) (log : Log) :
    gh_call → gh_result × Option gh_manager × Log
  | gh_call.get_handle i => gh_manager.get_handle ms created inst log i
  | gh_call.free h => gh_manager.free ms created inst log h
  | gh_call.lookup val => gh_manager.lookup created inst log val
  | gh_call.get_object h => gh_manager.get_object created inst log h
  | gh_call.make_graphics_handle n p i c t =>
    gh_manager.make_graphics_handle ms created inst log n p i c t
  | gh_call.make_figure_handle val t => gh_manager.make_figure_handle ms created inst log val t
  | gh_call.push_figure h => gh_manager.push_figure ms created inst log h
  | gh_call.pop_figure h => gh_manager.pop_figure ms created inst log h
  | gh_call.current_figure => gh_manager.current_figure created inst log
  | gh_call.handle_list s => gh_manager.handle_list ms created inst log s
  | gh_call.figure_handle_list s => gh_manager.figure_handle_list ms created inst log s
  | gh_call.try_lock => gh_manager.try_lock ms created inst log
  | gh_call.post_callback h n d => gh_manager.post_callback ms created inst log h n d
  | gh_call.post_function f d => gh_manager.post_function ms created inst log f d
  | gh_call.post_set h n v t => gh_manager.post_set ms created inst log h n v t
  | gh_call.process_events => gh_manager.process_events ms created inst log
  | gh_call.flush_events => gh_manager.flush_events ms created inst log

/-- What the spec says each entry point hands back while there is no manager: the invalid
handle, an invalid object, an empty list, false, zero, or nothing. -/
def gh_call.without_manager : gh_call → gh_result
  | gh_call.get_handle _ => gh_result.handle graphics_handle.new
  | gh_call.lookup _ => gh_result.handle graphics_handle.new
  | gh_call.make_graphics_handle _ _ _ _ _ => gh_result.handle graphics_handle.new
  | gh_call.make_figure_handle _ _ => gh_result.handle graphics_handle.new
  | gh_call.current_figure => gh_result.handle graphics_handle.new
  | gh_call.get_object _ => gh_result.object graphics_object.new
  | gh_call.handle_list _ => gh_result.matrix Matrix.new
  | gh_call.figure_handle_list _ => gh_result.matrix Matrix.new
  | gh_call.try_lock => gh_result.flag false
  | gh_call.process_events => gh_result.count 0
  | gh_call.flush_events => gh_result.count 0
  | gh_call.free _ => gh_result.void
  | gh_call.push_figure _ => gh_result.void
  | gh_call.pop_figure _ => gh_result.void
  | gh_call.post_callback _ _ _ => gh_result.void
  | gh_call.post_function _ _ => gh_result.void
  | gh_call.post_set _ _ _ _ => gh_result.void

/-! ## Default and factory properties -/

/-- The methods that `set` and `get` of an object hand a name on to and whose bodies are
not in `graphics.in.h`: `property_list::set` and `property_list::lookup` on the state `PL`
of a property list, and `set` and `get` of the property table `xproperties`, of state
`XP`. A value `none` is the undefined `octave_value ()`. -/
structure defaults_env (PL XP : Type) where
  plist_set : PL → String → octave_value → Log → PL × Log
  plist_lookup : PL → String → Option octave_value
  props_set : XP → String → octave_value → Log → XP × Log
  props_get : XP → String → Log → Option octave_value × Log

/-- The class `root_figure`: its default properties, the static factory properties and
its property table. -/
structure root_figure (PL XP : Type) where
  default_properties : PL
  factory_properties : PL
  xproperties : XP

/-- The members `default_properties` and `xproperties` of the classes `figure`, `axes`
and `uitoolbar`. -/
structure defaults_object (PL XP : Type) where
  default_properties : PL
  xproperties : XP

/-- The method `root_figure::set (name, value)`. -/
def root_figure.set {PL XP : Type} (env : defaults_env PL XP) (obj : root_figure PL XP)
    (name : String) (value : octave_value) (log : Log) : root_figure PL XP × Log :=
  if caseless_str.compare name "default" 7 then
    let r := env.plist_set obj.default_properties (substr_from name 7) value log
    ({ obj with default_properties := r.1 }, r.2)
  else
    let r := env.props_set obj.xproperties name value log
    ({ obj with xproperties := r.1 }, r.2)

/-- The method `root_figure::get_default (name)`. -/
def root_figure.get_default {PL XP : Type} (env : defaults_env PL XP)
    (obj : root_figure PL XP) (name : String) (log : Log) : Option octave_value × Log :=
  match env.plist_lookup obj.default_properties name with
  | some v => (some v, log)
  | none =>
    match env.plist_lookup obj.factory_properties name with
    | some v => (some v, log)
    | none => (none, log.error ("get: invalid default property `" ++ name ++ "'"))

/-- The method `root_figure::get_factory_default (name)`. -/
def root_figure.get_factory_default {PL XP : Type} (env : defaults_env PL XP)
    (obj : root_figure PL XP) (name : String) (log : Log) : Option octave_value × Log :=
  match env.plist_lookup obj.factory_properties name with
  | some v => (some v, log)
  | none => (none, log.error ("get: invalid factory default property `" ++ name ++ "'"))

/-- The method `root_figure::get (name)`. -/
def root_figure.get {PL XP : Type} (env : defaults_env PL XP) (obj : root_figure PL XP)
    (name : String) (log : Log) : Option octave_value × Log :=
  if caseless_str.compare name "default" 7 then
    root_figure.get_default env obj (substr_from name 7) log
  else if caseless_str.compare name "factory" 7 then
    root_figure.get_factory_default env obj (substr_from name 7) log
  else env.props_get obj.xproperties name log

/-- The method `figure::set (name, value)`. -/
def figure.set {PL XP : Type} (env : defaults_env PL XP) (obj : defaults_object PL XP)
    (name : String) (value : octave_value) (log : Log) : defaults_object PL XP × Log :=
  if caseless_str.compare name "default" 7 then
    let r := env.plist_set obj.default_properties (substr_from name 7) value log
    ({ obj with default_properties := r.1 }, r.2)
  else
    let r := env.props_set obj.xproperties name value log
    ({ obj with xproperties := r.1 }, r.2)

/-- The method `figure::get (name)`; `get_default` is `figure::get_default`, whose body is
not in `graphics.in.h`. -/
def figure.get {PL XP : Type} (env : defaults_env PL XP)
    (get_default : defaults_object PL XP → String → Log → Option octave_value × Log)
    (obj : defaults_object PL XP) (name : String) (log : Log) : Option octave_value × Log :=
  if caseless_str.compare name "default" 7 then get_default obj (substr_from name 7) log
  else env.props_get obj.xproperties name log

/-- The method `axes::set (name, value)`. -/
def axes.set {PL XP : Type} (env : defaults_env PL XP) (obj : defaults_object PL XP)
    (name : String) (value : octave_value) (log : Log) : defaults_object PL XP × Log :=
  if caseless_str.compare name "default" 7 then
    let r := env.plist_set obj.default_properties (substr_from name 7) value log
    ({ obj with default_properties := r.1 }, r.2)
  else
    let r := env.props_set obj.xproperties name value log
    ({ obj with xproperties := r.1 }, r.2)

/-- The method `axes::get (name)`; `get_default` is `axes::get_default`, whose body is not
in `graphics.in.h`. -/
def axes.get {PL XP : Type} (env : defaults_env PL XP)
    (get_default : defaults_object PL XP → String → Log → Option octave_value × Log)
    (obj : defaults_object PL XP) (name : String) (log : Log) : Option octave_value × Log :=
  if caseless_str.compare name "default" 7 then get_default obj (substr_from name 7) log
  else env.props_get obj.xproperties name log

/-- The method `uitoolbar::set (name, value)`. -/
def uitoolbar.set {PL XP : Type} (env : defaults_env PL XP) (obj : defaults_object PL XP)
    (name : String) (value : octave_value) (log : Log) : defaults_object PL XP × Log :=
  if caseless_str.compare name "default" 7 then
    let r := env.plist_set obj.default_properties (substr_from name 7) value log
    ({ obj with default_properties := r.1 }, r.2)
  else
    let r := env.props_set obj.xproperties name value log
    ({ obj with xproperties := r.1 }, r.2)

/-- The method `uitoolbar::get (name)`; `get_default` is `uitoolbar::get_default`, whose
body is not in `graphics.in.h`. -/
def uitoolbar.get {PL XP : Type} (env : defaults_env PL XP)
    (get_default : defaults_object PL XP → String → Log → Option octave_value × Log)
    (obj : defaults_object PL XP) (name : String) (log : Log) : Option octave_value × Log :=
  if caseless_str.compare name "default" 7 then get_default obj (substr_from name 7) log
  else env.props_get obj.xproperties name log

/-- Modelled from the spec: `figure::get_default`, `axes::get_default` and
`uitoolbar::get_default`, which are declared in `graphics.in.h` with their bodies
elsewhere. A name with the prefix is redirected to "per-type default/factory property
tables instead of the live instance": the name is looked up in the default property list of
the object, as `root_figure::get_default` does it, and what that list does not hold is
asked of the "parent/global default lists", whose answer is the parameter `inherited`. The
property table `xproperties` is not read. -/
def defaults_object.get_default {PL XP : Type} (env : defaults_env PL XP)
    (inherited : String → Log → Option octave_value × Log)
    (obj : defaults_object PL XP) (name : String) (log : Log) : Option octave_value × Log :=
  match env.plist_lookup obj.default_properties name with
  | some v => (some v, log)
  | none => inherited name log

/-! ## The name map of a property table -/

/-- The part of `base_property` that `insert_property` writes, with the `id` that tells
properties apart. -/
structure base_property where
  id : Int
  name : String
  parent : graphics_handle
  hidden : Bool
  deriving DecidableEq, Repr

/-- The comparison `base_properties::cmp_caseless_str`: both names in lower case,
compared as `std::string`s. -/
def cmp_caseless_str (a b : String) : Bool := string_less ⟨fold_case a⟩ ⟨fold_case b⟩

/-- The members `all_props` and `__myhandle__` of `base_properties`; a `property` is the
`base_property` it refers to. -/
structure base_properties where
  all_props : List (String × base_property)
  myhandle : graphics_handle
  deriving DecidableEq, Repr

/-- The method `base_properties::insert_property (name, p)`. -/
def base_properties.insert_property (bp : base_properties) (name : String)
    (p : base_property) : base_properties :=
  { bp with all_props := std_map.assign cmp_caseless_str bp.all_props name
                           { p with name := name, parent := bp.myhandle } }

/-- The lookup `all_props.find (name)`. -/
def base_properties.find (bp : base_properties) (name : String) :
    Option (String × base_property) :=
  std_map.find cmp_caseless_str bp.all_props name

/-! ## Construction of a `children_property` -/

/-- The method `children_property::do_init_children (const Matrix& val)`. -/
def children_property.do_init_children_matrix (p : children_property) (val : Matrix) :
    children_property :=
  { p with children_list := (List.range val.numel).foldl (fun l i => val.xelem i :: l) [] }

/-- The constructor `children_property (nm, h, val)`. -/
def children_property.new (nm : String) (val : Matrix) : children_property :=
  children_property.do_init_children_matrix { name := nm, children_list := [] } val

/-- The children adopted one after the other, first to last. -/
def children_property.adopt_all (p : children_property) (vs : List ℚ) : children_property :=
  vs.foldl children_property.adopt p

/-! ## Listeners of a property -/

/-- The enumeration `listener_mode`. -/
inductive listener_mode where
  | POSTSET
  | PERSISTENT
  | PREDELETE
  deriving DecidableEq, Repr

/-- Modelled from the spec: an `octave_value` as the listener lists look at it (the class
is declared in `ov.h`): the address that `internal_rep ()` returns, `none` for the
undefined `octave_value ()`. -/
structure listener_value where
  rep : Option Nat
  deriving DecidableEq, Repr

/-- Modelled from the spec: `octave_value::is_defined`. -/
def listener_value.is_defined (v : listener_value) : Bool := v.rep.isSome

/-- Modelled from the spec: `octave_value::internal_rep`, compared by address. -/
def listener_value.internal_rep (v : listener_value) : Option Nat := v.rep

/-- The member `listeners` of `base_property`, a map from the three modes to lists of
listeners; a mode without an entry reads as the empty list, which `operator []` creates. -/
structure listener_map where
  postset : List listener_value
  persistent : List listener_value
  predelete : List listener_value
  deriving DecidableEq, Repr

/-- The access `listeners[mode]`, read. -/
def listener_map.get (m : listener_map) : listener_mode → List listener_value
  | listener_mode.POSTSET => m.postset
  | listener_mode.PERSISTENT => m.persistent
  | listener_mode.PREDELETE => m.predelete

/-- The access `listeners[mode]`, written through the reference `l`. -/
def listener_map.set (m : listener_map) (mode : listener_mode) (l : List listener_value) :
    listener_map :=
  match mode with
  | listener_mode.POSTSET => { m with postset := l }
  | listener_mode.PERSISTENT => { m with persistent := l }
  | listener_mode.PREDELETE => { m with predelete := l }

/-- The method `base_property::add_listener (v, mode)` on the member `listeners`;
`l.resize (l.length () + 1, v)` makes the list one longer with `v` in the new place. -/
def base_property.add_listener (listeners : listener_map) (v : listener_value)
    (mode : listener_mode) : listener_map :=
  listeners.set mode (listeners.get mode ++ [v])

/-- The first loop of `base_property::delete_listener` with what follows it: the list
without its first entry whose `internal_rep ()` is that of `v`, the entries behind it
moved up by one; the list as it is when there is no such entry. -/
def base_property.delete_first (v : listener_value) : List listener_value →
    List listener_value
  | [] => []
  | x :: rest =>
    if v.internal_rep == x.internal_rep then rest
    else x :: base_property.delete_first v rest

/-- The inner loop of `base_property::delete_listener` over the persistent listeners:
whether one of them has the `internal_rep ()` of `x`. -/
def base_property.persistent_hit (x : listener_value) : List listener_value → Bool
  | [] => false
  | y :: rest =>
    if x.internal_rep == y.internal_rep then true
    else base_property.persistent_hit x rest

/-- The outer loop of `base_property::delete_listener`, which walks `l` from its last
entry to its first; the argument is the part of `l` still to walk, last entry first, with
`lnew` so far. -/
def base_property.retain_loop (lp : List listener_value) :
    List listener_value → List listener_value → List listener_value
  | [], lnew => lnew
  | x :: rest, lnew =>
    base_property.retain_loop lp rest
      (if base_property.persistent_hit x lp then lnew ++ [x] else lnew)

/-- The method `base_property::delete_listener (v, mode)` on the member `listeners`. -/
def base_property.delete_listener (listeners : listener_map) (v : listener_value)
    (mode : listener_mode) : listener_map :=
  let l := listeners.get mode
  if v.is_defined then
    listeners.set mode (base_property.delete_first v l)
  else if mode == listener_mode.PERSISTENT then
    listeners.set mode []
  else
    let lp := listeners.get listener_mode.PERSISTENT
    listeners.set mode (base_property.retain_loop lp l.reverse [])

/-- Modelled from the spec: `base_property::run_listeners (mode)`, defined in
`graphics.cc`: the listeners of the mode that are invoked, "in registration order exactly
once each", that is in the order of the list. -/
def base_property.run_listeners (listeners : listener_map) (mode : listener_mode) :
    List listener_value :=
  listeners.get mode

/-! ## Limits of an axes object -/

/-- Modelled from the spec: `octave_value::is_empty` of the matrix that an array property
holds: it has no element. -/
def Matrix.is_empty (m : Matrix) : Bool := m.numel == 0

/-- Modelled from the spec: the assignment `l(i) = x` to an element of a `Matrix`. -/
def Matrix.set_elem (m : Matrix) (i : Nat) (x : ℚ) : Matrix :=
  { m with data := m.data.set i x }

/-- The messages of two logs, one after the other. -/
def Log.append (a b : Log) : Log := ⟨a.errors ++ b.errors, a.warnings ++ b.warnings⟩

/-- Modelled from the spec: `base_property::set (v)` on an array property, defined in
`graphics.cc` ("Delegate to the Property's `set`"): the value goes to the virtual `do_set`,
whose result is returned; notifying the toolkit and running the listeners leave the
property as it is. -/
def array_property.set (do_set : array_property → octave_value → Bool × array_property × Log)
    (p : array_property) (v : octave_value) (log : Log) : Bool × array_property × Log :=
  let r := do_set p v
  (r.1, r.2.1, log.append r.2.2)

/-! ## Arithmetic of `double`, `float` and `octave_idx_type` -/

/-- The integer nearest to `z`, the even one of the two when `z` lies midway. -/
def round_half_even (z : ℚ) : Int :=
  let f := Int.floor z
  if z - f < 1 / 2 then f
  else if 1 / 2 < z - f then f + 1
  else if f % 2 = 0 then f else f + 1

/-- The number nearest to `x`, ties to even, among those of the binary floating-point
format with `p` bits of precision and least exponent `emin`, the exponent not bounded
above: the multiples of `2 ^ (e - (p - 1))`, where `e` is the binary exponent of `x` and
no less than `emin`. -/
def binary_nearest (p : Nat) (emin : Int) (x : ℚ) : ℚ :=
  let e := max (Int.log 2 |x|) emin
  let q : ℚ := 2 ^ (e - (p - 1))
  round_half_even (x / q) * q

/-- The rounding of IEEE 754 to nearest, ties to even, into the format with `p` bits of
precision and exponents from `emin` to `emax`; `none` when the rounded number is beyond
the largest finite one and the result is an infinity. -/
def binary_round (p : Nat) (emin emax : Int) (x : ℚ) : Option ℚ :=
  let r := binary_nearest p emin x
  if |r| < 2 ^ (emax + 1) then some r else none

/-- The value that a `double` holds for the exact result `x` of an operation: binary64. -/
def double_round (x : ℚ) : Option ℚ := binary_round 53 (-1022) 1023 x

/-- The value that a `float` holds for `x`: binary32. -/
def float_round (x : ℚ) : Option ℚ := binary_round 24 (-126) 127 x

/-- The product of two `octave_idx_type` values of `w` bits; `none` when it does not fit
the type, the overflow of a signed integer being undefined. The width of the type is fixed
by the configuration of the build. -/
def idx_mul (w : Nat) (a b : Int) : Option Int :=
  if -(2 ^ (w - 1)) ≤ a * b ∧ a * b < 2 ^ (w - 1) then some (a * b) else none

/-! ## The limit hook of an axes object -/

/-- The method `axes::properties::fix_limits (lims)`; `do_set` is the virtual `do_set` of
the property, which the assignment `lims = l` reaches. The two limits are `double`
values, and `l(0) -= 0.5` and `l(1) += 0.5` store the rounded difference and sum; the
result is `none` when one of them is not finite. -/
def axes.properties.fix_limits
    (do_set : array_property → octave_value → Bool × array_property × Log)
    (lims : array_property) (log : Log) : Option (array_property × Log) :=
  if lims.data.is_empty then some (lims, log)
  else
    let l := lims.data
    if l.xelem 0 > l.xelem 1 then
      let l1 := l.set_elem 0 0
      let l2 := l1.set_elem 1 1
      let r := array_property.set do_set lims (octave_value.matrix l2) log
      some (r.2.1, r.2.2)
    else if l.xelem 0 == l.xelem 1 then
      match double_round (l.xelem 0 - 1 / 2) with
      | none => none
      | some a =>
        let l1 := l.set_elem 0 a
        match double_round (l1.xelem 1 + 1 / 2) with
        | none => none
        | some b =>
          let l2 := l1.set_elem 1 b
          let r := array_property.set do_set lims (octave_value.matrix l2) log
          some (r.2.1, r.2.2)
    else some (lims, log)

/-! ## Pixel size of an image -/

/-- The 1-by-4 matrix that `get_limits ()` returns for data with at least one element:
the smallest and the largest element, which are numbers, and the smallest positive and
the largest negative element, `none` when the data has no such element and the entry is
infinite. -/
structure data_limits where
  min_val : ℚ
  max_val : ℚ
  min_pos : Option ℚ
  max_neg : Option ℚ
  deriving DecidableEq, Repr

/-- The method `array_property::get_limits` for data with at least one element; `none`
for data without elements, whose limits are all infinite. -/
def array_property.get_limits (p : array_property) : Option data_limits :=
  match p.xmin, p.xmax with
  | some a, some b => some ⟨a, b, p.xminp, p.xmaxp⟩
  | _, _ => none

/-- The method `image::properties::pixel_size (dim, limits)`, for a dimension `dim` and an
index type of `w` bits. The difference of the limits and the quotient are formed in
`double`, `2*l` in `octave_idx_type`, and the assignment to the `float dp` rounds once
more; the result is `none` when `2*l` does not fit its type or when a value is not
finite. -/
def image.properties.pixel_size (w : Nat) (dim : Int) (limits : data_limits) : Option ℚ :=
  let l := dim - 1
  let dp : Option ℚ :=
    if l > 0 && limits.min_val != limits.max_val then
      (double_round (limits.max_val - limits.min_val)).bind (fun d =>
        (idx_mul w 2 l).bind (fun n =>
          (double_round n).bind (fun m => double_round (d / m))))
    else if limits.min_pos == some limits.max_val then some (1 / 2)
    else
      (double_round (limits.max_val - limits.min_val)).bind (fun d => double_round (d / 2))
  dp.bind float_round

/-! ## The toolkit of a figure -/

/-- The members of `figure::properties` that `set___graphics_toolkit__` writes: the
toolkit of the figure and the flag that marks the figure modified. -/
structure figure_properties where
  toolkit : graphics_toolkit
  modified : Bool
  deriving DecidableEq, Repr

/-- Modelled from the spec: `figure::properties::set_toolkit (b)`, defined in
`graphics.cc`: it "replaces the figure's toolkit". -/
def figure.properties.set_toolkit (p : figure_properties) (b : graphics_toolkit) :
    figure_properties :=
  { p with toolkit := b }

/-- Modelled from the spec: `base_properties::mark_modified`, defined in `graphics.cc`:
it "marks the figure modified". -/
def figure.properties.mark_modified (p : figure_properties) : figure_properties :=
  { p with modified := true }

/-- The method `figure::properties::set___graphics_toolkit__ (val)`; `m` is the toolkit
manager behind `gtk_manager::find_toolkit`. -/
def figure.properties.set___graphics_toolkit__ (m : gtk_manager) (p : figure_properties)
    (val : octave_value) (log : Log) : figure_properties × Log :=
  if !log.error_state then
    if val.is_string then
      let nm := val.string_value
      let b := m.do_find_toolkit nm
      if b.get_name != nm then
        (p, log.error "set___graphics_toolkit__: invalid graphics toolkit")
      else
        (figure.properties.mark_modified (figure.properties.set_toolkit p b), log)
    else (p, log.error "set___graphics_toolkit__ must be a string")
  else (p, log)

/-! ## `DiagArray2` -/

/-- The class `DiagArray2<T>`: the elements of the inherited `Array<T>`, which holds the
diagonal as a column, and the two dimensions. -/
structure DiagArray2 (α : Type) where
  elems : List α
  m_d1 : Int
  m_d2 : Int
  deriving DecidableEq, Repr

/-- The constructor `DiagArray2 (r, c)`; `fresh i` is what the new array holds in place
`i`. -/
def DiagArray2.new {α : Type} (r c : Int) (fresh : Nat → α) : DiagArray2 α :=
  ⟨(List.range (min r c).toNat).map fresh, r, c⟩

/-- The constructor `DiagArray2 (r, c, val)`. -/
def DiagArray2.new_fill {α : Type} (r c : Int) (val : α) : DiagArray2 α :=
  ⟨List.replicate (min r c).toNat val, r, c⟩

/-- The method `DiagArray2::dim1`. -/
def DiagArray2.dim1 {α : Type} (a : DiagArray2 α) : Int := a.m_d1

/-- The method `DiagArray2::dim2`. -/
def DiagArray2.dim2 {α : Type} (a : DiagArray2 α) : Int := a.m_d2

/-- The method `DiagArray2::rows`. -/
def DiagArray2.rows {α : Type} (a : DiagArray2 α) : Int := a.dim1

/-- The method `DiagArray2::cols`. -/
def DiagArray2.cols {α : Type} (a : DiagArray2 α) : Int := a.dim2

/-- The method `DiagArray2::diag_length`, the `numel ()` of the inherited array. -/
def DiagArray2.diag_length {α : Type} (a : DiagArray2 α) : Int := a.elems.length

/-- The method `DiagArray2::length`. -/
def DiagArray2.length {α : Type} (a : DiagArray2 α) : Int := a.elems.length

/-- The method `DiagArray2::nelem`, the product `dim1 () * dim2 ()` of two
`octave_idx_type` values of `w` bits; `none` when the product does not fit the type. -/
def DiagArray2.nelem {α : Type} (w : Nat) (a : DiagArray2 α) : Option Int :=
  idx_mul w a.dim1 a.dim2

/-- The method `DiagArray2::numel`. -/
def DiagArray2.numel {α : Type} (w : Nat) (a : DiagArray2 α) : Option Int := a.nelem w

/-- The method `DiagArray2::isempty`, the test `numel () == 0`; `none` when `numel ()`
has no value. -/
def DiagArray2.isempty {α : Type} (w : Nat) (a : DiagArray2 α) : Option Bool :=
  (a.numel w).map (fun n => n == 0)

/-- The read-only method `DiagArray2::elem (r, c)`; `Array<T>::elem (r)` reads the stored
element `r` without a check, and the result is `none` when there is no such element. -/
def DiagArray2.elem {α : Type} [Zero α] (a : DiagArray2 α) (r c : Int) : Option α :=
  if r == c then
    if 0 ≤ r then a.elems.get? r.toNat else none
  else some 0

/-! ## Position of a text object -/

/-- Modelled from the spec: `octave_value::numel`, declared in `ov.h`: the number of
elements of a text, a boolean, a real matrix or a cell; for the values lumped under
`other` no count is modelled, an array property rejects them whatever their shape. -/
def octave_value.numel : octave_value → Nat
  | octave_value.string s => s.length
  | octave_value.bool _ => 1
  | octave_value.matrix m => m.numel
  | octave_value.cell c => c.length
  | octave_value.other => 0

/-- Modelled from the spec: `Matrix::resize (dim_vector (r, c))` with zero fill, declared
in the headers of the array library: the element in row `i` and column `j` is kept when
the old matrix has that place, and is zero otherwise. -/
def Matrix.resize_fill (m : Matrix) (r c : Nat) : Matrix :=
  ⟨r, c, (List.range (r * c)).map (fun k =>
    if k % r < m.rows ∧ k / r < m.cols then m.xelem (k % r + (k / r) * m.rows) else 0)⟩

/-- Modelled from the spec: `octave_value::resize (dv, true)`, declared in `ov.h`, on a
real matrix; a value that is not a real matrix is left as it is here, an array property
rejects it whatever its shape. -/
def octave_value.resize (v : octave_value) (r c : Nat) : octave_value :=
  match v with
  | octave_value.matrix m => octave_value.matrix (m.resize_fill r c)
  | _ => v

/-- The members `position` and `positionmode` of `text::properties`. -/
structure text_properties where
  position : array_property
  positionmode : radio_property
  deriving DecidableEq, Repr

/-- The methods that `text::properties::set_position` calls and whose bodies are not in
`graphics.in.h` or act on members left out of the model: the setter `set_positionmode`,
generated from the property table, `update_position`, `position.run_listeners (POSTSET)`
and `mark_modified`. -/
structure text_hooks where
  set_positionmode : String → text_properties → Log → text_properties × Log
  update_position : text_properties → Log → text_properties × Log
  run_listeners : text_properties → Log → text_properties × Log
  mark_modified : text_properties → Log → text_properties × Log

/-- The value `new_val` that `text::properties::set_position (val)` hands to
`position.set`. -/
def text.properties.position_value (val : octave_value) : octave_value :=
  if val.numel == 2 then val.resize 1 3 else val

/-- The method `text::properties::set_position (val)`. -/
def text.properties.set_position (hooks : text_hooks) (p : text_properties)
    (val : octave_value) (log : Log) : text_properties × Log :=
  if !log.error_state then
    let new_val := text.properties.position_value val
    let r := array_property.set array_property.do_set p.position new_val log
    let p1 : text_properties := { p with position := r.2.1 }
    if r.1 then
      let s1 := hooks.set_positionmode "manual" p1 r.2.2
      let s2 := hooks.update_position s1.1 s1.2
      let s3 := hooks.run_listeners s2.1 s2.2
      hooks.mark_modified s3.1 s3.2
    else hooks.set_positionmode "manual" p1 r.2.2
  else (p, log)

/-- What the methods called by `set_position` are taken to do to the two members:
`set_positionmode ("manual")`, called while no error is pending on a `positionmode` with
the options `auto` and `manual` of the property table, leaves `positionmode` at manual, and
it does not touch `position`; the three others touch neither. -/
def text_hooks.respects (hooks : text_hooks) : Prop :=
  (∀ q lg, lg.error_state = false → q.positionmode.vals.possible_vals = ["auto", "manual"] →
    (hooks.set_positionmode "manual" q lg).1.positionmode.current_val = "manual") ∧
  (∀ q lg, (hooks.set_positionmode "manual" q lg).1.position = q.position) ∧
  (∀ q lg, (hooks.update_position q lg).1 = q) ∧
  (∀ q lg, (hooks.run_listeners q lg).1 = q) ∧
  (∀ q lg, (hooks.mark_modified q lg).1 = q)

/-- A setter is guarded when, like the setters written out in `graphics.in.h`, it does
nothing while an error is pending. -/
def text_hooks.guarded (hooks : text_hooks) : Prop :=
  ∀ v q lg, lg.error_state = true → hooks.set_positionmode v q lg = (q, lg)

/-- Modelled from the spec: the setter `set_positionmode (val)`, which the build generates
from the line `radio_property positionmode hu` of the property table and whose body is
not in `graphics.in.h`. It is given the form of the setters that are written out there
(`set_position`, `set___graphics_toolkit__`): nothing is done while an error is pending,
so that a rejected `set` "leaves the previous value observable", and otherwise the value
goes to `set` of the property. Its update hook and `mark_modified` act on members that
are not modelled. -/
def text.properties.set_positionmode (val : String) (p : text_properties) (log : Log) :
    text_properties × Log :=
  if !log.error_state then
    let r := radio_property.do_set p.positionmode (octave_value.string val)
    ({ p with positionmode := r.2.1 }, log.append r.2.2)
  else (p, log)

/-- The hooks of a text object with the generated setter of `positionmode`; the three
others act on members that are not modelled. -/
def text.properties.generated_hooks : text_hooks :=
  ⟨text.properties.set_positionmode, fun q lg => (q, lg), fun q lg => (q, lg),
    fun q lg => (q, lg)⟩

/-- The members `position` and `positionmode` of a new text object, from the lines
`array_property position smu , Matrix (1, 3, 0.0)` and `radio_property positionmode hu`,
with the options `auto`, the default, and `manual`, of the property table, and from the
constraint `dim_vector (1, 3)` that `init` adds to `position`. -/
def text_properties.new : text_properties :=
  ⟨⟨"position", ⟨1, 3, [0, 0, 0]⟩, none, none, none, none, [], [(1, 3)]⟩,
    ⟨"positionmode", ⟨"auto", ["auto", "manual"]⟩, "auto"⟩⟩

/-! ## Allocation and reuse of handles -/

/-- Modelled from the spec: `gh_manager::do_get_handle` for a handle that is not a figure
handle, defined in `graphics.cc`: "reuse smallest id in the free set, else issue
`next_handle` and advance the counter". The free set is in ascending order, so its
smallest member is the first; `advance` is the step of the counter. -/
def gh_manager.do_get_handle (advance : ℚ → ℚ) (g : gh_manager) :
    graphics_handle × gh_manager :=
  match g.handle_free_list with
  | h :: rest => (h, { g with handle_free_list := rest })
  | [] => (⟨some g.next_handle⟩, { g with next_handle := advance g.next_handle })

/-- Modelled from the spec: the part of `gh_manager::do_make_graphics_handle`, defined in
`graphics.cc`, that acts on the handle table: "allocate", "construct the concrete
object, insert into the map". The result is the new handle and the manager. -/
def gh_manager.do_make_graphics_handle (advance : ℚ → ℚ) (g : gh_manager)
    (go : graphics_object) : graphics_handle × gh_manager :=
  let r := gh_manager.do_get_handle advance g
  (r.1, { r.2 with handle_map := std_map.assign graphics_handle.lt r.2.handle_map r.1 go })

/-- Modelled from the spec: the part of `gh_manager::do_free (h)`, defined in
`graphics.cc`, that acts on the handle table: for a handle that is a key of the map,
"remove from map, insert handle into the free set"; any other handle changes nothing. -/
def gh_manager.do_free (g : gh_manager) (h : graphics_handle) : gh_manager :=
  if h.ok then
    match std_map.find graphics_handle.lt g.handle_map h with
    | some _ =>
      { g with handle_map := std_map.erase graphics_handle.lt g.handle_map h,
               handle_free_list := std_set.insert graphics_handle.lt g.handle_free_list h }
    | none => g
  else g

/-- The two calls that change the handle table. -/
inductive handle_op where
  | make (go : graphics_object)
  | free (h : graphics_handle)
  deriving DecidableEq, Repr

/-- One call on the handle table. -/
def gh_manager.handle_step (advance : ℚ → ℚ) (g : gh_manager) : handle_op → gh_manager
  | handle_op.make go => (gh_manager.do_make_graphics_handle advance g go).2
  | handle_op.free h => g.do_free h

/-- A sequence of calls on the handle table. -/
def gh_manager.handle_run (advance : ℚ → ℚ) (g : gh_manager) (ops : List handle_op) :
    gh_manager :=
  ops.foldl (gh_manager.handle_step advance) g

/-- A manager without handles whose counter stands at `n0`. -/
def gh_manager.fresh (n0 : ℚ) : gh_manager := ⟨[], [], n0, [], 0, []⟩

/-- The keys of the handle map. -/
def gh_manager.keys (g : gh_manager) : List graphics_handle := g.handle_map.map (fun e => e.1)

/-- The handle table is in order, holds numbers only, no handle is both a key of the map
and in the free set, and every handle in either is beyond the counter. -/
def gh_manager.handles_inv (g : gh_manager) : Prop :=
  std_map.sorted graphics_handle.lt g.handle_map ∧
  List.Pairwise (fun a b => graphics_handle.lt a b = true) g.handle_free_list ∧
  (∀ k ∈ g.keys, k.ok = true) ∧
  (∀ f ∈ g.handle_free_list, f.ok = true) ∧
  (∀ k ∈ g.keys, k ∉ g.handle_free_list) ∧
  (∀ k ∈ g.keys, graphics_handle.lt ⟨some g.next_handle⟩ k = true) ∧
  (∀ f ∈ g.handle_free_list, graphics_handle.lt ⟨some g.next_handle⟩ f = true)

/-! ## The event queue -/

/-- Modelled from the spec: `gh_manager::do_post_callback`, defined in `graphics.cc`: the
request is "posted (enqueued)", at the end of the queue. -/
def gh_manager.do_post_callback (h : graphics_handle) (name : String) (data : octave_value)
    (g : gh_manager) (log : Log) : gh_result × gh_manager × Log :=
  (gh_result.void,
    { g with event_queue := g.event_queue ++ [graphics_event.callback_event h name data] },
    log)

/-- Modelled from the spec: `gh_manager::do_post_function`, defined in `graphics.cc`: the
request is "posted (enqueued)", at the end of the queue. -/
def gh_manager.do_post_function (fcn data : Nat) (g : gh_manager) (log : Log) :
    gh_result × gh_manager × Log :=
  (gh_result.void,
    { g with event_queue := g.event_queue ++ [graphics_event.function_event fcn data] }, log)

/-- Modelled from the spec: `gh_manager::do_post_set`, defined in `graphics.cc`: the
request is "posted (enqueued)", at the end of the queue. -/
def gh_manager.do_post_set (h : graphics_handle) (name : String) (value : octave_value)
    (notify_toolkit : Bool) (g : gh_manager) (log : Log) : gh_result × gh_manager × Log :=
  (gh_result.void,
    { g with event_queue :=
        g.event_queue ++ [graphics_event.set_event h name value notify_toolkit] }, log)

/-- Modelled from the spec: the loop of `gh_manager::do_process_events`, defined in
`graphics.cc`, which "drains the queue ... in FIFO order, executing each entry's
action": the first event is taken off the queue and executed, until the queue is empty.
`execute` is the effect of `e.execute ()` on the manager and the messages; an action that
posts an event adds it to the queue of the manager it is given. `fuel` bounds the number
of events executed: the loop has come to its end when the queue of the result is empty,
and the result is the state after `fuel` events otherwise. -/
def gh_manager.process_loop (execute : graphics_event → gh_manager → Log → gh_manager × Log) :
    Nat → gh_manager → Log → gh_manager × Log
  | 0, g, log => (g, log)
  | fuel + 1, g, log =>
    match g.event_queue with
    | [] => (g, log)
    | e :: rest =>
      let r := execute e { g with event_queue := rest } log
      gh_manager.process_loop execute fuel r.1 r.2

/-- Modelled from the spec: `gh_manager::do_process_events (force)`, defined in
`graphics.cc`: the queue is drained, with `force` "regardless of whether background
pumping is otherwise suppressed"; `suppressed` tells that it is, and then without `force`
every event "remains queued". The number handed back is taken to be 0, the spec does not
give it. -/
def gh_manager.do_process_events
    (execute : graphics_event → gh_manager → Log → gh_manager × Log) (suppressed : Bool)
    (fuel : Nat) (force : Bool) (g : gh_manager) (log : Log) :
    gh_result × gh_manager × Log :=
  if force || !suppressed then
    let r := gh_manager.process_loop execute fuel g log
    (gh_result.count 0, r.1, r.2)
  else (gh_result.count 0, g, log)

/-- The members of `gh_manager` with the four behind the entry points of the event queue
as they are modelled from the spec; the others are those of `ms`. -/
def gh_manager.event_members (ms : gh_members)
    (execute : graphics_event → gh_manager → Log → gh_manager × Log) (suppressed : Bool)
    (fuel : Nat) : gh_members :=
  { ms with
    do_post_callback := gh_manager.do_post_callback
    do_post_function := gh_manager.do_post_function
    do_post_set := gh_manager.do_post_set
    do_process_events := gh_manager.do_process_events execute suppressed fuel }

/-- The arguments of one call of `post_callback`, `post_function` or `post_set`. -/
inductive post_request where
  | callback (h : graphics_handle) (name : String) (data : octave_value)
  | func (fcn data : Nat)
  | property (h : graphics_handle) (name : String) (value : octave_value)
      (notify_toolkit : Bool)
  deriving DecidableEq, Repr

/-- The event that a request stands for. -/
def post_request.event : post_request → graphics_event
  | post_request.callback h name data => graphics_event.callback_event h name data
  | post_request.func fcn data => graphics_event.function_event fcn data
  | post_request.property h name value notify_toolkit =>
    graphics_event.set_event h name value notify_toolkit

/-- The call of the static entry point that a request names. -/
def gh_manager.post (ms : gh_members) (created inst : Option gh_manager) (log : Log) :
    post_request → gh_result × Option gh_manager × Log
  | post_request.callback h name data => gh_manager.post_callback ms created inst log h name data
  | post_request.func fcn data => gh_manager.post_function ms created inst log fcn data
  | post_request.property h name value notify_toolkit =>
    gh_manager.post_set ms created inst log h name value notify_toolkit

/-- The calls for a list of requests, one after the other. -/
def gh_manager.post_all (ms : gh_members) (created : Option gh_manager) :
    List post_request → Option gh_manager → Log → Option gh_manager × Log
  | [], inst, log => (inst, log)
  | r :: rest, inst, log =>
    gh_manager.post_all ms created rest (gh_manager.post ms created inst log r).2.1
      (gh_manager.post ms created inst log r).2.2

/-- The events of a list executed one after the other, each once, from a state of the
manager and the messages. -/
def graphics_event.execute_all
    (execute : graphics_event → gh_manager → Log → gh_manager × Log)
    (events : List graphics_event) (s : gh_manager × Log) : gh_manager × Log :=
  events.foldl (fun t e => execute e t.1 t.2) s
/-! # Theorems -/

/-! ## Radio matching -/

/-- The walk of `caseless_str::compare` counts up to `limit` exactly when the text is a
prefix of the option with case folded. -/
theorem compare_loop_spec (p : List Char) : ∀ (s : List Char) (k limit : Nat),
    k + s.length = limit →
    (caseless_str.compare_loop p s k limit = some limit ↔
      s.map Char.toLower <+: p.map Char.toLower) := by
  induction p with
  | nil =>
    intro s k limit h
    cases s with
    | nil => simp [caseless_str.compare_loop] at h ⊢; exact h
    | cons c2 r2 =>
      simp [caseless_str.compare_loop] at h ⊢
      omega
  | cons c1 r1 ih =>
    intro s k limit h
    cases s with
    | nil => simp [caseless_str.compare_loop] at h ⊢; exact h
    | cons c2 r2 =>
      have hk : k < limit := by simp at h; omega
      have hl : k + 1 + r2.length = limit := by simp at h; omega
      rw [List.map_cons, List.map_cons, List.cons_prefix_cons, ← ih r2 (k + 1) limit hl]
      by_cases hc : c1.toLower = c2.toLower
      · simp [caseless_str.compare_loop, hk, hc]
      · have hc2 : ¬ c2.toLower = c1.toLower := fun e => hc e.symm
        simp [caseless_str.compare_loop, hk, hc, hc2]

/-- With `limit = s.length ()`, `compare` is the caseless prefix test. -/
theorem compare_eq_starts (p s : String) :
    caseless_str.compare p s s.length = starts_caseless s p := by
  have h := compare_loop_spec p.data s.data 0 s.length (by cases s; simp)
  unfold caseless_str.compare starts_caseless fold_case
  cases hc : caseless_str.compare_loop p.data s.data 0 s.length with
  | none =>
    rw [hc] at h
    simp at h
    simp [h]
  | some k =>
    rw [hc] at h
    simp only [Option.some.injEq] at h
    by_cases hk : k = s.length
    · simp [hk, h.mp hk]
    · have : ¬ (List.map Char.toLower s.data <+: List.map Char.toLower p.data) :=
        fun hp => hk (h.mpr hp)
      simp [hk, this]

/-- On a prefix match, the length test of `contains` decides equality ignoring case. -/
theorem equals_of_starts_length (p s : String) (h : starts_caseless s p = true) :
    (s.length == p.length) = equals_caseless s p := by
  unfold starts_caseless at h
  unfold equals_caseless
  have hp : fold_case s <+: fold_case p := by simpa using h
  by_cases hl : s.length = p.length
  · have : fold_case s = fold_case p :=
      hp.eq_of_length (by cases s; cases p; simpa [fold_case] using hl)
    simp [hl, this]
  · have : ¬ fold_case p = fold_case s := by
      intro e
      apply hl
      have := congrArg List.length e
      cases s; cases p
      simpa [fold_case] using this.symm
    simp [hl, this]

/-- An option that equals the input ignoring case has it as a prefix. -/
theorem equals_imp_starts (p s : String) (h : equals_caseless s p = true) :
    starts_caseless s p = true := by
  unfold equals_caseless at h
  unfold starts_caseless
  have : fold_case p = fold_case s := by simpa using h
  simp [this]

/-- The loop of `contains` returns early on the first option equal to the input. -/
theorem contains_loop_exact (v : String) : ∀ (opts : List String) (k : Nat) (fm m : String),
    opts.find? (equals_caseless v) = some m →
    radio_values.contains_loop v v.length opts k fm = Sum.inl m := by
  intro opts
  induction opts with
  | nil => intro k fm m h; simp at h
  | cons p rest ih =>
    intro k fm m h
    rw [List.find?_cons] at h
    unfold radio_values.contains_loop
    rw [compare_eq_starts]
    cases he : equals_caseless v p with
    | true =>
      rw [he] at h
      have hs := equals_imp_starts p v he
      have hl := equals_of_starts_length p v hs
      rw [he] at hl
      simp only [hs, hl, if_true]
      simpa using h
    | false =>
      rw [he] at h
      cases hs : starts_caseless v p with
      | true =>
        have hl := equals_of_starts_length p v hs
        rw [he] at hl
        simp only [hl, if_true]
        exact ih _ _ _ h
      | false =>
        simp only [Bool.false_eq_true, if_false]
        exact ih _ _ _ h

/-- Without an option equal to the input, the loop of `contains` counts the options that
have the input as a prefix and remembers the first of them. -/
theorem contains_loop_none (v : String) : ∀ (opts : List String) (k : Nat) (fm : String),
    opts.find? (equals_caseless v) = none →
    radio_values.contains_loop v v.length opts k fm =
      Sum.inr (k + (opts.filter (starts_caseless v)).length,
        if k = 0 then ((opts.filter (starts_caseless v)).head?).getD fm else fm) := by
  intro opts
  induction opts with
  | nil => intro k fm _; simp [radio_values.contains_loop]
  | cons p rest ih =>
    intro k fm h
    rw [List.find?_cons] at h
    unfold radio_values.contains_loop
    rw [compare_eq_starts]
    cases he : equals_caseless v p with
    | true => rw [he] at h; simp at h
    | false =>
      rw [he] at h
      simp only at h
      cases hs : starts_caseless v p with
      | true =>
        have hl := equals_of_starts_length p v hs
        rw [he] at hl
        simp only [hl, if_true]
        rw [ih _ _ h]
        by_cases hk : k = 0
        · subst hk
          simp [List.filter_cons, hs]
          omega
        · simp [List.filter_cons, hs, hk]
          omega
      | false =>
        simp only [Bool.false_eq_true, if_false]
        rw [ih _ _ h]
        simp [List.filter_cons, hs]

/-- Matching fails when no option equals the input and the number of options having it
as a prefix is not one. -/
theorem contains_false_of (rv : radio_values) (s mt : String)
    (hn : rv.possible_vals.find? (equals_caseless s) = none)
    (hk : (rv.possible_vals.filter (starts_caseless s)).length ≠ 1) :
    rv.contains s mt = (false, mt) := by
  simp [radio_values.contains, contains_loop_none s _ 0 "" hn, hk]

/-- When no option has the input as a prefix, none equals it either. -/
theorem find_none_of_no_start (s : String) (opts : List String)
    (h : ∀ o ∈ opts, starts_caseless s o = false) :
    opts.find? (equals_caseless s) = none := by
  rw [List.find?_eq_none]
  intro o ho he
  have := equals_imp_starts o s he
  rw [h o ho] at this
  exact Bool.false_ne_true this

/-- C1: `radio_values::contains (v, match)`, for every option set and every text `v`:
(a) when some option equals `v` ignoring letter case, the result is true with `match` the
first such option in the set's order (the only one, when the options differ in more than
case), however many other options have `v` as a prefix; (b) otherwise, when exactly one
option has `v` as a prefix ignoring case, the result is true with `match` that option;
(c) otherwise (no option, or two or more) the result is false and `match` is untouched. -/
theorem radio_contains_resolves (rv : radio_values) (v match_ : String) :
    (∀ m, rv.possible_vals.find? (equals_caseless v) = some m →
      rv.contains v match_ = (true, m)) ∧
    (rv.possible_vals.find? (equals_caseless v) = none →
      ∀ o, rv.possible_vals.filter (starts_caseless v) = [o] →
        rv.contains v match_ = (true, o)) ∧
    (rv.possible_vals.find? (equals_caseless v) = none →
      (rv.possible_vals.filter (starts_caseless v)).length ≠ 1 →
        rv.contains v match_ = (false, match_)) := by
  refine ⟨?_, ?_, ?_⟩
  · intro m hm
    simp [radio_values.contains, contains_loop_exact v _ 0 "" m hm]
  · intro hn o ho
    simp [radio_values.contains, contains_loop_none v _ 0 "" hn, ho]
  · intro hn hk
    exact contains_false_of rv v match_ hn hk

/-- C1 at the options bottom, top, zero: "b" resolves to bottom, "TOP" to top, "replace"
wins over "replacechildren", and the empty text, a prefix of all three, is rejected. -/
theorem radio_contains_resolves_witness :
    (⟨"bottom", ["bottom", "top", "zero"]⟩ : radio_values).contains "b" "" = (true, "bottom") ∧
    (⟨"bottom", ["bottom", "top", "zero"]⟩ : radio_values).contains "TOP" "" = (true, "top") ∧
    (⟨"add", ["add", "replace", "replacechildren"]⟩ : radio_values).contains "Replace" ""
      = (true, "replace") ∧
    (⟨"bottom", ["bottom", "top", "zero"]⟩ : radio_values).contains "" "old" = (false, "old") :=
  ⟨(radio_contains_resolves ⟨"bottom", ["bottom", "top", "zero"]⟩ "b" "").2.1
      (by decide) "bottom" (by decide),
    (radio_contains_resolves ⟨"bottom", ["bottom", "top", "zero"]⟩ "TOP" "").1 "top" (by decide),
    (radio_contains_resolves ⟨"add", ["add", "replace", "replacechildren"]⟩ "Replace" "").1
      "replace" (by decide),
    (radio_contains_resolves ⟨"bottom", ["bottom", "top", "zero"]⟩ "" "old").2.2
      (by decide) (by decide)⟩

/-- C2: `radio_property::do_set (s)` for a text `s` that radio matching resolves to the
option `m`: when `m` differs from the current value the call returns true, the current
value becomes exactly `m` (so `get ()` returns `m`) and no error is raised; when `m` is
the current value the call returns false and the property is unchanged. -/
theorem radio_do_set_canonical (p : radio_property) (s m : String)
    (hres : p.vals.contains s "" = (true, m)) :
    (m ≠ p.current_val →
      (p.do_set (octave_value.string s)).1 = true ∧
      (p.do_set (octave_value.string s)).2.1 = { p with current_val := m } ∧
      (p.do_set (octave_value.string s)).2.1.get = octave_value.string m ∧
      (p.do_set (octave_value.string s)).2.2.errors = []) ∧
    (m = p.current_val →
      (p.do_set (octave_value.string s)).1 = false ∧
      (p.do_set (octave_value.string s)).2.1 = p ∧
      (p.do_set (octave_value.string s)).2.2 = Log.empty) := by
  constructor
  · intro hne
    simp [radio_property.do_set, radio_values.validate, octave_value.is_string,
      octave_value.string_value, hres, hne, radio_property.get]
    split <;> simp [Log.empty, Log.warning]
  · intro he
    simp [radio_property.do_set, radio_values.validate, octave_value.is_string,
      octave_value.string_value, hres, he]

/-- C2 at a property with options bottom, top, zero and current value bottom: the
abbreviation "T" is accepted and stored as "top". -/
theorem radio_do_set_canonical_witness :
    (⟨"bottom", ["bottom", "top", "zero"]⟩ : radio_values).contains "T" "" = (true, "top") ∧
    ((⟨"valign", ⟨"bottom", ["bottom", "top", "zero"]⟩, "bottom"⟩ : radio_property).do_set
      (octave_value.string "T")).1 = true ∧
    ((⟨"valign", ⟨"bottom", ["bottom", "top", "zero"]⟩, "bottom"⟩ : radio_property).do_set
      (octave_value.string "T")).2.1.get = octave_value.string "top" :=
  ⟨by decide,
    ((radio_do_set_canonical ⟨"valign", ⟨"bottom", ["bottom", "top", "zero"]⟩, "bottom"⟩
      "T" "top" (by decide)).1 (by decide)).1,
    ((radio_do_set_canonical ⟨"valign", ⟨"bottom", ["bottom", "top", "zero"]⟩, "bottom"⟩
      "T" "top" (by decide)).1 (by decide)).2.2.1⟩

/-- C3: `radio_property::do_set` rejects a value that is not text, a text that no option
starts with, and a text that is a prefix of two or more options without equalling one:
in each case it returns false, raises an error and leaves the property unchanged. -/
theorem radio_do_set_rejects (p : radio_property) :
    (∀ v : octave_value, v.is_string = false →
      (p.do_set v).1 = false ∧ (p.do_set v).2.1 = p ∧ (p.do_set v).2.2.errors ≠ []) ∧
    (∀ s : String, (∀ o ∈ p.vals.possible_vals, starts_caseless s o = false) →
      (p.do_set (octave_value.string s)).1 = false ∧
      (p.do_set (octave_value.string s)).2.1 = p ∧
      (p.do_set (octave_value.string s)).2.2.errors ≠ []) ∧
    (∀ s : String, p.vals.possible_vals.find? (equals_caseless s) = none →
      2 ≤ (p.vals.possible_vals.filter (starts_caseless s)).length →
      (p.do_set (octave_value.string s)).1 = false ∧
      (p.do_set (octave_value.string s)).2.1 = p ∧
      (p.do_set (octave_value.string s)).2.2.errors ≠ []) := by
  refine ⟨?_, ?_, ?_⟩
  · intro v hv
    simp [radio_property.do_set, hv, Log.error, Log.empty]
  · intro s hs
    have hn := find_none_of_no_start s _ hs
    have hk : (p.vals.possible_vals.filter (starts_caseless s)).length ≠ 1 := by
      have : p.vals.possible_vals.filter (starts_caseless s) = [] := by
        rw [List.filter_eq_nil_iff]
        intro o ho
        simp [hs o ho]
      simp [this]
    have hc := contains_false_of p.vals s "" hn hk
    simp [radio_property.do_set, radio_values.validate, octave_value.is_string,
      octave_value.string_value, hc, Log.error, Log.empty]
  · intro s hn h2
    have hk : (p.vals.possible_vals.filter (starts_caseless s)).length ≠ 1 := by omega
    have hc := contains_false_of p.vals s "" hn hk
    simp [radio_property.do_set, radio_values.validate, octave_value.is_string,
      octave_value.string_value, hc, Log.error, Log.empty]

/-- C3 at a property with options bottom, top, zero and current value top: a boolean, the
text "x" and the ambiguous text "" are all rejected with the value still top. -/
theorem radio_do_set_rejects_witness :
    ((⟨"valign", ⟨"bottom", ["bottom", "top", "zero"]⟩, "top"⟩ : radio_property).do_set
      (octave_value.bool true)).2.1.current_val = "top" ∧
    ((⟨"valign", ⟨"bottom", ["bottom", "top", "zero"]⟩, "top"⟩ : radio_property).do_set
      (octave_value.string "x")).1 = false ∧
    ((⟨"valign", ⟨"bottom", ["bottom", "top", "zero"]⟩, "top"⟩ : radio_property).do_set
      (octave_value.string "")).2.2.errors ≠ [] :=
  ⟨congrArg radio_property.current_val
      ((radio_do_set_rejects ⟨"valign", ⟨"bottom", ["bottom", "top", "zero"]⟩, "top"⟩).1
        (octave_value.bool true) (by decide)).2.1,
    ((radio_do_set_rejects ⟨"valign", ⟨"bottom", ["bottom", "top", "zero"]⟩, "top"⟩).2.1
      "x" (by decide)).1,
    ((radio_do_set_rejects ⟨"valign", ⟨"bottom", ["bottom", "top", "zero"]⟩, "top"⟩).2.2
      "" (by decide) (by decide)).2.2⟩

/-! ## The child list -/

/-- The `push_back` loop over `xelem (0)`, ..., `xelem (n - 1)` rebuilds the first `n`
elements. -/
theorem push_back_range (l : List ℚ) : ∀ n, n ≤ l.length →
    (List.range n).foldl (fun acc i => acc ++ [l.getD i 0]) [] = l.take n := by
  intro n
  induction n with
  | zero => intro _; simp
  | succ n ih =>
    intro hn
    have hlt : n < l.length := by omega
    rw [List.range_succ, List.foldl_append, ih (by omega), List.take_succ,
      List.getElem?_eq_getElem hlt]
    simp only [List.foldl_cons, List.foldl_nil, List.getD_eq_getElem _ _ hlt, Option.toList]

/-- The `push_back` loop of `do_set` stores the elements of `tmp` in order. -/
theorem push_back_all_eq (tmp : Matrix) : children_property.push_back_all tmp = tmp.data := by
  unfold children_property.push_back_all Matrix.numel Matrix.xelem
  rw [push_back_range tmp.data _ (le_refl _)]
  simp

/-- Two columns sort to the same column exactly when they hold the same multiset. -/
theorem sort_eq_iff_perm (l₁ l₂ : List ℚ) :
    l₁.insertionSort (· ≤ ·) = l₂.insertionSort (· ≤ ·) ↔ l₁.Perm l₂ := by
  constructor
  · intro h
    exact ((List.perm_insertionSort (· ≤ ·) l₁).symm.trans (h ▸ List.Perm.refl _)).trans
      (List.perm_insertionSort (· ≤ ·) l₂)
  · intro h
    apply List.eq_of_perm_of_sorted _ (List.sorted_insertionSort (· ≤ ·) l₁)
      (List.sorted_insertionSort (· ≤ ·) l₂)
    exact ((List.perm_insertionSort (· ≤ ·) l₁).trans h).trans
      (List.perm_insertionSort (· ≤ ·) l₂).symm

/-- The visible children are the stored children with a visible handle, in stored order. -/
theorem get_children_data (vis : ℚ → Bool) (p : children_property) :
    (p.get_children vis).data = p.children_list.filter (fun kid => vis kid) := by
  simp [children_property.get_children, children_property.do_get_children]

/-- The hidden children are the stored children without a visible handle, in stored order. -/
theorem get_hidden_data (vis : ℚ → Bool) (p : children_property) :
    (p.get_hidden vis).data = p.children_list.filter (fun kid => !vis kid) := by
  simp only [children_property.get_hidden, children_property.do_get_children]
  congr 1
  funext kid
  cases vis kid <;> simp

/-- A conversion that raised no error issued no message at all. -/
theorem matrix_value_clean (val : octave_value) :
    (val.matrix_value Log.empty).2.errors = [] →
      (val.matrix_value Log.empty).2 = Log.empty := by
  cases val <;> simp [octave_value.matrix_value, Log.error, Log.empty]

/-- The accepting branch of `children_property::do_set`. -/
theorem children_do_set_accept (vis : ℚ → Bool) (p : children_property) (val : octave_value)
    (he : (val.matrix_value Log.empty).2.errors = [])
    (hp : (val.matrix_value Log.empty).1.data.Perm (p.get_children vis).data) :
    p.do_set vis val = (true,
      { p with children_list := (val.matrix_value Log.empty).1.data ++ (p.get_hidden vis).data },
      Log.empty) := by
  have hl := matrix_value_clean val he
  have hlen := hp.length_eq
  have hs := (sort_eq_iff_perm _ _).mpr hp
  simp only [children_property.do_set, push_back_all_eq]
  generalize val.matrix_value Log.empty = conv at *
  obtain ⟨m, lg⟩ := conv
  simp only at hl hlen hs he hp
  subst hl
  have h1 : (p.do_get_children vis false).numel = m.numel := by
    simpa [Matrix.numel, children_property.get_children] using hlen.symm
  have h2 : (p.do_get_children vis false).sort = (m.reshape m.numel 1).sort := by
    simp only [Matrix.sort, Matrix.reshape, Matrix.numel]
    simp only [children_property.get_children] at hs hlen
    rw [← hs, hlen]
    simp [children_property.do_get_children]
  simp [h1, h2, Log.error_state, Log.empty, Matrix.stack, Matrix.reshape]

/-- The rejecting branches of `children_property::do_set`. -/
theorem children_do_set_reject (vis : ℚ → Bool) (p : children_property) (val : octave_value)
    (h : ¬ ((val.matrix_value Log.empty).2.errors = [] ∧
      (val.matrix_value Log.empty).1.data.Perm (p.get_children vis).data)) :
    (p.do_set vis val).1 = false ∧ (p.do_set vis val).2.1 = p ∧
      (p.do_set vis val).2.2.errors ≠ [] := by
  have hcl := matrix_value_clean val
  simp only [children_property.do_set]
  generalize val.matrix_value Log.empty = conv at *
  obtain ⟨m, lg⟩ := conv
  simp only at h hcl
  by_cases he : lg.errors = []
  · have hl := hcl he
    subst hl
    have hp : ¬ m.data.Perm (p.get_children vis).data := fun hp => h ⟨he, hp⟩
    by_cases h1 : (p.do_get_children vis false).numel = m.numel
    · have h2 : (p.do_get_children vis false).sort ≠ (m.reshape m.numel 1).sort := by
        intro h2
        apply hp
        have := congrArg Matrix.data h2
        simp only [Matrix.sort, Matrix.reshape] at this
        exact ((sort_eq_iff_perm _ _).mp this).symm
      simp [h1, h2, Log.error_state, Log.empty, Log.error]
    · simp [h1, Log.error_state, Log.empty, Log.error]
  · have : lg.errors.isEmpty = false := by
      cases hh : lg.errors with
      | nil => exact absurd hh he
      | cons a l => rfl
    simp [Log.error_state, this, Log.error]

/-- A permutation of the visible children consists of visible handles only. -/
theorem filter_vis_of_perm (vis : ℚ → Bool) (v L : List ℚ)
    (hp : v.Perm (L.filter (fun kid => vis kid))) :
    v.filter (fun kid => vis kid) = v ∧ v.filter (fun kid => !vis kid) = [] := by
  have hall : ∀ x ∈ v, vis x = true := by
    intro x hx
    have := (hp.mem_iff).mp hx
    exact (List.mem_filter.mp this).2
  constructor
  · rw [List.filter_eq_self]
    exact hall
  · rw [List.filter_eq_nil_iff]
    intro x hx
    simp [hall x hx]

/-- The removal loop reaches the end exactly when the value is not stored. -/
theorem remove_loop_none (v : ℚ) : ∀ L : List ℚ,
    children_property.remove_loop v L = none ↔ v ∉ L := by
  intro L
  induction L with
  | nil => simp [children_property.remove_loop]
  | cons x rest ih =>
    by_cases hx : x = v
    · simp [children_property.remove_loop, hx]
    · have hx2 : ¬ v = x := fun e => hx e.symm
      simp [children_property.remove_loop, hx, hx2, ih]

/-- The removal loop erases the first entry equal to the value. -/
theorem remove_loop_some (v : ℚ) : ∀ L : List ℚ, v ∈ L →
    ∃ l₁ l₂, L = l₁ ++ v :: l₂ ∧ v ∉ l₁ ∧
      children_property.remove_loop v L = some (l₁ ++ l₂) := by
  intro L
  induction L with
  | nil => intro h; simp at h
  | cons x rest ih =>
    intro h
    by_cases hx : x = v
    · exact ⟨[], rest, by simp [hx], by simp, by simp [children_property.remove_loop, hx]⟩
    · have hx2 : ¬ v = x := fun e => hx e.symm
      have hr : v ∈ rest := by
        rcases List.mem_cons.mp h with h1 | h1
        · exact absurd h1 hx2
        · exact h1
      obtain ⟨l₁, l₂, h1, h2, h3⟩ := ih hr
      refine ⟨x :: l₁, l₂, by simp [h1], by simp [hx2, h2], ?_⟩
      simp [children_property.remove_loop, hx, h3]

/-- The renumbering loop reaches the end exactly when the old handle is not stored. -/
theorem renumber_loop_none (o n : ℚ) : ∀ L : List ℚ,
    children_property.renumber_loop o n L = none ↔ o ∉ L := by
  intro L
  induction L with
  | nil => simp [children_property.renumber_loop]
  | cons x rest ih =>
    by_cases hx : x = o
    · simp [children_property.renumber_loop, hx]
    · have hx2 : ¬ o = x := fun e => hx e.symm
      simp [children_property.renumber_loop, hx, hx2, ih]

/-- The renumbering loop overwrites the first entry equal to the old handle. -/
theorem renumber_loop_some (o n : ℚ) : ∀ L : List ℚ, o ∈ L →
    ∃ l₁ l₂, L = l₁ ++ o :: l₂ ∧ o ∉ l₁ ∧
      children_property.renumber_loop o n L = some (l₁ ++ n :: l₂) := by
  intro L
  induction L with
  | nil => intro h; simp at h
  | cons x rest ih =>
    intro h
    by_cases hx : x = o
    · exact ⟨[], rest, by simp [hx], by simp, by simp [children_property.renumber_loop, hx]⟩
    · have hx2 : ¬ o = x := fun e => hx e.symm
      have hr : o ∈ rest := by
        rcases List.mem_cons.mp h with h1 | h1
        · exact absurd h1 hx2
        · exact h1
      obtain ⟨l₁, l₂, h1, h2, h3⟩ := ih hr
      refine ⟨x :: l₁, l₂, by simp [h1], by simp [hx2, h2], ?_⟩
      simp [children_property.renumber_loop, hx, h3]

/-- Pushing every element to the front in turn reverses the list. -/
theorem init_children_reverse (l acc : List ℚ) :
    l.foldl (fun a x => x :: a) acc = l.reverse ++ acc := by
  induction l generalizing acc with
  | nil => rfl
  | cons x rest ih => simp [ih]

/-- C4: `children_property::do_set (v)` returns true if and only if `v` converts to a
numeric array whose elements, as a multiset, are the currently visible children; whenever
it returns false it has raised an error and the property, with its whole stored child
list, is unchanged. -/
theorem children_do_set_iff_permutation (vis : ℚ → Bool) (p : children_property)
    (val : octave_value) :
    ((p.do_set vis val).1 = true ↔
      ((val.matrix_value Log.empty).2.errors = [] ∧
        ((val.matrix_value Log.empty).1.data : Multiset ℚ) =
          ((p.get_children vis).data : Multiset ℚ))) ∧
    ((p.do_set vis val).1 = false →
      (p.do_set vis val).2.1 = p ∧ (p.do_set vis val).2.2.errors ≠ []) := by
  rw [Multiset.coe_eq_coe]
  by_cases h : (val.matrix_value Log.empty).2.errors = [] ∧
      (val.matrix_value Log.empty).1.data.Perm (p.get_children vis).data
  · have ha := children_do_set_accept vis p val h.1 h.2
    constructor
    · simp [ha, h]
    · intro hf
      rw [ha] at hf
      simp at hf
  · have hr := children_do_set_reject vis p val h
    constructor
    · constructor
      · intro ht
        rw [hr.1] at ht
        exact absurd ht (by simp)
      · intro hh
        exact absurd hh h
    · intro _
      exact hr.2

/-- C4 at the stored list 1, 2, 3, 4 with child 2 hidden: the reordering 4, 1, 3 of the
visible children is accepted, and the list 4, 1, 2 is rejected with the list unchanged. -/
theorem children_do_set_iff_permutation_witness :
    ((⟨"children", [1, 2, 3, 4]⟩ : children_property).do_set (fun q => q != 2)
      (octave_value.matrix ⟨1, 3, [4, 1, 3]⟩)).1 = true ∧
    ((⟨"children", [1, 2, 3, 4]⟩ : children_property).do_set (fun q => q != 2)
      (octave_value.matrix ⟨1, 3, [4, 1, 2]⟩)).2.1 = ⟨"children", [1, 2, 3, 4]⟩ :=
  ⟨(children_do_set_iff_permutation (fun q => q != 2) ⟨"children", [1, 2, 3, 4]⟩
      (octave_value.matrix ⟨1, 3, [4, 1, 3]⟩)).1.mpr
      ⟨by decide, Multiset.coe_eq_coe.mpr (by decide)⟩,
    ((children_do_set_iff_permutation (fun q => q != 2) ⟨"children", [1, 2, 3, 4]⟩
      (octave_value.matrix ⟨1, 3, [4, 1, 2]⟩)).2 (by decide)).1⟩

/-- C5: when `children_property::do_set (v)` succeeds, the stored list is the elements of
`v` in the given order followed by the previously hidden children in their previous
order; `get ()` then returns exactly `v` as a column, the hidden children are the same as
before and still stored, and the multiset of all children is unchanged. -/
theorem children_do_set_order (vis : ℚ → Bool) (p : children_property) (val : octave_value)
    (hok : (p.do_set vis val).1 = true) :
    (p.do_set vis val).2.1.children_list =
      (val.matrix_value Log.empty).1.data ++ (p.get_hidden vis).data ∧
    (p.do_set vis val).2.1.get vis = octave_value.matrix
      ((val.matrix_value Log.empty).1.reshape (val.matrix_value Log.empty).1.numel 1) ∧
    ((p.do_set vis val).2.1.get_hidden vis).data = (p.get_hidden vis).data ∧
    (∀ h ∈ (p.get_hidden vis).data, h ∈ (p.do_set vis val).2.1.get_all.data) ∧
    (((p.do_set vis val).2.1.get_all.data : Multiset ℚ) = (p.get_all.data : Multiset ℚ)) := by
  by_cases h : (val.matrix_value Log.empty).2.errors = [] ∧
      (val.matrix_value Log.empty).1.data.Perm (p.get_children vis).data
  · have ha := children_do_set_accept vis p val h.1 h.2
    have hp := h.2
    rw [get_children_data] at hp
    obtain ⟨hv1, hv2⟩ := filter_vis_of_perm vis _ _ hp
    rw [ha]
    have hg : (List.filter (fun kid => vis kid)
        ((val.matrix_value Log.empty).1.data ++ (p.get_hidden vis).data)) =
        (val.matrix_value Log.empty).1.data := by
      simp [get_hidden_data, List.filter_append, hv1, List.filter_filter]
    refine ⟨rfl, ?_, ?_, ?_, ?_⟩
    · simp only [children_property.get, children_property.get_children,
        children_property.do_get_children, Matrix.reshape, Matrix.numel]
      simp only [Bool.not_false, Bool.if_true_left, Bool.or_false, Bool.decide_eq_true]
      rw [hg]
    · simp only [get_hidden_data]
      rw [List.filter_append, hv2, List.nil_append, List.filter_filter]
      simp
    · intro x hx
      exact List.mem_append_right _ hx
    · simp only [get_hidden_data, children_property.get_all,
        children_property.do_get_all_children, Multiset.coe_eq_coe]
      exact (List.Perm.append_right _ hp).trans (List.filter_append_perm _ _)
  · have hr := children_do_set_reject vis p val h
    rw [hr.1] at hok
    exact absurd hok (by simp)

/-- C5 at the stored list 1, 2, 3, 4 with child 2 hidden and the new order 4, 1, 3: the
list becomes 4, 1, 3, 2. -/
theorem children_do_set_order_witness :
    ((⟨"children", [1, 2, 3, 4]⟩ : children_property).do_set (fun q => q != 2)
      (octave_value.matrix ⟨1, 3, [4, 1, 3]⟩)).1 = true ∧
    ((⟨"children", [1, 2, 3, 4]⟩ : children_property).do_set (fun q => q != 2)
      (octave_value.matrix ⟨1, 3, [4, 1, 3]⟩)).2.1.children_list =
      (⟨1, 3, [4, 1, 3]⟩ : Matrix).data ++
        ((⟨"children", [1, 2, 3, 4]⟩ : children_property).get_hidden (fun q => q != 2)).data :=
  ⟨by decide,
    (children_do_set_order (fun q => q != 2) ⟨"children", [1, 2, 3, 4]⟩
      (octave_value.matrix ⟨1, 3, [4, 1, 3]⟩) (by decide)).1⟩

/-- C6: `children_property::adopt (h)` turns the stored list `L` into `h` followed by
`L`: `h` is the front entry, the list is one longer, and the entry that was at position
`i` is now at position `i + 1`, so nothing is removed or reordered. -/
theorem children_adopt_prepends (p : children_property) (h : ℚ) :
    (p.adopt h).children_list = h :: p.children_list ∧
    (p.adopt h).children_list.head? = some h ∧
    (p.adopt h).children_list.length = p.children_list.length + 1 ∧
    (∀ i : Nat, (p.adopt h).children_list[i + 1]? = p.children_list[i]?) := by
  simp [children_property.adopt, children_property.do_adopt_child]

/-- C7: `children_property::remove_child (v)` returns true if and only if `v` occurs in
the stored list; when it does, exactly the first occurrence is erased and the entries
before and after it keep their order; when it does not, the property is unchanged. -/
theorem children_remove_child_first (p : children_property) (v : ℚ) :
    ((p.remove_child v).1 = true ↔ v ∈ p.children_list) ∧
    (v ∈ p.children_list → ∃ l₁ l₂, p.children_list = l₁ ++ v :: l₂ ∧ v ∉ l₁ ∧
      (p.remove_child v).2.children_list = l₁ ++ l₂) ∧
    (v ∉ p.children_list → (p.remove_child v).2 = p) := by
  by_cases hv : v ∈ p.children_list
  · obtain ⟨l₁, l₂, h1, h2, h3⟩ := remove_loop_some v _ hv
    simp only [children_property.remove_child, children_property.do_remove_child, h3]
    exact ⟨by simp [hv], fun _ => ⟨l₁, l₂, h1, h2, rfl⟩, fun h => absurd hv h⟩
  · have h3 := (remove_loop_none v _).mpr hv
    simp only [children_property.remove_child, children_property.do_remove_child, h3]
    exact ⟨by simp [hv], fun h => absurd h hv, fun _ => trivial⟩

/-- C7 at the stored list 3, 5, 3: removing 3 reports success, and removing the absent
value 7 leaves the property as it was. -/
theorem children_remove_child_first_witness :
    ((⟨"children", [3, 5, 3]⟩ : children_property).remove_child 3).1 = true ∧
    ((⟨"children", [3, 5, 3]⟩ : children_property).remove_child 7).2
      = ⟨"children", [3, 5, 3]⟩ :=
  ⟨(children_remove_child_first ⟨"children", [3, 5, 3]⟩ 3).1.mpr (by decide),
    (children_remove_child_first ⟨"children", [3, 5, 3]⟩ 7).2.2 (by decide)⟩

/-- C8: `children_property::renumber (old, new)` overwrites exactly the first entry equal
to `old` by `new`, keeping the length and every other entry (later entries equal to `old`
included) and raising no error; when no entry equals `old` it raises an error and the
property is unchanged. -/
theorem children_renumber_first (p : children_property) (old_gh new_gh : ℚ) :
    (old_gh ∈ p.children_list → ∃ l₁ l₂, p.children_list = l₁ ++ old_gh :: l₂ ∧ old_gh ∉ l₁ ∧
      (p.renumber old_gh new_gh).1.children_list = l₁ ++ new_gh :: l₂ ∧
      (p.renumber old_gh new_gh).1.children_list.length = p.children_list.length ∧
      (p.renumber old_gh new_gh).2.errors = []) ∧
    (old_gh ∉ p.children_list →
      (p.renumber old_gh new_gh).1 = p ∧ (p.renumber old_gh new_gh).2.errors ≠ []) := by
  by_cases hv : old_gh ∈ p.children_list
  · obtain ⟨l₁, l₂, h1, h2, h3⟩ := renumber_loop_some old_gh new_gh _ hv
    simp only [children_property.renumber, h3]
    exact ⟨fun _ => ⟨l₁, l₂, h1, h2, rfl, by simp [h1], rfl⟩, fun h => absurd hv h⟩
  · have h3 := (renumber_loop_none old_gh new_gh _).mpr hv
    simp only [children_property.renumber, h3]
    exact ⟨fun h => absurd h hv, fun _ => ⟨trivial, by simp [Log.error, Log.empty]⟩⟩

/-- C8 at the stored list 3, 5, 3: renumbering the absent handle 7 raises an error and
changes nothing, and renumbering 3 keeps the length. -/
theorem children_renumber_first_witness :
    ((⟨"children", [3, 5, 3]⟩ : children_property).renumber 7 9).1 = ⟨"children", [3, 5, 3]⟩ ∧
    (∃ l₁ l₂ : List ℚ, [3, 5, 3] = l₁ ++ 3 :: l₂ ∧ 3 ∉ l₁ ∧
      ((⟨"children", [3, 5, 3]⟩ : children_property).renumber 3 9).1.children_list
        = l₁ ++ 9 :: l₂) :=
  ⟨((children_renumber_first ⟨"children", [3, 5, 3]⟩ 7 9).2 (by decide)).1,
    match (children_renumber_first ⟨"children", [3, 5, 3]⟩ 3 9).1 (by decide) with
    | ⟨l₁, l₂, h1, h2, h3, _, _⟩ => ⟨l₁, l₂, h1, h2, h3⟩⟩

/-! ## Shared ownership and cloning -/

/-- C9 (the code departs from the claim): a single wrapper around a fresh cell, assigned
to itself, deletes the cell in `operator =` before taking the same pointer again, so the
wrapper is still alive and still refers to the cell while the cell is destroyed. -/
theorem property_self_assign_deletes :
    (property_store.run [property_op.wrap false]).count 0 = some 1 ∧
    (property_store.run [property_op.wrap false, property_op.assign 0 0]).rep 0 = some 0 ∧
    (property_store.run [property_op.wrap false, property_op.assign 0 0]).referrers 0 = 1 ∧
    (property_store.run [property_op.wrap false, property_op.assign 0 0]).count 0 = none := by
  decide

/-- The copy constructor of `children_property` stores the children in reverse order. -/
theorem children_clone_reverses (p : children_property) :
    p.clone.get_all.data = p.get_all.data.reverse := by
  simp [children_property.clone, children_property.copy, children_property.do_init_children,
    children_property.get_all, children_property.do_get_all_children, init_children_reverse]

/-- C10 (the code departs from the claim): cloning a `children_property` whose stored
list is 1, 2 yields a property whose `get_all ()` is 2, 1, not 1, 2. -/
theorem children_clone_order_differs :
    (⟨"children", [1, 2]⟩ : children_property).get_all = ⟨2, 1, [1, 2]⟩ ∧
    (⟨"children", [1, 2]⟩ : children_property).clone.get_all = ⟨2, 1, [2, 1]⟩ ∧
    (⟨"children", [1, 2]⟩ : children_property).clone.get_all ≠
      (⟨"children", [1, 2]⟩ : children_property).get_all := by
  decide

/-! ## Text properties -/

/-- The scan for the separator finds nothing exactly when the text has none. -/
theorem find_from_none (c : Char) : ∀ (l : List Char) (i : Nat),
    find_from c l i = none ↔ c ∉ l := by
  intro l
  induction l with
  | nil => intro i; simp [find_from]
  | cons x rest ih =>
    intro i
    by_cases hx : x = c
    · simp [find_from, hx]
    · have hx2 : ¬ c = x := fun e => hx e.symm
      simp [find_from, hx, hx2, ih]

/-- The scan for the separator stops at its first occurrence. -/
theorem find_from_some (c : Char) : ∀ (l : List Char) (i n : Nat),
    find_from c l i = some n →
    ∃ a b, l = a ++ c :: b ∧ c ∉ a ∧ n = i + a.length := by
  intro l
  induction l with
  | nil => intro i n h; simp [find_from] at h
  | cons x rest ih =>
    intro i n h
    by_cases hx : x = c
    · simp [find_from, hx] at h
      exact ⟨[], rest, by simp [hx], by simp, by simp [h]⟩
    · have hx2 : ¬ c = x := fun e => hx e.symm
      simp [find_from, hx] at h
      obtain ⟨a, b, h1, h2, h3⟩ := ih (i + 1) n h
      exact ⟨x :: a, b, by simp [h1], by simp [hx2, h2], by simp [h3]; omega⟩

/-- A text always has at least one field. -/
theorem fields_of_ne_nil (c : Char) (l : List Char) : fields_of c l ≠ [] := by
  cases l with
  | nil => simp [fields_of]
  | cons x rest =>
    unfold fields_of
    split
    · simp
    · split <;> simp

/-- A text without separator is its own single field. -/
theorem fields_of_no_sep (c : Char) : ∀ a : List Char, c ∉ a → fields_of c a = [a] := by
  intro a
  induction a with
  | nil => intro _; rfl
  | cons x rest ih =>
    intro h
    have hx : ¬ x = c := fun e => h (by simp [e])
    have hr : c ∉ rest := fun e => h (by simp [e])
    simp [fields_of, hx, ih hr]

/-- The first field ends at the first separator. -/
theorem fields_of_append (c : Char) (b : List Char) : ∀ a : List Char, c ∉ a →
    fields_of c (a ++ c :: b) = a :: fields_of c b := by
  intro a
  induction a with
  | nil => intro _; simp [fields_of]
  | cons x rest ih =>
    intro h
    have hx : ¬ x = c := fun e => h (by simp [e])
    have hr : c ∉ rest := fun e => h (by simp [e])
    simp [fields_of, hx, ih hr]

/-- With enough fuel the splitting loop of `do_set` appends the fields of the text that
is left from `pos` on. -/
theorem split_loop_spec (c : Char) (s : String) : ∀ (fuel pos : Nat) (strings : List String),
    pos ≤ s.length → s.length - pos < fuel →
    string_array_property.split_loop c s fuel pos strings =
      strings ++ (fields_of c (s.data.drop pos)).map String.mk := by
  intro fuel
  induction fuel with
  | zero => intro pos strings _ h; omega
  | succ fuel ih =>
    intro pos strings hpos hfuel
    unfold string_array_property.split_loop
    cases hf : find_first_of s c pos with
    | none =>
      have hn := (find_from_none c _ pos).mp hf
      simp [fields_of_no_sep c _ hn, substr_from]
    | some n =>
      obtain ⟨a, b, h1, h2, h3⟩ := find_from_some c _ pos n hf
      have hlen : (s.data.drop pos).length = a.length + (b.length + 1) := by
        rw [h1]; simp
      have hsl : s.length = s.data.length := by cases s; rfl
      have hdl : (s.data.drop pos).length = s.data.length - pos := List.length_drop _ _
      have hb : s.data.drop (n + 1) = b := by
        have h4 : n + 1 = pos + (a.length + 1) := by omega
        rw [h4, ← List.drop_drop, h1, show a ++ c :: b = (a ++ [c]) ++ b by simp]
        exact List.drop_left' (by simp)
      have ha : (s.data.drop pos).take (n - pos) = a := by
        have h4 : n - pos = a.length := by omega
        rw [h4, h1]
        exact List.take_left' rfl
      simp only
      rw [ih (n + 1) _ (by omega) (by omega), hb]
      simp only [substr, ha]
      rw [h1, fields_of_append c b a h2]
      simp

/-- The comparison loop of `do_set` finds a difference exactly when the two vectors, of
the same length, are not the same. -/
theorem string_vector_differs_false : ∀ (a b : List String), a.length = b.length →
    (string_vector_differs a b = false ↔ a = b) := by
  intro a
  induction a with
  | nil =>
    intro b h
    cases b with
    | nil => simp [string_vector_differs]
    | cons y ys => simp at h
  | cons x xs ih =>
    intro b h
    cases b with
    | nil => simp at h
    | cons y ys =>
      have hl : xs.length = ys.length := by simpa using h
      by_cases hxy : x = y
      · simp [string_vector_differs, hxy, ih ys hl]
      · simp [string_vector_differs, hxy]

/-- Joining the fields of a text with the separator gives the text back. -/
theorem join_with_fields_of (c : Char) : ∀ l : List Char, join_with c (fields_of c l) = l := by
  intro l
  induction l with
  | nil => rfl
  | cons x rest ih =>
    have hne := fields_of_ne_nil c rest
    cases hF : fields_of c rest with
    | nil => exact absurd hF hne
    | cons f fs =>
      rw [hF] at ih
      by_cases hx : x = c
      · simp [fields_of, hx, hF, join_with, ih]
      · cases fs with
        | nil =>
          simp only [join_with] at ih
          simp [fields_of, hx, hF, join_with, ih]
        | cons g gs =>
          simp only [join_with] at ih
          simp [fields_of, hx, hF, join_with, ih]

/-- A text has one more field than it has separators. -/
theorem length_fields_of (c : Char) : ∀ l : List Char,
    (fields_of c l).length = l.count c + 1 := by
  intro l
  induction l with
  | nil => rfl
  | cons x rest ih =>
    have hne := fields_of_ne_nil c rest
    cases hF : fields_of c rest with
    | nil => exact absurd hF hne
    | cons f fs =>
      rw [hF] at ih
      by_cases hx : x = c
      · simp only [List.length_cons] at ih
        simp only [fields_of, hx, if_true, hF, List.length_cons, List.count_cons_self]
        omega
      · have hx2 : (x == c) = false := by simpa using hx
        simp only [List.length_cons] at ih
        simp only [fields_of, hx, if_false, hF, List.length_cons, List.count_cons, hx2]
        simp only [Bool.false_eq_true, if_false]
        omega

/-- No field contains the separator. -/
theorem no_sep_in_fields_of (c : Char) : ∀ l : List Char, ∀ f ∈ fields_of c l, c ∉ f := by
  intro l
  induction l with
  | nil => intro f hf; simp [fields_of] at hf; simp [hf]
  | cons x rest ih =>
    intro f hf
    have hne := fields_of_ne_nil c rest
    cases hF : fields_of c rest with
    | nil => exact absurd hF hne
    | cons g gs =>
      rw [hF] at ih
      by_cases hx : x = c
      · simp [fields_of, hx, hF] at hf
        rcases hf with hf | hf | hf
        · simp [hf]
        · exact ih f (by simp [hf])
        · exact ih f (by simp [hf])
      · have hx2 : ¬ c = x := fun e => hx e.symm
        simp [fields_of, hx, hF] at hf
        rcases hf with hf | hf
        · have := ih g (by simp)
          simp [hf, hx2, this]
        · exact ih f (by simp [hf])

/-- The loop of `string_value` from index `pre.length` on, over the elements `l` that
are left, appends them with the separator between neighbours. -/
theorem string_value_loop (sep : Char) : ∀ (l pre : List String) (acc : String),
    (List.range' pre.length l.length).foldl
      (fun s i =>
        let s1 := s ++ (pre ++ l).getD i ""
        if i != (pre ++ l).length - 1 then s1.push sep else s1) acc =
    ⟨acc.data ++ join_with sep (l.map String.data)⟩ := by
  intro l
  induction l with
  | nil => intro pre acc; simp [join_with]
  | cons x rest ih =>
    intro pre acc
    have hget : (pre ++ x :: rest).getD pre.length "" = x := by
      rw [List.getD_eq_getElem?_getD, List.getElem?_append_right (le_refl _)]
      simp
    have h := ih (pre ++ [x])
    simp only [List.length_append, List.length_cons, List.length_nil, Nat.zero_add,
      List.append_assoc, List.singleton_append] at h
    simp only [List.length_cons, List.range'_succ, List.foldl_cons, hget, List.length_append]
    rw [h]
    cases rest with
    | nil =>
      simp [join_with]
    | cons y ys =>
      have hne : ¬ (pre.length = pre.length + (ys.length + 1 + 1) - 1) := by omega
      simp [join_with, hne, String.data_push, String.data_append]

/-- The method `string_value` joins the stored elements with the separator. -/
theorem string_value_eq_join (p : string_array_property) :
    p.string_value = ⟨join_with p.separator (p.str.map String.data)⟩ := by
  have h := string_value_loop p.separator p.str [] ""
  simp only [List.length_nil, List.nil_append] at h
  unfold string_array_property.string_value
  rw [List.range_eq_range', h]

/-- After `do_set` with a text the stored vector is the vector of fields of the text,
whether or not the call replaced the vector. -/
theorem string_array_do_set_text (p : string_array_property) (s : String) :
    (p.do_set (octave_value.string s)).2.1 =
      { p with desired_type := desired_enum.string_t,
               str := (fields_of p.separator s.data).map String.mk } := by
  have hs := split_loop_spec p.separator s (s.length + 1) 0 [] (Nat.zero_le _) (by omega)
  simp only [List.drop_zero, List.nil_append] at hs
  simp only [string_array_property.do_set, octave_value.is_string, octave_value.string_value,
    if_true, hs]
  by_cases hl : p.str.length = (fields_of p.separator s.data).length
  · cases hd : string_vector_differs ((fields_of p.separator s.data).map String.mk) p.str with
    | true => simp [hl, hd]
    | false =>
      have := (string_vector_differs_false _ _ (by simpa using hl.symm)).mp hd
      simp [hl, hd, this]
  · simp [hl]

/-- C11: after `string_array_property::do_set (s)` with a text `s` and separator `c`, the
stored vector is the sequence of fields of `s` delimited by `c`: one more field than `s`
has occurrences of `c`, no field containing `c`, empty fields kept; `string_value ()`,
and with it `get ()`, returns `s` exactly. -/
theorem string_array_text_round_trip (p : string_array_property) (s : String) :
    (p.do_set (octave_value.string s)).2.1.str =
      (fields_of p.separator s.data).map String.mk ∧
    (p.do_set (octave_value.string s)).2.1.str.length = s.data.count p.separator + 1 ∧
    (∀ f ∈ (p.do_set (octave_value.string s)).2.1.str, p.separator ∉ f.data) ∧
    (p.do_set (octave_value.string s)).2.1.string_value = s ∧
    (p.do_set (octave_value.string s)).2.1.get = octave_value.string s := by
  have hv : string_array_property.string_value
      ⟨p.name, desired_enum.string_t, p.separator,
        (fields_of p.separator s.data).map String.mk⟩ = s := by
    rw [string_value_eq_join]
    simp only [List.map_map]
    have : (String.data ∘ String.mk) = (id : List Char → List Char) := by
      funext l; rfl
    rw [this, List.map_id, join_with_fields_of]
  rw [string_array_do_set_text]
  refine ⟨rfl, ?_, ?_, hv, ?_⟩
  · simp [length_fields_of]
  · intro f hf
    simp only [List.mem_map] at hf
    obtain ⟨l, hl, rfl⟩ := hf
    exact no_sep_in_fields_of _ _ l hl
  · simp only [string_array_property.get, hv]
    rfl

/-- C11 at the separator | and the text a|b||c|: five fields, the third and the last
empty, and `string_value ()` returns the text. -/
theorem string_array_text_round_trip_witness :
    ((⟨"order", desired_enum.cell_t, '|', ["x"]⟩ : string_array_property).do_set
      (octave_value.string "a|b||c|")).2.1.str.length
      = ("a|b||c|" : String).data.count '|' + 1 ∧
    ((⟨"order", desired_enum.cell_t, '|', ["x"]⟩ : string_array_property).do_set
      (octave_value.string "a|b||c|")).2.1.string_value = "a|b||c|" :=
  ⟨(string_array_text_round_trip ⟨"order", desired_enum.cell_t, '|', ["x"]⟩ "a|b||c|").2.1,
    (string_array_text_round_trip ⟨"order", desired_enum.cell_t, '|', ["x"]⟩
      "a|b||c|").2.2.2.1⟩

/-- C12: `string_array_property::do_set` with a text makes `get ()` answer in text form,
with a cell-of-text it stores the texts and makes `get ()` answer in cell form, in both
cases also when the call returns false because the stored vector is already the same; a
value that is neither is rejected with an error and changes nothing. -/
theorem string_array_representation (p : string_array_property) :
    (∀ s : String,
      (p.do_set (octave_value.string s)).2.1.desired_type = desired_enum.string_t ∧
      (p.do_set (octave_value.string s)).2.1.get =
        octave_value.string (p.do_set (octave_value.string s)).2.1.string_value) ∧
    (∀ v : octave_value, v.is_cellstr = true →
      (p.do_set v).2.1.desired_type = desired_enum.cell_t ∧
      (p.do_set v).2.1.str = cellstr_value v.cell_value ∧
      (p.do_set v).2.1.get = Cell_of_strings (cellstr_value v.cell_value) ∧
      (p.str = cellstr_value v.cell_value → (p.do_set v).1 = false)) ∧
    (∀ s : String, p.str = (fields_of p.separator s.data).map String.mk →
      (p.do_set (octave_value.string s)).1 = false) ∧
    (∀ v : octave_value, v.is_string = false → v.is_cellstr = false →
      (p.do_set v).1 = false ∧ (p.do_set v).2.1 = p ∧ (p.do_set v).2.2.errors ≠ []) := by
  refine ⟨?_, ?_, ?_, ?_⟩
  · intro s
    rw [string_array_do_set_text]
    simp [string_array_property.get]
  · intro v hv
    have hs : v.is_string = false := by
      cases v <;> simp_all [octave_value.is_string, octave_value.is_cellstr]
    have key : (p.do_set v).2.1 =
        ⟨p.name, desired_enum.cell_t, p.separator, cellstr_value v.cell_value⟩ ∧
        (p.str = cellstr_value v.cell_value → (p.do_set v).1 = false) := by
      simp only [string_array_property.do_set, hs, hv, if_true, Bool.false_eq_true, if_false]
      by_cases hl : (cellstr_value v.cell_value).length = p.str.length
      · cases hd : string_vector_differs (cellstr_value v.cell_value) p.str with
        | true =>
          have hne : ¬ (cellstr_value v.cell_value = p.str) := by
            intro e
            have := (string_vector_differs_false _ _ hl).mpr e
            rw [hd] at this
            exact Bool.noConfusion this
          refine ⟨by simp [hl, hd], ?_⟩
          intro e
          exact absurd e.symm hne
        | false =>
          have := (string_vector_differs_false _ _ hl).mp hd
          simp [hl, hd, this]
      · refine ⟨by simp [hl], ?_⟩
        intro e
        exact absurd (by rw [e]) hl
    refine ⟨by rw [key.1], by rw [key.1], ?_, key.2⟩
    rw [key.1]
    simp [string_array_property.get, string_array_property.cell_value]
  · intro s hs
    have hl := split_loop_spec p.separator s (s.length + 1) 0 [] (Nat.zero_le _) (by omega)
    simp only [List.drop_zero, List.nil_append] at hl
    have hd := (string_vector_differs_false ((fields_of p.separator s.data).map String.mk)
      p.str (by rw [hs])).mpr hs.symm
    simp only [string_array_property.do_set, octave_value.is_string,
      octave_value.string_value, if_true, hl, hd]
    simp [hs]
  · intro v hs hc
    simp [string_array_property.do_set, hs, hc, Log.error, Log.empty]

/-- C12 at a property in cell form holding the single text x: the text "x" switches
`get ()` to text form although the call returns false, and a cell with a number in it
is rejected. -/
theorem string_array_representation_witness :
    ((⟨"order", desired_enum.cell_t, '|', ["x"]⟩ : string_array_property).do_set
      (octave_value.string "x")).1 = false ∧
    ((⟨"order", desired_enum.cell_t, '|', ["x"]⟩ : string_array_property).do_set
      (octave_value.string "x")).2.1.desired_type = desired_enum.string_t ∧
    ((⟨"order", desired_enum.cell_t, '|', ["x"]⟩ : string_array_property).do_set
      (octave_value.cell [cell_entry.string "a", cell_entry.string "b"])).2.1.str
      = ["a", "b"] ∧
    ((⟨"order", desired_enum.cell_t, '|', ["x"]⟩ : string_array_property).do_set
      (octave_value.cell [cell_entry.string "x", cell_entry.real 2])).2.1
      = ⟨"order", desired_enum.cell_t, '|', ["x"]⟩ :=
  ⟨(string_array_representation ⟨"order", desired_enum.cell_t, '|', ["x"]⟩).2.2.1 "x"
      (by decide),
    ((string_array_representation ⟨"order", desired_enum.cell_t, '|', ["x"]⟩).1 "x").1,
    ((string_array_representation ⟨"order", desired_enum.cell_t, '|', ["x"]⟩).2.1
      (octave_value.cell [cell_entry.string "a", cell_entry.string "b"]) (by decide)).2.1,
    ((string_array_representation ⟨"order", desired_enum.cell_t, '|', ["x"]⟩).2.2.2
      (octave_value.cell [cell_entry.string "x", cell_entry.real 2])
      (by decide) (by decide)).2.1⟩

/-- C15: `string_property::do_set` with a text `s` returns true if and only if `s`
differs from the stored text, raises no error, and afterwards `get ()` returns `s`
verbatim; with a value that is not text it raises an error, returns false and `get ()`
still returns the stored text. -/
theorem string_do_set_verbatim (p : string_property) :
    (∀ s : String,
      ((p.do_set (octave_value.string s)).1 = true ↔ s ≠ p.str) ∧
      (p.do_set (octave_value.string s)).2.1.get = octave_value.string s ∧
      (p.do_set (octave_value.string s)).2.2.errors = []) ∧
    (∀ v : octave_value, v.is_string = false →
      (p.do_set v).1 = false ∧ (p.do_set v).2.2.errors ≠ [] ∧
      (p.do_set v).2.1.get = octave_value.string p.str) := by
  constructor
  · intro s
    by_cases h : s = p.str
    · simp [string_property.do_set, octave_value.is_string, octave_value.string_value, h,
        string_property.get, Log.empty]
    · simp [string_property.do_set, octave_value.is_string, octave_value.string_value, h,
        string_property.get, Log.empty]
  · intro v hv
    simp [string_property.do_set, hv, string_property.get, Log.error, Log.empty]

/-- C15 at the stored text abc: the boolean true is rejected and `get ()` is still abc. -/
theorem string_do_set_verbatim_witness :
    ((⟨"tag", "abc"⟩ : string_property).do_set (octave_value.bool true)).1 = false ∧
    ((⟨"tag", "abc"⟩ : string_property).do_set (octave_value.bool true)).2.1.get
      = octave_value.string "abc" :=
  ⟨((string_do_set_verbatim ⟨"tag", "abc"⟩).2 (octave_value.bool true) (by decide)).1,
    ((string_do_set_verbatim ⟨"tag", "abc"⟩).2 (octave_value.bool true) (by decide)).2.2⟩

/-- The cell loop of `text_label_property::do_set` runs to the end exactly when every
element is a text or converts to a real number. -/
theorem cell_loop_accepts (fmt : ℚ → String) : ∀ (c : List cell_entry) (i : Nat)
    (value : List String) (log : Log), log.error_state = false →
    ((text_label_property.cell_loop fmt c i value log).2.1 = true ↔
      c.all cell_entry.is_label = true) := by
  intro c
  induction c with
  | nil => intro i value log _; simp [text_label_property.cell_loop]
  | cons e rest ih =>
    intro i value log hlog
    cases e with
    | string s =>
      simp [text_label_property.cell_loop, cell_entry.is_string, cell_entry.is_label,
        ih _ _ _ hlog]
    | real d =>
      simp [text_label_property.cell_loop, cell_entry.is_string, cell_entry.is_label,
        cell_entry.double_value, hlog, ih _ _ _ hlog]
    | other =>
      simp [text_label_property.cell_loop, cell_entry.is_string, cell_entry.is_label,
        cell_entry.double_value, Log.error, Log.error_state]

/-- C13 (the code departs from the claim): a `text_label_property` holding the single
line abc is given a cell whose second element is neither text nor a number. The call
returns false, but the cell branch has already resized `value` and written the first
element, so the stored lines are x and an empty line and `get ()` has changed. -/
theorem text_label_rejected_cell_overwrites (fmt : ℚ → String) :
    ((⟨"string", ["abc"], text_label_type.char_t⟩ : text_label_property).do_set fmt
      (octave_value.cell [cell_entry.string "x", cell_entry.other])).1 = false ∧
    ((⟨"string", ["abc"], text_label_type.char_t⟩ : text_label_property).do_set fmt
      (octave_value.cell [cell_entry.string "x", cell_entry.other])).2.1.value = ["x", ""] ∧
    (⟨"string", ["abc"], text_label_type.char_t⟩ : text_label_property).get
      = text_label_value.char_matrix ["abc"] ∧
    ((⟨"string", ["abc"], text_label_type.char_t⟩ : text_label_property).do_set fmt
      (octave_value.cell [cell_entry.string "x", cell_entry.other])).2.1.get
      = text_label_value.char_matrix ["x", " "] := by
  refine ⟨?_, ?_, ?_, ?_⟩ <;> rfl

/-- C14 fails as stated: setting the text abc on a `text_label_property` that already
holds the line abc as a character value returns true, with the property unchanged. -/
theorem text_label_same_value_reports_change :
    ((⟨"string", ["abc"], text_label_type.char_t⟩ : text_label_property).do_set
      (fun _ => "0") (octave_value.string "abc")) =
      (true, ⟨"string", ["abc"], text_label_type.char_t⟩, Log.empty) := by
  decide

/-- C14 as amended: `text_label_property::do_set` does not compare the new value with the
stored one. It returns true exactly when the value is accepted (text, a cell whose
elements are all text or convertible to a real number, or a value that converts to a
numeric array), and a text equal to the stored single line of a character value is
answered with true and leaves the property as it was. -/
theorem text_label_do_set_reports_accept (fmt : ℚ → String) (p : text_label_property)
    (val : octave_value) :
    ((p.do_set fmt val).1 = true ↔ text_label_accepts val = true) ∧
    (∀ s : String, p.value = [s] → p.stored_type = text_label_type.char_t →
      p.do_set fmt (octave_value.string s) = (true, p, Log.empty)) := by
  constructor
  · cases hs : val.is_string with
    | true => simp [text_label_property.do_set, text_label_accepts, hs]
    | false =>
      cases hc : val.is_cell with
      | true =>
        have h := cell_loop_accepts fmt val.cell_value 0
          (string_vector_resize p.value val.cell_value.length) Log.empty rfl
        simp only [text_label_property.do_set, text_label_accepts, hs, hc]
        cases hr : (text_label_property.cell_loop fmt val.cell_value 0
          (string_vector_resize p.value val.cell_value.length) Log.empty).2.1 with
        | true =>
          rw [hr] at h
          simp [hr, h.mp rfl]
        | false =>
          rw [hr] at h
          have : ¬ (val.cell_value.all cell_entry.is_label = true) := fun e => by
            have := h.mpr e
            exact Bool.noConfusion this
          simp [hr, this]
      | false =>
        simp only [text_label_property.do_set, text_label_accepts, hs, hc]
        cases he : (val.array_value Log.empty).2.error_state <;> simp [he]
  · intro s hv ht
    cases p with
    | mk name value stored_type =>
      simp only at hv ht
      subst hv ht
      simp [text_label_property.do_set, octave_value.is_string, octave_value.all_strings]

/-- C14 at a character value holding the line title: setting the text title again is
answered with true and the property is as before. -/
theorem text_label_do_set_reports_accept_witness :
    (⟨"title", ["title"], text_label_type.char_t⟩ : text_label_property).value = ["title"] ∧
    (⟨"title", ["title"], text_label_type.char_t⟩ : text_label_property).do_set
      (fun _ => "0") (octave_value.string "title")
      = (true, ⟨"title", ["title"], text_label_type.char_t⟩, Log.empty) :=
  ⟨rfl,
    (text_label_do_set_reports_accept (fun _ => "0")
      ⟨"title", ["title"], text_label_type.char_t⟩ (octave_value.string "title")).2
      "title" rfl rfl⟩

/-! ## Array, boolean and colour properties -/

/-- After `array_property::do_set` with an accepted matrix the stored data is that
matrix and no message has been issued, whether or not the data was replaced. -/
theorem array_do_set_accepted (p : array_property) (m : Matrix)
    (hacc : p.validate (octave_value.matrix m) = true) :
    (array_property.do_set p (octave_value.matrix m)).2.1.data = m ∧
    (array_property.do_set p (octave_value.matrix m)).2.2 = Log.empty := by
  by_cases he : p.data = m
  · simp [array_property.do_set, hacc, array_property.is_equal, he]
  · simp [array_property.do_set, hacc, array_property.is_equal, he,
      array_property.get_data_limits, octave_value.array_value, octave_value.matrix_value]

/-- C16 fails as stated for N = 0: a row vector property accepts the empty column of
shape 0-by-1 and stores it as it is, with no row at all, because the transposition is
guarded by `dv(0) > 1`. -/
theorem row_vector_empty_column_kept :
    (row_vector_property.new "xdata" ⟨1, 2, [0, 1]⟩).validate
      (octave_value.matrix ⟨0, 1, []⟩) = true ∧
    (row_vector_property.do_set (row_vector_property.new "xdata" ⟨1, 2, [0, 1]⟩)
      (octave_value.matrix ⟨0, 1, []⟩)).1 = true ∧
    (row_vector_property.do_set (row_vector_property.new "xdata" ⟨1, 2, [0, 1]⟩)
      (octave_value.matrix ⟨0, 1, []⟩)).2.1.data = ⟨0, 1, []⟩ ∧
    (row_vector_property.do_set (row_vector_property.new "xdata" ⟨1, 2, [0, 1]⟩)
      (octave_value.matrix ⟨0, 1, []⟩)).2.1.data.rows ≠ 1 := by
  decide

/-- C16 as amended: for every accepted matrix of shape N-by-1 with N at least 1 the data
stored by `row_vector_property::do_set` has shape 1-by-N with the same elements in the
same order; an accepted matrix of shape 1-by-N is stored as it is; so after an accepted
set of a row, or of a column that is not empty, the stored data has exactly one row. An
accepted matrix without rows is stored as it is. -/
theorem row_vector_do_set_orientation (p : array_property) (m : Matrix)
    (hacc : p.validate (octave_value.matrix m) = true) :
    (m.cols = 1 → 1 ≤ m.rows →
      (row_vector_property.do_set p (octave_value.matrix m)).2.1.data
        = ⟨1, m.rows, m.data⟩) ∧
    (m.rows = 1 →
      (row_vector_property.do_set p (octave_value.matrix m)).2.1.data = m) ∧
    ((m.rows = 1 ∨ (m.cols = 1 ∧ 1 ≤ m.rows)) →
      (row_vector_property.do_set p (octave_value.matrix m)).2.1.data.rows = 1) ∧
    (m.rows = 0 →
      (row_vector_property.do_set p (octave_value.matrix m)).2.1.data = m) := by
  obtain ⟨hd, hl⟩ := array_do_set_accepted p m hacc
  have hcol : m.cols = 1 → 1 ≤ m.rows →
      (row_vector_property.do_set p (octave_value.matrix m)).2.1.data
        = ⟨1, m.rows, m.data⟩ := by
    intro hc hr
    by_cases h1 : 1 < m.rows
    · simp [row_vector_property.do_set, hl, hd, Log.error_state, Log.empty, hc, h1,
        Matrix.reshape]
    · have hr1 : m.rows = 1 := by omega
      have hm : m = ⟨1, m.rows, m.data⟩ := by
        cases m with
        | mk rows cols data =>
          simp only at hc hr1
          subst hc hr1
          rfl
      simp [row_vector_property.do_set, hl, hd, Log.error_state, Log.empty, hc, hr1]
      rw [hr1] at hm
      exact hm
  have hrow : m.rows = 1 →
      (row_vector_property.do_set p (octave_value.matrix m)).2.1.data = m := by
    intro hr
    simp [row_vector_property.do_set, hl, hd, Log.error_state, Log.empty, hr]
  refine ⟨hcol, hrow, ?_, ?_⟩
  · intro h
    rcases h with h | ⟨hc, hr⟩
    · rw [hrow h, h]
    · rw [hcol hc hr]
  · intro hr
    simp [row_vector_property.do_set, hl, hd, Log.error_state, Log.empty, hr]

/-- C16 at the row vector property holding 0, 1: the accepted column 5, 6, 7 of shape
3-by-1 is stored as the row of shape 1-by-3. -/
theorem row_vector_do_set_orientation_witness :
    (row_vector_property.new "xdata" ⟨1, 2, [0, 1]⟩).validate
      (octave_value.matrix ⟨3, 1, [5, 6, 7]⟩) = true ∧
    (row_vector_property.do_set (row_vector_property.new "xdata" ⟨1, 2, [0, 1]⟩)
      (octave_value.matrix ⟨3, 1, [5, 6, 7]⟩)).2.1.data
      = ⟨1, (⟨3, 1, [5, 6, 7]⟩ : Matrix).rows, (⟨3, 1, [5, 6, 7]⟩ : Matrix).data⟩ :=
  ⟨by decide,
    (row_vector_do_set_orientation (row_vector_property.new "xdata" ⟨1, 2, [0, 1]⟩)
      ⟨3, 1, [5, 6, 7]⟩ (by decide)).1 (by decide) (by decide)⟩

/-- A text that radio matching resolves is resolved to one of the options. -/
theorem contains_mem (rv : radio_values) (s mt : String)
    (h : (rv.contains s mt).1 = true) : (rv.contains s mt).2 ∈ rv.possible_vals := by
  cases hf : rv.possible_vals.find? (equals_caseless s) with
  | some m =>
    have hm : m ∈ rv.possible_vals := List.mem_of_find?_eq_some hf
    simpa [radio_values.contains, contains_loop_exact s _ 0 "" m hf] using hm
  | none =>
    rw [radio_values.contains, contains_loop_none s _ 0 "" hf] at h ⊢
    cases hl : rv.possible_vals.filter (starts_caseless s) with
    | nil => simp [hl] at h
    | cons o os =>
      have ho : o ∈ rv.possible_vals.filter (starts_caseless s) := by simp [hl]
      have ho2 := (List.mem_filter.mp ho).1
      cases os with
      | nil => simpa [hl] using ho2
      | cons o2 os2 => simp [hl] at h

/-- After `radio_property::do_set` the current value is the old one or one of the
options. -/
theorem radio_do_set_current_val (p : radio_property) (v : octave_value) :
    (p.do_set v).2.1.current_val = p.current_val ∨
    (p.do_set v).2.1.current_val ∈ p.vals.possible_vals := by
  cases hs : v.is_string with
  | false => simp [radio_property.do_set, hs]
  | true =>
    cases hc : (p.vals.contains v.string_value "").1 with
    | false => simp [radio_property.do_set, hs, radio_values.validate, hc]
    | true =>
      have hm := contains_mem p.vals v.string_value "" hc
      by_cases he : (p.vals.contains v.string_value "").2 = p.current_val
      · simp [radio_property.do_set, hs, radio_values.validate, hc, he]
      · right
        simpa [radio_property.do_set, hs, radio_values.validate, hc, he] using hm

/-- C17: `bool_property::do_set` with the boolean true is `do_set` with the text "on",
and with the boolean false it is `do_set` with the text "off": same result, same
property afterwards, same messages. For a property over the options on and off whose
current value is one of them, `is_on ()` holds after any `do_set` if and only if the
current value is "on". -/
theorem bool_do_set_on_off (p : radio_property) :
    bool_property.do_set p (octave_value.bool true)
      = bool_property.do_set p (octave_value.string "on") ∧
    bool_property.do_set p (octave_value.bool false)
      = bool_property.do_set p (octave_value.string "off") ∧
    (p.vals.possible_vals = ["off", "on"] → p.current_val ∈ ["off", "on"] →
      ∀ v : octave_value,
        (bool_property.is_on (bool_property.do_set p v).2.1 = true ↔
          (bool_property.do_set p v).2.1.current_val = "on")) := by
  refine ⟨rfl, rfl, ?_⟩
  intro hv hc v
  have key : ∀ w : octave_value, (p.do_set w).2.1.current_val ∈ ["off", "on"] := by
    intro w
    rcases radio_do_set_current_val p w with h | h
    · rw [h]; exact hc
    · rw [hv] at h; exact h
  have hcur : (bool_property.do_set p v).2.1.current_val ∈ ["off", "on"] := by
    unfold bool_property.do_set
    split
    · exact key _
    · exact key _
  simp only [bool_property.is_on, radio_property.is]
  simp only [List.mem_cons, List.mem_singleton, List.not_mem_nil, or_false] at hcur
  rcases hcur with h | h
  · rw [h]; decide
  · rw [h]; decide

/-- C17 at a fresh property that is on: after `do_set` with the boolean false the
property is off and `is_on ()` does not hold. -/
theorem bool_do_set_on_off_witness :
    ((bool_property.new "visible" true).vals.possible_vals = ["off", "on"]) ∧
    (bool_property.is_on
      (bool_property.do_set (bool_property.new "visible" true) (octave_value.bool false)).2.1
      = true ↔
    (bool_property.do_set (bool_property.new "visible" true)
      (octave_value.bool false)).2.1.current_val = "on") :=
  ⟨by decide,
    (bool_do_set_on_off (bool_property.new "visible" true)).2.2 (by decide) (by decide)
      (octave_value.bool false)⟩

/-- C18: over exact numbers, `color_values (r, g, b)` raises an error if and only if
some component is less than 0 or greater than 1, the error is the single message
"invalid RGB color specification", and the boundary values 0 and 1 are accepted. -/
theorem color_values_rgb_range (r g b : ℚ) :
    ((color_values.new r g b).2.errors ≠ [] ↔
      (r < 0 ∨ 1 < r ∨ g < 0 ∨ 1 < g ∨ b < 0 ∨ 1 < b)) ∧
    ((color_values.new r g b).2.errors ≠ [] →
      (color_values.new r g b).2.errors = ["invalid RGB color specification"]) ∧
    (color_values.new 0 1 0).2.errors = [] ∧
    (color_values.new 1 0 1).2.errors = [] := by
  have hx0 : (⟨1, 3, [r, g, b]⟩ : Matrix).xelem 0 = r := rfl
  have hx1 : (⟨1, 3, [r, g, b]⟩ : Matrix).xelem 1 = g := rfl
  have hx2 : (⟨1, 3, [r, g, b]⟩ : Matrix).xelem 2 = b := rfl
  refine ⟨?_, ?_, by decide, by decide⟩
  · simp only [color_values.new, color_values.validate, color_values.validate_from,
      hx0, hx1, hx2]
    by_cases h1 : r < 0 ∨ 1 < r
    · rcases h1 with h | h <;> simp [h, Log.error, Log.empty]
    · have h1a : ¬ r < 0 := fun h => h1 (Or.inl h)
      have h1b : ¬ 1 < r := fun h => h1 (Or.inr h)
      by_cases h2 : g < 0 ∨ 1 < g
      · rcases h2 with h | h <;> simp [h, h1a, h1b, Log.error, Log.empty]
      · have h2a : ¬ g < 0 := fun h => h2 (Or.inl h)
        have h2b : ¬ 1 < g := fun h => h2 (Or.inr h)
        by_cases h3 : b < 0 ∨ 1 < b
        · rcases h3 with h | h <;> simp [h, h1a, h1b, h2a, h2b, Log.error, Log.empty]
        · have h3a : ¬ b < 0 := fun h => h3 (Or.inl h)
          have h3b : ¬ 1 < b := fun h => h3 (Or.inr h)
          simp [h1a, h1b, h2a, h2b, h3a, h3b, Log.empty]
  · simp only [color_values.new, color_values.validate, color_values.validate_from,
      hx0, hx1, hx2]
    intro h
    by_cases h1 : r < 0 ∨ 1 < r
    · rcases h1 with h' | h' <;> simp [h', Log.error, Log.empty]
    · have h1a : ¬ r < 0 := fun h => h1 (Or.inl h)
      have h1b : ¬ 1 < r := fun h => h1 (Or.inr h)
      by_cases h2 : g < 0 ∨ 1 < g
      · rcases h2 with h' | h' <;> simp [h', h1a, h1b, Log.error, Log.empty]
      · have h2a : ¬ g < 0 := fun h => h2 (Or.inl h)
        have h2b : ¬ 1 < g := fun h => h2 (Or.inr h)
        by_cases h3 : b < 0 ∨ 1 < b
        · rcases h3 with h' | h' <;> simp [h', h1a, h1b, h2a, h2b, Log.error, Log.empty]
        · have h3a : ¬ b < 0 := fun h => h3 (Or.inl h)
          have h3b : ¬ 1 < b := fun h => h3 (Or.inr h)
          simp [h1a, h1b, h2a, h2b, h3a, h3b, Log.empty] at h

/-- C18 at the components 0, -1, 2: the constructor raises the single error. -/
theorem color_values_rgb_range_witness :
    (color_values.new 0 (-1) 2).2.errors ≠ [] ∧
    (color_values.new 0 (-1) 2).2.errors = ["invalid RGB color specification"] :=
  ⟨by decide, (color_values_rgb_range 0 (-1) 2).2.1 (by decide)⟩

/-! ## Stand-in objects and toolkits -/

/-- C19 fails as stated: on the base graphics object `add_property_listener` and
`delete_property_listener` return without any error, and so does `type`, which answers
"unknown". -/
theorem base_object_listener_ops_silent :
    (base_graphics_object.new.invoke (object_op.add_property_listener "color")
      Log.empty).2.2.errors = [] ∧
    (base_graphics_object.new.invoke (object_op.delete_property_listener "color")
      Log.empty).2.2.errors = [] ∧
    base_graphics_object.new.invoke object_op.type Log.empty
      = (object_result.text "unknown", base_graphics_object.new, Log.empty) := by
  decide

/-- C19 as amended: each of mark_modified, override_defaults, set_from_list, set,
set_defaults, get, get_defaults, get_factory_defaults, get_parent, get_handle,
remove_child, adopt, reparent, defaults, get_properties, get_toolkit and
reset_default_properties, invoked on the base graphics object, raises exactly one error,
whose text ends in "invalid graphics object", and leaves the object as it was;
`valid_object ()` is false for it, and `type ()` answers "unknown" without an error. -/
theorem base_object_ops_rejected (obj : base_graphics_object) (op : object_op) :
    obj.valid_object = false ∧
    obj.invoke object_op.type Log.empty = (object_result.text "unknown", obj, Log.empty) ∧
    (op.rejected = true →
      (obj.invoke op Log.empty).2.1 = obj ∧
      ∃ fname : String, (obj.invoke op Log.empty).2.2.errors =
        ["base_graphics_object::" ++ fname ++ ": invalid graphics object"]) := by
  refine ⟨rfl, rfl, ?_⟩
  intro hop
  cases op with
  | mark_modified => exact ⟨rfl, "mark_modified", rfl⟩
  | override_defaults => exact ⟨rfl, "override_defaults", rfl⟩
  | set_from_list => exact ⟨rfl, "set_from_list", rfl⟩
  | set pname pval => exact ⟨rfl, "set", rfl⟩
  | set_defaults => exact ⟨rfl, "set_defaults", rfl⟩
  | get => exact ⟨rfl, "get", rfl⟩
  | get_defaults => exact ⟨rfl, "get_defaults", rfl⟩
  | get_factory_defaults => exact ⟨rfl, "get_factory_defaults", rfl⟩
  | get_parent => exact ⟨rfl, "get_parent", rfl⟩
  | get_handle => exact ⟨rfl, "get_handle", rfl⟩
  | remove_child h => exact ⟨rfl, "remove_child", rfl⟩
  | adopt h => exact ⟨rfl, "adopt", rfl⟩
  | reparent np => exact ⟨rfl, "reparent", rfl⟩
  | defaults => exact ⟨rfl, "default", rfl⟩
  | get_properties => exact ⟨rfl, "get_properties", rfl⟩
  | type => simp [object_op.rejected] at hop
  | get_toolkit => exact ⟨rfl, "get_toolkit", rfl⟩
  | add_property_listener nm => simp [object_op.rejected] at hop
  | delete_property_listener nm => simp [object_op.rejected] at hop
  | reset_default_properties => exact ⟨rfl, "default", rfl⟩

/-- C19 at the object behind a default `graphics_object`: `set` is answered with the
error of `base_graphics_object::set` and the object is unchanged. -/
theorem base_object_ops_rejected_witness :
    (object_op.set "color" (octave_value.string "red")).rejected = true ∧
    (base_graphics_object.new.invoke (object_op.set "color" (octave_value.string "red"))
      Log.empty).2.1 = base_graphics_object.new :=
  ⟨by decide,
    ((base_object_ops_rejected base_graphics_object.new
      (object_op.set "color" (octave_value.string "red"))).2.2 (by decide)).1⟩

/-- C20: on a toolkit delegate whose `is_valid ()` is false, each of redraw_figure,
print_figure, get_canvas_size, get_screen_resolution, get_screen_size, update,
initialize, finalize and close raises exactly one error, whose text ends in "invalid
graphics toolkit", and leaves the delegate as it was; `initialize` returns false. -/
theorem invalid_toolkit_ops_rejected (tk : base_graphics_toolkit) (op : toolkit_op)
    (hv : tk.is_valid = false) :
    (tk.invoke op Log.empty).2.1 = tk ∧
    (∃ fname : String, (tk.invoke op Log.empty).2.2.errors =
      [fname ++ ": invalid graphics toolkit"]) ∧
    (tk.invoke toolkit_op.initialize_object Log.empty).1 = toolkit_result.flag false := by
  have hg : ∀ fname : String, (tk.gripe_invalid fname Log.empty).errors =
      [fname ++ ": invalid graphics toolkit"] := by
    intro fname
    simp [base_graphics_toolkit.gripe_invalid, hv, Log.error, Log.empty]
  refine ⟨?_, ?_, rfl⟩
  · cases op <;> rfl
  · cases op
    · exact ⟨"redraw_figure", hg _⟩
    · exact ⟨"print_figure", hg _⟩
    · exact ⟨"get_canvas_size", hg _⟩
    · exact ⟨"get_screen_resolution", hg _⟩
    · exact ⟨"get_screen_size", hg _⟩
    · exact ⟨"base_graphics_toolkit::update", hg _⟩
    · exact ⟨"base_graphics_toolkit::initialize", hg _⟩
    · exact ⟨"base_graphics_toolkit::finalize", hg _⟩
    · exact ⟨"base_graphics_toolkit::close", hg _⟩

/-- C20 at the toolkit behind a default `graphics_toolkit`, named unknown: `close` is
answered with an error and the delegate is unchanged. -/
theorem invalid_toolkit_ops_rejected_witness :
    (base_graphics_toolkit.new "unknown").is_valid = false ∧
    ((base_graphics_toolkit.new "unknown").invoke toolkit_op.close Log.empty).2.1
      = base_graphics_toolkit.new "unknown" :=
  ⟨by decide,
    (invalid_toolkit_ops_rejected (base_graphics_toolkit.new "unknown") toolkit_op.close
      (by decide)).1⟩

/-! ## Toolkit lifecycle -/

/-- Reading a longer list of calls is reading its first part and then the rest. -/
theorem toolkit_flag_after_append : ∀ (a b : List toolkit_call) (flag : Bool),
    toolkit_flag_after flag (a ++ b) =
      (toolkit_flag_after flag a).bind (fun g => toolkit_flag_after g b) := by
  intro a
  induction a with
  | nil => intro b flag; simp [toolkit_flag_after]
  | cons e rest ih =>
    intro b flag
    cases e with
    | initialize_call acc =>
      cases flag <;> simp [toolkit_flag_after, ih]
    | finalize_call =>
      cases flag <;> simp [toolkit_flag_after, ih]
    | update_call id =>
      cases flag <;> simp [toolkit_flag_after, ih]

/-- One lifecycle call keeps the calls received in turn. -/
theorem object_session_step_in_turn (accepts : List toolkit_call → Bool) (flag0 : Bool)
    (s : object_session) (op : lifecycle_op)
    (h : toolkit_flag_after flag0 s.calls = some s.obj.toolkit_flag) :
    toolkit_flag_after flag0 (s.step accepts op).calls
      = some (s.step accepts op).obj.toolkit_flag := by
  cases op with
  | initialize_object =>
    cases hf : s.obj.toolkit_flag with
    | true =>
      simp only [object_session.step, base_graphics_object.initialize, hf]
      simpa [hf] using h
    | false =>
      simp [object_session.step, base_graphics_object.initialize, hf,
        toolkit_flag_after_append, h, toolkit_flag_after]
  | finalize_object =>
    cases hf : s.obj.toolkit_flag with
    | true =>
      simp [object_session.step, base_graphics_object.finalize, hf,
        toolkit_flag_after_append, h, toolkit_flag_after]
    | false =>
      simp only [object_session.step, base_graphics_object.finalize, hf]
      simpa [hf] using h
  | update_object id =>
    cases hf : s.obj.toolkit_flag with
    | true =>
      simp [object_session.step, base_graphics_object.update, hf,
        toolkit_flag_after_append, h, toolkit_flag_after]
    | false =>
      simp only [object_session.step, base_graphics_object.update, hf]
      simpa [hf] using h

/-- A sequence of lifecycle calls keeps the calls received in turn. -/
theorem object_session_run_in_turn (accepts : List toolkit_call → Bool) (flag0 : Bool) :
    ∀ (ops : List lifecycle_op) (s : object_session),
    toolkit_flag_after flag0 s.calls = some s.obj.toolkit_flag →
    toolkit_flag_after flag0 (s.run accepts ops).calls
      = some (s.run accepts ops).obj.toolkit_flag := by
  intro ops
  induction ops with
  | nil => intro s h; exact h
  | cons op rest ih =>
    intro s h
    exact ih (s.step accepts op) (object_session_step_in_turn accepts flag0 s op h)

/-- Once the toolkit flag is set, further calls of `initialize` change nothing. -/
theorem initialize_times_flag_set (accepts : List toolkit_call → Bool) :
    ∀ (n : Nat) (s : object_session), s.obj.toolkit_flag = true →
    object_session.initialize_times accepts n s = s := by
  intro n
  induction n with
  | zero => intro s _; rfl
  | succ n ih =>
    intro s h
    have h1 : base_graphics_object.initialize accepts s = s := by
      simp [ base_graphics_object.initialize, h]
    simp only [object_session.initialize_times, h1]
    exact ih s h

/-- While the toolkit declines, every call of `initialize` reaches it again. -/
theorem initialize_times_declined (accepts : List toolkit_call → Bool)
    (hdecl : ∀ seen, accepts seen = false) :
    ∀ (n : Nat) (s : object_session), s.obj.toolkit_flag = false →
    (object_session.initialize_times accepts n s).calls =
      s.calls ++ List.replicate n (toolkit_call.initialize_call false) ∧
    (object_session.initialize_times accepts n s).obj.toolkit_flag = false := by
  intro n
  induction n with
  | zero => intro s h; simp [object_session.initialize_times, h]
  | succ n ih =>
    intro s h
    have h1 := ih ( base_graphics_object.initialize accepts s)
      (by simp [ base_graphics_object.initialize, h, hdecl])
    simp only [object_session.initialize_times]
    refine ⟨?_, h1.2⟩
    rw [h1.1]
    simp [ base_graphics_object.initialize, h, hdecl, List.replicate_succ]

/-- Read from a clear flag, a list of calls that leaves the flag set holds an accepted
`initialize`. -/
theorem toolkit_flag_after_clear_set : ∀ (l : List toolkit_call),
    toolkit_flag_after false l = some true → toolkit_call.initialize_call true ∈ l := by
  intro l
  induction l with
  | nil => intro h; simp [toolkit_flag_after] at h
  | cons e rest ih =>
    intro h
    cases e with
    | initialize_call acc =>
      cases acc with
      | true => simp
      | false =>
        simp only [toolkit_flag_after] at h
        exact List.mem_cons_of_mem _ (ih (by simpa using h))
    | finalize_call => simp [toolkit_flag_after] at h
    | update_call id => simp [toolkit_flag_after] at h

/-- A call that is read in turn after a `finalize` and needs the flag set comes after an
accepted `initialize`. -/
theorem toolkit_flag_after_finalize_then (flag0 : Bool) (pre mid rest : List toolkit_call)
    (e : toolkit_call) (r : Bool)
    (he : ∀ tail, toolkit_flag_after false (e :: tail) = none)
    (h : toolkit_flag_after flag0 (pre ++ toolkit_call.finalize_call :: (mid ++ e :: rest))
      = some r) :
    toolkit_call.initialize_call true ∈ mid := by
  rw [toolkit_flag_after_append] at h
  cases hp : toolkit_flag_after flag0 pre with
  | none => simp [hp] at h
  | some f1 =>
    cases f1 with
    | false => simp [hp, toolkit_flag_after] at h
    | true =>
      simp only [hp, Option.some_bind, toolkit_flag_after, if_true] at h
      rw [toolkit_flag_after_append] at h
      cases hm : toolkit_flag_after false mid with
      | none => simp [hm] at h
      | some f2 =>
        cases f2 with
        | true => exact toolkit_flag_after_clear_set mid hm
        | false =>
          simp only [hm, Option.some_bind] at h
          rw [he rest] at h
          cases h

/-- C21 fails as stated: with the base toolkit, whose `initialize` returns false, two
calls in a row of a fresh object's `initialize` invoke the toolkit's `initialize` twice,
and the flag is still clear. -/
theorem object_initialize_declined_twice :
    (object_session.initialize_times
        (base_graphics_toolkit.accepts (base_graphics_toolkit.new "unknown")) 2
        ⟨base_graphics_object.new, []⟩) =
      ⟨base_graphics_object.new,
        [toolkit_call.initialize_call false, toolkit_call.initialize_call false]⟩ := by
  decide

/-- C21 as amended: on an object whose toolkit flag is clear, `n ≥ 1` calls in a row of
`base_graphics_object::initialize` invoke the toolkit's `initialize` exactly once when
the toolkit accepts the first call, leaving the flag set, and `n` times when the toolkit
declines every call, leaving the flag clear; on an object whose flag is set no call
reaches the toolkit. -/
theorem object_initialize_guarded (accepts : List toolkit_call → Bool)
    (s : object_session) (n : Nat) (hn : 1 ≤ n) :
    (s.obj.toolkit_flag = false → accepts s.calls = true →
      (object_session.initialize_times accepts n s).calls =
        s.calls ++ [toolkit_call.initialize_call true] ∧
      (object_session.initialize_times accepts n s).obj.toolkit_flag = true) ∧
    (s.obj.toolkit_flag = false → (∀ seen, accepts seen = false) →
      (object_session.initialize_times accepts n s).calls =
        s.calls ++ List.replicate n (toolkit_call.initialize_call false) ∧
      (object_session.initialize_times accepts n s).obj.toolkit_flag = false) ∧
    (s.obj.toolkit_flag = true → object_session.initialize_times accepts n s = s) := by
  refine ⟨?_, ?_, ?_⟩
  · intro hflag hacc
    obtain ⟨m, rfl⟩ : ∃ m, n = m + 1 := ⟨n - 1, by omega⟩
    simp only [object_session.initialize_times]
    rw [initialize_times_flag_set accepts m _
      (by simp [ base_graphics_object.initialize, hflag, hacc])]
    simp [ base_graphics_object.initialize, hflag, hacc]
  · intro hflag hdecl
    exact initialize_times_declined accepts hdecl n s hflag
  · intro hflag
    exact initialize_times_flag_set accepts n s hflag

/-- C21 at a fresh object and a toolkit that accepts: three calls reach the toolkit
once. -/
theorem object_initialize_guarded_witness :
    1 ≤ 3 ∧
    (object_session.initialize_times (fun _ => true) 3 ⟨base_graphics_object.new, []⟩).calls
      = [] ++ [toolkit_call.initialize_call true] ∧
    (object_session.initialize_times (fun _ => true) 3
      ⟨base_graphics_object.new, []⟩).obj.toolkit_flag = true :=
  ⟨by decide,
    (object_initialize_guarded (fun _ => true) ⟨base_graphics_object.new, []⟩ 3
      (by decide)).1 rfl rfl⟩

/-- C22: in every sequence of `initialize`, `update` and `finalize` calls on one graphics
object, the calls that reach the toolkit are in turn and end in the object's toolkit
flag; an `update` and a `finalize` reach the toolkit only when the calls before them
leave the flag set; between two `finalize` calls, and between a `finalize` and a later
`update`, the toolkit has accepted an `initialize`. -/
theorem object_lifecycle_in_turn (accepts : List toolkit_call → Bool)
    (obj0 : base_graphics_object) (ops : List lifecycle_op) :
    toolkit_flag_after obj0.toolkit_flag (object_session.run accepts ⟨obj0, []⟩ ops).calls
      = some (object_session.run accepts ⟨obj0, []⟩ ops).obj.toolkit_flag ∧
    (∀ pre id post,
      (object_session.run accepts ⟨obj0, []⟩ ops).calls
        = pre ++ toolkit_call.update_call id :: post →
      toolkit_flag_after obj0.toolkit_flag pre = some true) ∧
    (∀ pre post,
      (object_session.run accepts ⟨obj0, []⟩ ops).calls
        = pre ++ toolkit_call.finalize_call :: post →
      toolkit_flag_after obj0.toolkit_flag pre = some true) ∧
    (∀ pre mid post,
      (object_session.run accepts ⟨obj0, []⟩ ops).calls
        = pre ++ toolkit_call.finalize_call :: (mid ++ toolkit_call.finalize_call :: post) →
      toolkit_call.initialize_call true ∈ mid) ∧
    (∀ pre mid id post,
      (object_session.run accepts ⟨obj0, []⟩ ops).calls
        = pre ++ toolkit_call.finalize_call :: (mid ++ toolkit_call.update_call id :: post) →
      toolkit_call.initialize_call true ∈ mid) := by
  have hinv := object_session_run_in_turn accepts obj0.toolkit_flag ops ⟨obj0, []⟩
    (by simp [toolkit_flag_after])
  have hset : ∀ (pre post : List toolkit_call) (e : toolkit_call),
      (∀ tail, toolkit_flag_after false (e :: tail) = none) →
      (object_session.run accepts ⟨obj0, []⟩ ops).calls = pre ++ e :: post →
      toolkit_flag_after obj0.toolkit_flag pre = some true := by
    intro pre post e he hc
    rw [hc, toolkit_flag_after_append] at hinv
    cases hp : toolkit_flag_after obj0.toolkit_flag pre with
    | none => simp [hp] at hinv
    | some f =>
      cases f with
      | true => rfl
      | false =>
        simp only [hp, Option.some_bind] at hinv
        rw [he post] at hinv
        cases hinv
  have hfin : ∀ tail, toolkit_flag_after false (toolkit_call.finalize_call :: tail) = none := by
    intro tail; simp [toolkit_flag_after]
  have hupd : ∀ id tail,
      toolkit_flag_after false (toolkit_call.update_call id :: tail) = none := by
    intro id tail; simp [toolkit_flag_after]
  refine ⟨hinv, ?_, ?_, ?_, ?_⟩
  · intro pre id post hc
    exact hset pre post _ (hupd id) hc
  · intro pre post hc
    exact hset pre post _ hfin hc
  · intro pre mid post hc
    rw [hc] at hinv
    exact toolkit_flag_after_finalize_then _ pre mid post _ _ hfin hinv
  · intro pre mid id post hc
    rw [hc] at hinv
    exact toolkit_flag_after_finalize_then _ pre mid post _ _ (hupd id) hinv

/-- C22 at a toolkit that accepts: a fresh object that is updated, initialized, updated,
finalized and updated again sends its toolkit one `initialize`, one `update` and one
`finalize`; the `update` comes after the accepted `initialize`. -/
theorem object_lifecycle_in_turn_witness :
    (object_session.run (fun _ => true) ⟨base_graphics_object.new, []⟩
      [lifecycle_op.update_object 1, lifecycle_op.initialize_object,
        lifecycle_op.update_object 2, lifecycle_op.finalize_object,
        lifecycle_op.update_object 3]).calls
      = [toolkit_call.initialize_call true] ++ toolkit_call.update_call 2 ::
        [toolkit_call.finalize_call] ∧
    toolkit_flag_after base_graphics_object.new.toolkit_flag
      [toolkit_call.initialize_call true] = some true :=
  ⟨by decide,
    (object_lifecycle_in_turn (fun _ => true) base_graphics_object.new
      [lifecycle_op.update_object 1, lifecycle_op.initialize_object,
        lifecycle_op.update_object 2, lifecycle_op.finalize_object,
        lifecycle_op.update_object 3]).2.1
      [toolkit_call.initialize_call true] 2 [toolkit_call.finalize_call] (by decide)⟩

/-! ## Ordered containers -/

/-- A strict weak ordering is asymmetric. -/
theorem strict_weak.asymm {κ : Type} {lt : κ → κ → Bool} (h : strict_weak lt) (a b : κ)
    (hab : lt a b = true) : lt b a = false := by
  cases hba : lt b a with
  | false => rfl
  | true =>
    have := h.trans a b a hab hba
    rw [h.irrefl a] at this
    cases this

/-- No character sequence is less than itself. -/
theorem chars_less_irrefl : ∀ a : List Char, chars_less a a = false := by
  intro a
  induction a with
  | nil => rfl
  | cons c rest ih => simp [chars_less, ih]

/-- Two character sequences neither of which is less than the other are the same. -/
theorem chars_less_total : ∀ a b : List Char,
    chars_less a b = false → chars_less b a = false → a = b := by
  intro a
  induction a with
  | nil =>
    intro b h1 _
    cases b with
    | nil => rfl
    | cons c rest => simp [chars_less] at h1
  | cons c rest ih =>
    intro b h1 h2
    cases b with
    | nil => simp [chars_less] at h2
    | cons d rest2 =>
      simp only [chars_less] at h1 h2
      by_cases hcd : c.toNat < d.toNat
      · simp [hcd] at h1
      · by_cases hdc : d.toNat < c.toNat
        · simp [hdc] at h2
        · simp only [hcd, hdc, if_false] at h1 h2
          have hc : c = d := by
            apply Char.ext
            apply UInt32.ext
            have : c.toNat = d.toNat := by omega
            exact this
          rw [hc, ih rest2 h1 h2]

/-- The comparison of character sequences is transitive. -/
theorem chars_less_trans : ∀ a b c : List Char,
    chars_less a b = true → chars_less b c = true → chars_less a c = true := by
  intro a
  induction a with
  | nil =>
    intro b c h1 h2
    cases c with
    | nil => cases b <;> simp [chars_less] at h2
    | cons _ _ => rfl
  | cons x xs ih =>
    intro b c h1 h2
    cases b with
    | nil => simp [chars_less] at h1
    | cons y ys =>
      cases c with
      | nil => simp [chars_less] at h2
      | cons z zs =>
        simp only [chars_less] at h1 h2 ⊢
        by_cases hxy : x.toNat < y.toNat
        · by_cases hyz : y.toNat < z.toNat
          · have : x.toNat < z.toNat := by omega
            simp [this]
          · by_cases hzy : z.toNat < y.toNat
            · simp [hyz, hzy] at h2
            · have : x.toNat < z.toNat := by omega
              simp [this]
        · by_cases hyx : y.toNat < x.toNat
          · simp [hxy, hyx] at h1
          · simp only [hxy, hyx, if_false] at h1
            by_cases hyz : y.toNat < z.toNat
            · have : x.toNat < z.toNat := by omega
              simp [this]
            · by_cases hzy : z.toNat < y.toNat
              · simp [hyz, hzy] at h2
              · simp only [hyz, hzy, if_false] at h2
                have h3 : ¬ x.toNat < z.toNat := by omega
                have h4 : ¬ z.toNat < x.toNat := by omega
                simp only [h3, h4, if_false]
                exact ih ys zs h1 h2

/-- The comparison of `std::string`s is a strict weak ordering. -/
theorem string_less_strict_weak : strict_weak string_less := by
  have htot : ∀ a b : String, string_less a b = false → string_less b a = false → a = b := by
    intro a b h1 h2
    have := chars_less_total a.data b.data h1 h2
    cases a; cases b; simp_all
  refine ⟨fun a => chars_less_irrefl a.data,
    fun a b c => chars_less_trans a.data b.data c.data, ?_, ?_⟩
  · intro a b c h1 h2
    rw [htot a b h1 h2]
  · intro a b c h1 h2
    rw [htot a b h1 h2]

/-- Two `std::string`s neither of which is less than the other are the same. -/
theorem string_less_total (a b : String) (h1 : string_less a b = false)
    (h2 : string_less b a = false) : a = b := by
  have := chars_less_total a.data b.data h1 h2
  cases a; cases b; simp_all

/-- After `m[key] = val`, looking up a key equivalent to `key` finds `val`, under a key
equivalent to `key`. -/
theorem std_map.find_assign_equiv {κ β : Type} {lt : κ → κ → Bool} (h : strict_weak lt)
    (key key2 : κ) (val : β) (h1 : lt key key2 = false) (h2 : lt key2 key = false) :
    ∀ m : List (κ × β), ∃ k0, std_map.find lt (std_map.assign lt m key val) key2
      = some (k0, val) ∧ lt k0 key = false ∧ lt key k0 = false := by
  intro m
  induction m with
  | nil => exact ⟨key, by simp [std_map.assign, std_map.find, h1, h2], h.irrefl key, h.irrefl key⟩
  | cons e rest ih =>
    obtain ⟨k, v⟩ := e
    cases hk : lt k key with
    | true =>
      have hk2 : lt k key2 = true := by rw [← h.equiv_right key key2 k h1 h2]; exact hk
      obtain ⟨k0, hf, hb⟩ := ih
      exact ⟨k0, by simp [std_map.assign, std_map.find, hk, hk2, hf], hb⟩
    | false =>
      cases hkk : lt key k with
      | true =>
        exact ⟨key, by simp [std_map.assign, std_map.find, hk, hkk, h1, h2],
          h.irrefl key, h.irrefl key⟩
      | false =>
        have hk2 : lt k key2 = false := by rw [← h.equiv_right key key2 k h1 h2]; exact hk
        have hk3 : lt key2 k = false := by rw [← h.equiv_left key key2 k h1 h2]; exact hkk
        exact ⟨k, by simp [std_map.assign, std_map.find, hk, hkk, hk2, hk3], hk, hkk⟩

/-- After `m[key] = val`, looking up a key not equivalent to `key` finds what it found
before. -/
theorem std_map.find_assign_other {κ β : Type} {lt : κ → κ → Bool} (h : strict_weak lt)
    (key key2 : κ) (val : β) (hne : lt key key2 = true ∨ lt key2 key = true) :
    ∀ m : List (κ × β), std_map.find lt (std_map.assign lt m key val) key2
      = std_map.find lt m key2 := by
  have hcase : lt key key2 = false → lt key2 key = true := by
    intro hf
    rcases hne with h1 | h1
    · rw [hf] at h1; cases h1
    · exact h1
  intro m
  induction m with
  | nil =>
    cases h1 : lt key key2 with
    | true => simp [std_map.assign, std_map.find, h1]
    | false => simp [std_map.assign, std_map.find, h1, hcase h1]
  | cons e rest ih =>
    obtain ⟨k, v⟩ := e
    cases hk : lt k key with
    | true =>
      cases hk2 : lt k key2 with
      | true => simp [std_map.assign, std_map.find, hk, hk2, ih]
      | false => simp [std_map.assign, std_map.find, hk, hk2]
    | false =>
      cases hkk : lt key k with
      | true =>
        cases h1 : lt key key2 with
        | true => simp [std_map.assign, std_map.find, hk, hkk, h1]
        | false =>
          have h2 := hcase h1
          have h3 : lt key2 k = true := h.trans key2 key k h2 hkk
          have h4 : lt k key2 = false := h.asymm key2 k h3
          simp [std_map.assign, std_map.find, hk, hkk, h1, h2, h3, h4]
      | false =>
        have e1 : lt k key2 = lt key key2 := h.equiv_left k key key2 hk hkk
        have e2 : lt key2 k = lt key2 key := h.equiv_right k key key2 hk hkk
        cases h1 : lt key key2 with
        | true => simp [std_map.assign, std_map.find, hk, hkk, e1, h1]
        | false =>
          simp [std_map.assign, std_map.find, hk, hkk, e1, e2, h1, hcase h1]

/-- In a sorted map whose keys are all beyond `key`, looking up `key` finds nothing. -/
theorem std_map.find_beyond {κ β : Type} {lt : κ → κ → Bool} (h : strict_weak lt)
    (key : κ) (m : List (κ × β)) (hall : ∀ p ∈ m, lt key p.1 = true) :
    std_map.find lt m key = none := by
  cases m with
  | nil => rfl
  | cons e rest =>
    obtain ⟨k, v⟩ := e
    have h1 : lt key k = true := hall (k, v) (List.mem_cons_self _ _)
    simp [std_map.find, h1, h.asymm key k h1]

/-- After `erase (key)` on a sorted map, looking up a key equivalent to `key` finds
nothing. -/
theorem std_map.find_erase_equiv {κ β : Type} {lt : κ → κ → Bool} (h : strict_weak lt)
    (key key2 : κ) (h1 : lt key key2 = false) (h2 : lt key2 key = false) :
    ∀ m : List (κ × β), std_map.sorted lt m →
      std_map.find lt (std_map.erase lt m key) key2 = none := by
  intro m
  induction m with
  | nil => intro _; rfl
  | cons e rest ih =>
    intro hs
    obtain ⟨k, v⟩ := e
    have hs2 := List.pairwise_cons.mp hs
    cases hk : lt k key with
    | true =>
      have hk2 : lt k key2 = true := by rw [← h.equiv_right key key2 k h1 h2]; exact hk
      simp [std_map.erase, std_map.find, hk, hk2, ih hs2.2]
    | false =>
      cases hkk : lt key k with
      | true =>
        have hk3 : lt key2 k = true := by rw [← h.equiv_left key key2 k h1 h2]; exact hkk
        simp [std_map.erase, std_map.find, hk, hkk, hk3, h.asymm key2 k hk3]
      | false =>
        simp only [std_map.erase, hk, hkk]
        apply std_map.find_beyond h
        intro p hp
        have hkp : lt k p.1 = true := hs2.1 p hp
        have e1 : lt key2 p.1 = lt key p.1 := (h.equiv_left key key2 p.1 h1 h2).symm
        have e2 : lt key p.1 = lt k p.1 := (h.equiv_left k key p.1 hk hkk).symm
        rw [e1, e2, hkp]

/-- After `erase (key)` on a sorted map, looking up a key not equivalent to `key` finds
what it found before. -/
theorem std_map.find_erase_other {κ β : Type} {lt : κ → κ → Bool} (h : strict_weak lt)
    (key key2 : κ) (hne : lt key key2 = true ∨ lt key2 key = true) :
    ∀ m : List (κ × β), std_map.sorted lt m →
      std_map.find lt (std_map.erase lt m key) key2 = std_map.find lt m key2 := by
  have hcase : lt key key2 = false → lt key2 key = true := by
    intro hf
    rcases hne with h1 | h1
    · rw [hf] at h1; cases h1
    · exact h1
  intro m
  induction m with
  | nil => intro _; rfl
  | cons e rest ih =>
    intro hs
    obtain ⟨k, v⟩ := e
    have hs2 := List.pairwise_cons.mp hs
    cases hk : lt k key with
    | true =>
      cases hk2 : lt k key2 with
      | true => simp [std_map.erase, std_map.find, hk, hk2, ih hs2.2]
      | false => simp [std_map.erase, std_map.find, hk, hk2]
    | false =>
      cases hkk : lt key k with
      | true => simp [std_map.erase, hk, hkk]
      | false =>
        have e1 : lt k key2 = lt key key2 := h.equiv_left k key key2 hk hkk
        have e2 : lt key2 k = lt key2 key := h.equiv_right k key key2 hk hkk
        simp only [std_map.erase, hk, hkk]
        cases h3 : lt key key2 with
        | true => simp [std_map.find, e1, h3]
        | false =>
          have h4 := hcase h3
          simp only [std_map.find, e1, e2, h3, h4, if_true]
          simp only [Bool.false_eq_true, if_false]
          apply std_map.find_beyond h
          intro p hp
          have hkp : lt k p.1 = true := hs2.1 p hp
          have h5 : lt key2 k = true := by rw [e2]; exact h4
          exact h.trans key2 k p.1 h5 hkp

/-- The keys after `m[key] = val` are the keys before with `key` inserted as into a set. -/
theorem std_map.assign_keys {κ β : Type} (lt : κ → κ → Bool) (key : κ) (val : β) :
    ∀ m : List (κ × β), (std_map.assign lt m key val).map (fun p => p.1)
      = std_set.insert lt (m.map (fun p => p.1)) key := by
  intro m
  induction m with
  | nil => rfl
  | cons e rest ih =>
    obtain ⟨k, v⟩ := e
    cases hk : lt k key <;> cases hkk : lt key k <;>
      simp [std_map.assign, std_set.insert, hk, hkk, ih]

/-- The keys after `erase (key)` are the keys before with `key` erased as from a set. -/
theorem std_map.erase_keys {κ β : Type} (lt : κ → κ → Bool) (key : κ) :
    ∀ m : List (κ × β), (std_map.erase lt m key).map (fun p => p.1)
      = std_set.erase lt (m.map (fun p => p.1)) key := by
  intro m
  induction m with
  | nil => rfl
  | cons e rest ih =>
    obtain ⟨k, v⟩ := e
    cases hk : lt k key <;> cases hkk : lt key k <;>
      simp [std_map.erase, std_set.erase, hk, hkk, ih]

/-- A map is sorted when the list of its keys is. -/
theorem std_map.sorted_iff_keys {κ β : Type} (lt : κ → κ → Bool) (m : List (κ × β)) :
    std_map.sorted lt m ↔ List.Pairwise (fun a b => lt a b = true) (m.map (fun p => p.1)) := by
  simp [std_map.sorted, List.pairwise_map]

/-- Every element of a set after `insert (key)` is `key` or was there before. -/
theorem std_set.mem_insert_imp {κ : Type} (lt : κ → κ → Bool) (key n : κ) :
    ∀ l : List κ, n ∈ std_set.insert lt l key → n = key ∨ n ∈ l := by
  intro l
  induction l with
  | nil => intro h; simpa [std_set.insert] using h
  | cons k rest ih =>
    intro h
    cases hk : lt k key with
    | true =>
      simp only [std_set.insert, hk, if_true, List.mem_cons] at h
      rcases h with h | h
      · exact Or.inr (by simp [h])
      · rcases ih h with h | h
        · exact Or.inl h
        · exact Or.inr (List.mem_cons_of_mem _ h)
    | false =>
      cases hkk : lt key k with
      | true =>
        simp only [std_set.insert, hk, hkk, if_true, List.mem_cons] at h
        simp only [Bool.false_eq_true, if_false, List.mem_cons] at h
        rcases h with h | h | h
        · exact Or.inl h
        · exact Or.inr (by simp [h])
        · exact Or.inr (List.mem_cons_of_mem _ h)
      | false =>
        simp only [std_set.insert, hk, hkk, Bool.false_eq_true, if_false] at h
        exact Or.inr h

/-- Inserting into a sorted set keeps it sorted. -/
theorem std_set.insert_sorted {κ : Type} {lt : κ → κ → Bool} (h : strict_weak lt) (key : κ) :
    ∀ l : List κ, List.Pairwise (fun a b => lt a b = true) l →
      List.Pairwise (fun a b => lt a b = true) (std_set.insert lt l key) := by
  intro l
  induction l with
  | nil => intro _; simp [std_set.insert]
  | cons k rest ih =>
    intro hs
    have hs2 := List.pairwise_cons.mp hs
    cases hk : lt k key with
    | true =>
      simp only [std_set.insert, hk, if_true]
      refine List.pairwise_cons.mpr ⟨?_, ih hs2.2⟩
      intro n hn
      rcases std_set.mem_insert_imp lt key n rest hn with h1 | h1
      · rw [h1]; exact hk
      · exact hs2.1 n h1
    | false =>
      cases hkk : lt key k with
      | true =>
        simp only [std_set.insert, hk, hkk, if_true, Bool.false_eq_true, if_false]
        refine List.pairwise_cons.mpr ⟨?_, hs⟩
        intro n hn
        rcases List.mem_cons.mp hn with h1 | h1
        · rw [h1]; exact hkk
        · exact h.trans key k n hkk (hs2.1 n h1)
      | false =>
        simp only [std_set.insert, hk, hkk, Bool.false_eq_true, if_false]
        exact hs

/-- What `erase` leaves of a set is a sublist of it. -/
theorem std_set.erase_sublist {κ : Type} (lt : κ → κ → Bool) (key : κ) :
    ∀ l : List κ, List.Sublist (std_set.erase lt l key) l := by
  intro l
  induction l with
  | nil => exact List.Sublist.refl _
  | cons k rest ih =>
    cases hk : lt k key with
    | true =>
      simp only [std_set.erase, hk, if_true]
      exact List.Sublist.cons₂ k ih
    | false =>
      cases hkk : lt key k with
      | true =>
        simp only [std_set.erase, hk, hkk, if_true, Bool.false_eq_true, if_false]
        exact List.Sublist.refl _
      | false =>
        simp only [std_set.erase, hk, hkk, Bool.false_eq_true, if_false]
        exact List.sublist_cons_self k rest

/-- The assignment `m[key] = val` keeps a map sorted. -/
theorem std_map.assign_sorted {κ β : Type} {lt : κ → κ → Bool} (h : strict_weak lt)
    (key : κ) (val : β) (m : List (κ × β)) (hs : std_map.sorted lt m) :
    std_map.sorted lt (std_map.assign lt m key val) := by
  rw [std_map.sorted_iff_keys, std_map.assign_keys]
  exact std_set.insert_sorted h key _ ((std_map.sorted_iff_keys lt m).mp hs)

/-- The member `erase (key)` keeps a map sorted. -/
theorem std_map.erase_sorted {κ β : Type} (lt : κ → κ → Bool)
    (key : κ) (m : List (κ × β)) (hs : std_map.sorted lt m) :
    std_map.sorted lt (std_map.erase lt m key) := by
  rw [std_map.sorted_iff_keys, std_map.erase_keys]
  exact List.Pairwise.sublist (std_set.erase_sublist lt key _)
    ((std_map.sorted_iff_keys lt m).mp hs)

/-- The keys of a sorted map are pairwise different. -/
theorem std_map.sorted_nodup {κ β : Type} {lt : κ → κ → Bool} (h : strict_weak lt)
    (m : List (κ × β)) (hs : std_map.sorted lt m) : (m.map (fun p => p.1)).Nodup := by
  have hk := (std_map.sorted_iff_keys lt m).mp hs
  refine List.Pairwise.imp ?_ hk
  intro a b hab heq
  rw [heq, h.irrefl b] at hab
  cases hab

/-- Under a total comparison, `key` is in the set after `insert (key)`, with what was
there before. -/
theorem std_set.mem_insert_total {κ : Type} {lt : κ → κ → Bool}
    (htot : ∀ a b, lt a b = false → lt b a = false → a = b) (key n : κ) :
    ∀ l : List κ, n ∈ std_set.insert lt l key ↔ n = key ∨ n ∈ l := by
  intro l
  refine ⟨std_set.mem_insert_imp lt key n l, ?_⟩
  induction l with
  | nil => intro h; simpa [std_set.insert] using h
  | cons k rest ih =>
    intro hn
    cases hk : lt k key with
    | true =>
      simp only [std_set.insert, hk, if_true, List.mem_cons]
      rcases hn with h1 | h1
      · exact Or.inr (ih (Or.inl h1))
      · rcases List.mem_cons.mp h1 with h2 | h2
        · exact Or.inl h2
        · exact Or.inr (ih (Or.inr h2))
    | false =>
      cases hkk : lt key k with
      | true =>
        simp only [std_set.insert, hk, hkk, if_true, Bool.false_eq_true, if_false,
          List.mem_cons]
        rcases hn with h1 | h1
        · exact Or.inl h1
        · exact Or.inr (List.mem_cons.mp h1)
      | false =>
        simp only [std_set.insert, hk, hkk, Bool.false_eq_true, if_false]
        rcases hn with h1 | h1
        · rw [h1, ← htot k key hk hkk]; exact List.mem_cons_self _ _
        · exact h1

/-- Under a total comparison, a sorted set after `erase (key)` holds what was there
before, `key` apart. -/
theorem std_set.mem_erase_total {κ : Type} {lt : κ → κ → Bool} (h : strict_weak lt)
    (htot : ∀ a b, lt a b = false → lt b a = false → a = b) (key n : κ) :
    ∀ l : List κ, List.Pairwise (fun a b => lt a b = true) l →
      (n ∈ std_set.erase lt l key ↔ n ∈ l ∧ n ≠ key) := by
  intro l
  induction l with
  | nil => intro _; simp [std_set.erase]
  | cons k rest ih =>
    intro hs
    have hs2 := List.pairwise_cons.mp hs
    cases hk : lt k key with
    | true =>
      have hne : k ≠ key := by
        intro he; rw [he, h.irrefl key] at hk; cases hk
      simp only [std_set.erase, hk, if_true, List.mem_cons, ih hs2.2]
      constructor
      · rintro (h1 | h1)
        · exact ⟨Or.inl h1, by rw [h1]; exact hne⟩
        · exact ⟨Or.inr h1.1, h1.2⟩
      · rintro ⟨h1 | h1, h2⟩
        · exact Or.inl h1
        · exact Or.inr ⟨h1, h2⟩
    | false =>
      cases hkk : lt key k with
      | true =>
        simp only [std_set.erase, hk, hkk, if_true, Bool.false_eq_true, if_false]
        constructor
        · intro h1
          refine ⟨h1, ?_⟩
          intro he
          rcases List.mem_cons.mp h1 with h2 | h2
          · rw [he] at h2; rw [h2, h.irrefl k] at hkk; cases hkk
          · have h3 := h.trans key k n hkk (hs2.1 n h2)
            rw [he, h.irrefl key] at h3; cases h3
        · intro h1; exact h1.1
      | false =>
        have hkeq : k = key := htot k key hk hkk
        simp only [std_set.erase, hk, hkk, Bool.false_eq_true, if_false]
        constructor
        · intro h1
          refine ⟨List.mem_cons_of_mem _ h1, ?_⟩
          intro he
          have h3 := hs2.1 n h1
          rw [he, ← hkeq, h.irrefl k] at h3; cases h3
        · rintro ⟨h1, h2⟩
          rcases List.mem_cons.mp h1 with h3 | h3
          · exact absurd (h3.trans hkeq) h2
          · exact h3

/-! ## The toolkit manager -/

/-- What `find` returns is an entry of the map, under a key equivalent to the one asked
for. -/
theorem std_map.find_some_mem {κ β : Type} (lt : κ → κ → Bool) (key : κ) (p : κ × β) :
    ∀ m : List (κ × β), std_map.find lt m key = some p →
      p ∈ m ∧ lt p.1 key = false ∧ lt key p.1 = false := by
  intro m
  induction m with
  | nil => intro h; simp [std_map.find] at h
  | cons e rest ih =>
    obtain ⟨k, v⟩ := e
    intro h
    cases hk : lt k key with
    | true =>
      simp only [std_map.find, hk, if_true] at h
      have := ih h
      exact ⟨List.mem_cons_of_mem _ this.1, this.2⟩
    | false =>
      cases hkk : lt key k with
      | true => simp [std_map.find, hk, hkk] at h
      | false =>
        simp only [std_map.find, hk, hkk, Bool.false_eq_true, if_false,
          Option.some.injEq] at h
        rw [← h]
        exact ⟨List.mem_cons_self _ _, hk, hkk⟩

/-- In a sorted map, `find` of the key of an entry returns that entry. -/
theorem std_map.find_of_mem {κ β : Type} {lt : κ → κ → Bool}
    (p : κ × β) (hirr : lt p.1 p.1 = false) : ∀ m : List (κ × β), std_map.sorted lt m →
      p ∈ m → std_map.find lt m p.1 = some p := by
  intro m
  induction m with
  | nil => intro _ hp; cases hp
  | cons e rest ih =>
    intro hs hp
    have hs2 := List.pairwise_cons.mp hs
    rcases List.mem_cons.mp hp with h1 | h1
    · rw [← h1]
      simp [std_map.find, hirr]
    · have h2 : lt e.1 p.1 = true := hs2.1 p h1
      obtain ⟨k, v⟩ := e
      simp only [std_map.find, h2, if_true]
      exact ih hs2.2 h1

/-- Under a total comparison, an entry of the map after `m[key] = val` is the new one or
was there before. -/
theorem std_map.mem_assign_imp {κ β : Type} {lt : κ → κ → Bool}
    (htot : ∀ a b, lt a b = false → lt b a = false → a = b) (key : κ) (val : β)
    (p : κ × β) : ∀ m : List (κ × β), p ∈ std_map.assign lt m key val →
      p = (key, val) ∨ p ∈ m := by
  intro m
  induction m with
  | nil => intro h; simpa [std_map.assign] using h
  | cons e rest ih =>
    obtain ⟨k, v⟩ := e
    intro hp
    cases hk : lt k key with
    | true =>
      simp only [std_map.assign, hk, if_true] at hp
      rcases List.mem_cons.mp hp with h1 | h1
      · exact Or.inr (by rw [h1]; exact List.mem_cons_self _ _)
      · rcases ih h1 with h2 | h2
        · exact Or.inl h2
        · exact Or.inr (List.mem_cons_of_mem _ h2)
    | false =>
      cases hkk : lt key k with
      | true =>
        simp only [std_map.assign, hk, hkk, if_true, Bool.false_eq_true, if_false] at hp
        rcases List.mem_cons.mp hp with h1 | h1
        · exact Or.inl h1
        · exact Or.inr h1
      | false =>
        simp only [std_map.assign, hk, hkk, Bool.false_eq_true, if_false] at hp
        rcases List.mem_cons.mp hp with h1 | h1
        · rw [htot k key hk hkk] at h1
          exact Or.inl h1
        · exact Or.inr (List.mem_cons_of_mem _ h1)

/-- What `erase` leaves of a map is a sublist of it. -/
theorem std_map.erase_is_sublist {κ β : Type} (lt : κ → κ → Bool) (key : κ) :
    ∀ m : List (κ × β), List.Sublist (std_map.erase lt m key) m := by
  intro m
  induction m with
  | nil => exact List.Sublist.refl _
  | cons e rest ih =>
    obtain ⟨k, v⟩ := e
    cases hk : lt k key with
    | true =>
      simp only [std_map.erase, hk, if_true]
      exact List.Sublist.cons₂ _ ih
    | false =>
      cases hkk : lt key k with
      | true =>
        simp only [std_map.erase, hk, hkk, if_true, Bool.false_eq_true, if_false]
        exact List.Sublist.refl _
      | false =>
        simp only [std_map.erase, hk, hkk, Bool.false_eq_true, if_false]
        exact List.sublist_cons_self _ rest

/-- One call keeps the loaded map of a manager in order and filed by name. -/
theorem gtk_manager.step_wf (m : gtk_manager) (op : gtk_op) (h : m.wf) : (m.step op).wf := by
  cases op with
  | register_toolkit name => exact h
  | unregister_toolkit name => exact h
  | load_toolkit tk =>
    refine ⟨std_map.assign_sorted string_less_strict_weak _ _ _ h.1, ?_⟩
    intro p hp
    rcases std_map.mem_assign_imp string_less_total _ _ p _ hp with h1 | h1
    · rw [h1]
    · exact h.2 p h1
  | unload_toolkit name =>
    refine ⟨std_map.erase_sorted string_less _ _ h.1, ?_⟩
    intro p hp
    exact h.2 p ((std_map.erase_is_sublist string_less name _).subset hp)

/-- Every manager reached from a new one has its loaded map in order and filed by name. -/
theorem gtk_manager.run_wf (ops : List gtk_op) : (gtk_manager.new.run ops).wf := by
  have hgen : ∀ (ops : List gtk_op) (m : gtk_manager), m.wf → (m.run ops).wf := by
    intro ops
    induction ops with
    | nil => intro m h; exact h
    | cons op rest ih => intro m h; exact ih (m.step op) (gtk_manager.step_wf m op h)
  exact hgen ops _ ⟨List.Pairwise.nil, fun p hp => by cases hp⟩

/-- C23: `do_register_toolkit` and `do_unregister_toolkit` leave the loaded map and the
default name as they are, `do_load_toolkit` and `do_unload_toolkit` leave the available
set and the default name as they are; a name registered with a new manager is available
and not loaded, and a toolkit loaded into a new manager is loaded and not available. -/
theorem gtk_manager_sets_independent (m : gtk_manager) (name : String)
    (tk : graphics_toolkit) :
    ((m.do_register_toolkit name).loaded_toolkits = m.loaded_toolkits ∧
      (m.do_register_toolkit name).dtk = m.dtk) ∧
    ((m.do_unregister_toolkit name).loaded_toolkits = m.loaded_toolkits ∧
      (m.do_unregister_toolkit name).dtk = m.dtk) ∧
    ((m.do_load_toolkit tk).available_toolkits = m.available_toolkits ∧
      (m.do_load_toolkit tk).dtk = m.dtk) ∧
    ((m.do_unload_toolkit name).available_toolkits = m.available_toolkits ∧
      (m.do_unload_toolkit name).dtk = m.dtk) ∧
    (name ∈ (gtk_manager.new.do_register_toolkit name).do_available_toolkits_list ∧
      name ∉ (gtk_manager.new.do_register_toolkit name).do_loaded_toolkits_list) ∧
    (tk.get_name ∈ (gtk_manager.new.do_load_toolkit tk).do_loaded_toolkits_list ∧
      tk.get_name ∉ (gtk_manager.new.do_load_toolkit tk).do_available_toolkits_list) := by
  refine ⟨⟨rfl, rfl⟩, ⟨rfl, rfl⟩, ⟨rfl, rfl⟩, ⟨rfl, rfl⟩, ?_, ?_⟩
  · simp [gtk_manager.new, gtk_manager.do_register_toolkit,
      gtk_manager.do_available_toolkits_list, gtk_manager.do_loaded_toolkits_list,
      std_set.insert]
  · simp [gtk_manager.new, gtk_manager.do_load_toolkit,
      gtk_manager.do_available_toolkits_list, gtk_manager.do_loaded_toolkits_list,
      std_map.assign]

/-- C24: on every manager reached from a new one, `do_find_toolkit (tk.get_name ())`
after `do_load_toolkit (tk)` returns `tk`, whatever was loaded under that name, and the
list of loaded names then holds that name with the names listed before; `do_find_toolkit`
of a name that is not listed, and of a name just unloaded, returns the default
`graphics_toolkit ()`, which is not valid; after `do_unload_toolkit (n)` the names listed
are those listed before, `n` apart; the list has no name twice, and a name is listed
exactly when the map holds a toolkit of that name under it. -/
theorem gtk_manager_find_after_load (ops : List gtk_op) (tk : graphics_toolkit) (n : String) :
    ((gtk_manager.new.run ops).do_load_toolkit tk).do_find_toolkit tk.get_name = tk ∧
    (∀ x, x ∈ ((gtk_manager.new.run ops).do_load_toolkit tk).do_loaded_toolkits_list ↔
      x = tk.get_name ∨ x ∈ (gtk_manager.new.run ops).do_loaded_toolkits_list) ∧
    (n ∉ (gtk_manager.new.run ops).do_loaded_toolkits_list →
      (gtk_manager.new.run ops).do_find_toolkit n = graphics_toolkit.new) ∧
    ((gtk_manager.new.run ops).do_unload_toolkit n).do_find_toolkit n = graphics_toolkit.new ∧
    graphics_toolkit.new.to_bool = false ∧
    (∀ x, x ∈ ((gtk_manager.new.run ops).do_unload_toolkit n).do_loaded_toolkits_list ↔
      x ∈ (gtk_manager.new.run ops).do_loaded_toolkits_list ∧ x ≠ n) ∧
    (gtk_manager.new.run ops).do_loaded_toolkits_list.Nodup ∧
    (n ∈ (gtk_manager.new.run ops).do_loaded_toolkits_list ↔
      ∃ t, std_map.find string_less (gtk_manager.new.run ops).loaded_toolkits n = some (n, t)
        ∧ t.get_name = n ∧ (gtk_manager.new.run ops).do_find_toolkit n = t) := by
  have hwf := gtk_manager.run_wf ops
  generalize gtk_manager.new.run ops = m at hwf
  have hsw := string_less_strict_weak
  have hmem : n ∈ m.do_loaded_toolkits_list ↔
      ∃ t, std_map.find string_less m.loaded_toolkits n = some (n, t)
        ∧ t.get_name = n ∧ m.do_find_toolkit n = t := by
    constructor
    · intro hn
      obtain ⟨p, hp, hpn⟩ := List.mem_map.mp hn
      have hf := std_map.find_of_mem p (hsw.irrefl p.1) _ hwf.1 hp
      have hname := hwf.2 p hp
      obtain ⟨k, t⟩ := p
      simp only at hpn hname hf
      subst hpn
      exact ⟨t, hf, hname.symm, by simp [gtk_manager.do_find_toolkit, hf]⟩
    · rintro ⟨t, hf, _⟩
      have := (std_map.find_some_mem string_less n (n, t) _ hf).1
      exact List.mem_map.mpr ⟨(n, t), this, rfl⟩
  refine ⟨?_, ?_, ?_, ?_, rfl, ?_, ?_, hmem⟩
  · obtain ⟨k0, hf, _⟩ := std_map.find_assign_equiv hsw tk.get_name tk.get_name tk
      (hsw.irrefl _) (hsw.irrefl _) m.loaded_toolkits
    simp [gtk_manager.do_find_toolkit, gtk_manager.do_load_toolkit, hf]
  · intro x
    simp only [gtk_manager.do_loaded_toolkits_list, gtk_manager.do_load_toolkit,
      std_map.assign_keys]
    exact std_set.mem_insert_total string_less_total _ x _
  · intro hn
    cases hf : std_map.find string_less m.loaded_toolkits n with
    | none => simp [gtk_manager.do_find_toolkit, hf]
    | some p =>
      have h1 := std_map.find_some_mem string_less n p _ hf
      have h2 : p.1 = n := string_less_total _ _ h1.2.1 h1.2.2
      exact absurd (List.mem_map.mpr ⟨p, h1.1, h2⟩) hn
  · have hf := std_map.find_erase_equiv hsw n n (hsw.irrefl n) (hsw.irrefl n)
      m.loaded_toolkits hwf.1
    simp [gtk_manager.do_find_toolkit, gtk_manager.do_unload_toolkit, hf]
  · intro x
    simp only [gtk_manager.do_loaded_toolkits_list, gtk_manager.do_unload_toolkit,
      std_map.erase_keys]
    exact std_set.mem_erase_total hsw string_less_total n x _
      ((std_map.sorted_iff_keys _ _).mp hwf.1)
  · exact std_map.sorted_nodup hsw _ hwf.1

/-- C24 at a manager with fltk and gnuplot loaded and fltk loaded again as another toolkit,
a name that is not listed finds the default toolkit. -/
theorem gtk_manager_find_after_load_witness :
    (gtk_manager.new.run [gtk_op.load_toolkit ⟨⟨"fltk", 1, true⟩⟩,
        gtk_op.load_toolkit ⟨⟨"gnuplot", 1, true⟩⟩,
        gtk_op.load_toolkit ⟨⟨"fltk", 2, true⟩⟩]).do_loaded_toolkits_list
      = ["fltk", "gnuplot"] ∧
    (gtk_manager.new.run [gtk_op.load_toolkit ⟨⟨"fltk", 1, true⟩⟩,
        gtk_op.load_toolkit ⟨⟨"gnuplot", 1, true⟩⟩,
        gtk_op.load_toolkit ⟨⟨"fltk", 2, true⟩⟩]).do_find_toolkit "qt"
      = graphics_toolkit.new :=
  ⟨by decide,
    (gtk_manager_find_after_load [gtk_op.load_toolkit ⟨⟨"fltk", 1, true⟩⟩,
        gtk_op.load_toolkit ⟨⟨"gnuplot", 1, true⟩⟩,
        gtk_op.load_toolkit ⟨⟨"fltk", 2, true⟩⟩] graphics_toolkit.new "qt").2.2.1
      (by decide)⟩

/-- With a `close ()` that at most unloads the toolkit closed, `do_unload_all_toolkits`
on a manager whose loaded map is in order and filed by name ends within as many rounds as
toolkits are loaded, having closed each of them once. -/
theorem gtk_manager.unload_all_spec (close : graphics_toolkit → gtk_manager → gtk_manager)
    (hclose : ∀ tk m, close tk m = m ∨ close tk m = m.do_unload_toolkit tk.get_name) :
    ∀ (fuel : Nat) (m : gtk_manager) (closed : List graphics_toolkit), m.wf →
      m.loaded_toolkits.length ≤ fuel →
      gtk_manager.do_unload_all_toolkits close fuel m closed =
        some (⟨m.dtk, m.available_toolkits, []⟩,
          closed ++ m.loaded_toolkits.map (fun p => p.2)) := by
  have hsw := string_less_strict_weak
  intro fuel
  induction fuel with
  | zero =>
    intro m closed _ hlen
    obtain ⟨dtk, av, L⟩ := m
    cases L with
    | nil => simp [gtk_manager.do_unload_all_toolkits]
    | cons e rest => simp at hlen
  | succ fuel ih =>
    intro m closed hwf hlen
    obtain ⟨dtk, av, L⟩ := m
    cases L with
    | nil => simp [gtk_manager.do_unload_all_toolkits]
    | cons e rest =>
      obtain ⟨name, tk⟩ := e
      have hname : name = tk.get_name := hwf.2 (name, tk) (List.mem_cons_self _ _)
      have hs2 := List.pairwise_cons.mp hwf.1
      have hrest : std_map.find string_less rest name = none :=
        std_map.find_beyond hsw name rest (fun p hp => hs2.1 p hp)
      have hwf2 : gtk_manager.wf ⟨dtk, av, rest⟩ :=
        ⟨hs2.2, fun p hp => hwf.2 p (List.mem_cons_of_mem _ hp)⟩
      have herase : std_map.erase string_less ((name, tk) :: rest) name = rest := by
        simp [std_map.erase, hsw.irrefl name]
      have hfind : std_map.find string_less ((name, tk) :: rest) name = some (name, tk) := by
        simp [std_map.find, hsw.irrefl name]
      have hm2 : (if (std_map.find string_less
            (close tk ⟨dtk, av, (name, tk) :: rest⟩).loaded_toolkits name).isSome
          then (close tk ⟨dtk, av, (name, tk) :: rest⟩).do_unload_toolkit name
          else close tk ⟨dtk, av, (name, tk) :: rest⟩) = ⟨dtk, av, rest⟩ := by
        rcases hclose tk ⟨dtk, av, (name, tk) :: rest⟩ with h1 | h1
        · rw [h1]
          simp [hfind, gtk_manager.do_unload_toolkit, herase]
        · rw [h1, ← hname]
          simp [gtk_manager.do_unload_toolkit, herase, hrest]
      simp only [gtk_manager.do_unload_all_toolkits, hm2]
      rw [ih ⟨dtk, av, rest⟩ (closed ++ [tk]) hwf2 (by simpa using hlen)]
      simp

/-- C25: with a `close ()` that leaves the manager as it is or unloads the toolkit closed,
on every manager reached from a new one `do_unload_all_toolkits` ends within as many
rounds as toolkits are loaded; it has then closed every toolkit that was loaded, once
each in the order of the map, the loaded map is empty, and the available set and the
default name are as before. -/
theorem gtk_manager_unload_all (close : graphics_toolkit → gtk_manager → gtk_manager)
    (ops : List gtk_op) (fuel : Nat)
    (hclose : ∀ tk m, close tk m = m ∨ close tk m = m.do_unload_toolkit tk.get_name)
    (hfuel : (gtk_manager.new.run ops).loaded_toolkits.length ≤ fuel) :
    gtk_manager.do_unload_all_toolkits close fuel (gtk_manager.new.run ops) [] =
      some (⟨(gtk_manager.new.run ops).dtk, (gtk_manager.new.run ops).available_toolkits, []⟩,
        (gtk_manager.new.run ops).loaded_toolkits.map (fun p => p.2)) := by
  have := gtk_manager.unload_all_spec close hclose fuel (gtk_manager.new.run ops) []
    (gtk_manager.run_wf ops) hfuel
  simpa using this

/-- C25 at a manager with fltk and gnuplot loaded and qt registered, where closing fltk
unloads it and closing gnuplot does not, two rounds close both and leave qt available. -/
theorem gtk_manager_unload_all_witness :
    gtk_manager.do_unload_all_toolkits
      (fun tk m => if tk.get_name = "fltk" then m.do_unload_toolkit tk.get_name else m) 2
      (gtk_manager.new.run [gtk_op.load_toolkit ⟨⟨"gnuplot", 1, true⟩⟩,
        gtk_op.register_toolkit "qt", gtk_op.load_toolkit ⟨⟨"fltk", 1, true⟩⟩]) [] =
      some (⟨"gnuplot", ["qt"], []⟩, [⟨⟨"fltk", 1, true⟩⟩, ⟨⟨"gnuplot", 1, true⟩⟩]) :=
  gtk_manager_unload_all
    (fun tk m => if tk.get_name = "fltk" then m.do_unload_toolkit tk.get_name else m)
    [gtk_op.load_toolkit ⟨⟨"gnuplot", 1, true⟩⟩, gtk_op.register_toolkit "qt",
      gtk_op.load_toolkit ⟨⟨"fltk", 1, true⟩⟩] 2
    (fun tk m => by by_cases h : tk.get_name = "fltk" <;> simp [h])
    (by decide)

/-! ## The handle manager -/

/-- Two handles that are numbers, neither less than the other, are the same. -/
theorem graphics_handle.eq_of_not_lt (a b : graphics_handle) (ha : a.ok = true)
    (hb : b.ok = true) (h1 : graphics_handle.lt a b = false)
    (h2 : graphics_handle.lt b a = false) : a = b := by
  obtain ⟨x⟩ := a
  obtain ⟨y⟩ := b
  cases x with
  | none => simp [graphics_handle.ok] at ha
  | some x =>
    cases y with
    | none => simp [graphics_handle.ok] at hb
    | some y =>
      simp only [graphics_handle.lt, graphics_handle.value, decide_eq_false_iff_not,
        not_lt] at h1 h2
      rw [le_antisymm h2 h1]

/-- No handle is less than itself. -/
theorem graphics_handle.lt_irrefl (a : graphics_handle) : graphics_handle.lt a a = false := by
  obtain ⟨x⟩ := a
  cases x <;> simp [graphics_handle.lt, graphics_handle.value]

/-- In a handle map in order and without a handle that is not a number, `find` of a handle
that is a number returns the entry with that handle, and nothing when there is none. -/
theorem gh_manager.find_spec (g : gh_manager) (hwf : g.wf) (h : graphics_handle)
    (hok : h.ok = true) :
    (∀ go, (h, go) ∈ g.handle_map →
      std_map.find graphics_handle.lt g.handle_map h = some (h, go)) ∧
    ((¬ ∃ go, (h, go) ∈ g.handle_map) →
      std_map.find graphics_handle.lt g.handle_map h = none) := by
  constructor
  · intro go hmem
    exact std_map.find_of_mem (h, go) (graphics_handle.lt_irrefl h) _ hwf.1 hmem
  · intro hno
    cases hf : std_map.find graphics_handle.lt g.handle_map h with
    | none => rfl
    | some e =>
      have h1 := std_map.find_some_mem graphics_handle.lt h e _ hf
      have h2 : e.1 = h :=
        graphics_handle.eq_of_not_lt e.1 h (hwf.2 e h1.1) hok h1.2.1 h1.2.2
      obtain ⟨k, go⟩ := e
      simp only at h2
      subst h2
      exact absurd ⟨go, h1.1⟩ hno

/-- The loop of `do_current_figure` returns the last handle of the list that is visible,
and `retval` when none is. -/
theorem gh_manager.current_figure_loop_spec (g : gh_manager) :
    ∀ (l : List graphics_handle) (retval : graphics_handle),
      gh_manager.current_figure_loop g l retval =
        ((l.filter (fun h => g.is_handle_visible h)).getLast?).getD retval := by
  intro l
  induction l with
  | nil => intro retval; rfl
  | cons h rest ih =>
    intro retval
    simp only [gh_manager.current_figure_loop, ih]
    cases hv : g.is_handle_visible h with
    | false => simp [List.filter, hv]
    | true =>
      simp only [List.filter, hv, if_true]
      cases hr : List.filter (fun h => g.is_handle_visible h) rest with
      | nil => simp
      | cons a tail =>
        simp only [List.getLast?_cons_cons,
          List.getLast?_eq_getLast _ (List.cons_ne_nil a tail), Option.getD_some]

/-- The method `do_current_figure` returns the last handle of `figure_list`, in the order
of the list, that is visible, and the invalid handle when the list has no visible handle;
it leaves the manager as it is. -/
theorem gh_manager.do_current_figure_last_visible (g : gh_manager) :
    g.do_current_figure =
      (((g.figure_list.filter (fun h => g.is_handle_visible h)).getLast?).getD
        graphics_handle.new, g) := by
  simp [gh_manager.do_current_figure, gh_manager.current_figure_loop_spec]

/-- C27: on a handle map in order and without a handle that is not a number,
`do_lookup (v)` returns the handle `v` when `v` is a key of the map and the invalid handle
when it is not, also for the value that is not a number; `do_get_object (h)` returns the
object stored under `h` when `h` is a number and a key of the map, and otherwise the
default `graphics_object ()`, whose `valid_object ()` is false; the manager is the same
after each call. -/
theorem gh_manager_lookup_get_object (g : gh_manager) (hwf : g.wf) (v : ℚ)
    (h : graphics_handle) :
    ((∃ go, (⟨some v⟩, go) ∈ g.handle_map) → g.do_lookup (some v) = (⟨some v⟩, g)) ∧
    ((¬ ∃ go, (⟨some v⟩, go) ∈ g.handle_map) →
      g.do_lookup (some v) = (graphics_handle.new, g)) ∧
    g.do_lookup none = (graphics_handle.new, g) ∧
    graphics_handle.new.ok = false ∧
    (∀ go, h.ok = true → (h, go) ∈ g.handle_map → g.do_get_object h = (go, g)) ∧
    ((h.ok = false ∨ ¬ ∃ go, (h, go) ∈ g.handle_map) →
      g.do_get_object h = (graphics_object.new, g)) ∧
    graphics_object.new.valid_object = false := by
  refine ⟨?_, ?_, rfl, rfl, ?_, ?_, rfl⟩
  · rintro ⟨go, hmem⟩
    have := (gh_manager.find_spec g hwf ⟨some v⟩ rfl).1 go hmem
    simp [gh_manager.do_lookup, this]
  · intro hno
    have := (gh_manager.find_spec g hwf ⟨some v⟩ rfl).2 hno
    simp [gh_manager.do_lookup, this]
  · intro go hok hmem
    have := (gh_manager.find_spec g hwf h hok).1 go hmem
    simp [gh_manager.do_get_object, hok, this]
  · intro hcase
    cases hok : h.ok with
    | false => simp [gh_manager.do_get_object, hok]
    | true =>
      rcases hcase with h1 | h1
      · rw [hok] at h1; cases h1
      · have := (gh_manager.find_spec g hwf h hok).2 h1
        simp [gh_manager.do_get_object, hok, this]

/-- C27 at a map with the root under 0 and a figure under 1, looking up 1
returns the handle 1. -/
theorem gh_manager_lookup_get_object_witness :
    gh_manager.wf ⟨[(⟨some 0⟩, ⟨base_graphics_object.new, true, true⟩),
        (⟨some 1⟩, ⟨base_graphics_object.new, true, false⟩)], [], -1, [⟨some 1⟩], 0, []⟩ ∧
    gh_manager.do_lookup ⟨[(⟨some 0⟩, ⟨base_graphics_object.new, true, true⟩),
        (⟨some 1⟩, ⟨base_graphics_object.new, true, false⟩)], [], -1, [⟨some 1⟩], 0, []⟩ (some 1)
      = (⟨some 1⟩, ⟨[(⟨some 0⟩, ⟨base_graphics_object.new, true, true⟩),
        (⟨some 1⟩, ⟨base_graphics_object.new, true, false⟩)], [], -1, [⟨some 1⟩], 0, []⟩) :=
  ⟨⟨by simp [std_map.sorted, graphics_handle.lt, graphics_handle.value],
      by simp [graphics_handle.ok]⟩,
    (gh_manager_lookup_get_object
      ⟨[(⟨some 0⟩, ⟨base_graphics_object.new, true, true⟩),
        (⟨some 1⟩, ⟨base_graphics_object.new, true, false⟩)], [], -1, [⟨some 1⟩], 0, []⟩
      ⟨by simp [std_map.sorted, graphics_handle.lt, graphics_handle.value],
        by simp [graphics_handle.ok]⟩ 1 ⟨some 1⟩).1
      ⟨⟨base_graphics_object.new, true, false⟩, by simp⟩⟩

/-- C28: whenever `instance_ok ()` is false, because there is no manager and none can be
created, `get_handle`, `lookup`, `make_graphics_handle`, `make_figure_handle` and
`current_figure` return the invalid handle, `get_object` returns an object that is not
valid, `handle_list` and `figure_handle_list` return the empty matrix, `try_lock` returns
false, `process_events` and `flush_events` return 0, and `free`, `push_figure`,
`pop_figure`, `post_callback`, `post_function` and `post_set` return nothing; in every
case there is still no manager afterwards and the one error of `instance_ok` is all that
is added to the log. -/
theorem gh_manager_without_instance (ms : gh_members) (created inst : Option gh_manager)
    (log : Log) (c : gh_call) (hno : (gh_manager.instance_ok created inst log).1 = false) :
    gh_manager.invoke ms created inst log c =
      (c.without_manager, none, log.error "unable to create gh_manager!") ∧
    graphics_handle.new.ok = false ∧
    graphics_object.new.valid_object = false ∧
    Matrix.new.numel = 0 := by
  refine ⟨?_, rfl, rfl, rfl⟩
  cases inst with
  | some g => simp [gh_manager.instance_ok] at hno
  | none =>
    cases created with
    | some g => simp [gh_manager.instance_ok] at hno
    | none =>
      cases c <;> rfl

/-- C28 at `try_lock`: without a manager, `try_lock` returns false and logs the error. -/
theorem gh_manager_without_instance_witness :
    (gh_manager.instance_ok none none Log.empty).1 = false ∧
    gh_manager.invoke
      ⟨fun _ g l => (gh_result.void, g, l), fun _ g l => (gh_result.void, g, l),
        fun _ _ _ _ _ g l => (gh_result.void, g, l), fun _ _ g l => (gh_result.void, g, l),
        fun _ g l => (gh_result.void, g, l), fun _ g l => (gh_result.void, g, l),
        fun _ g l => (gh_result.void, g, l), fun _ g l => (gh_result.void, g, l),
        fun g l => (gh_result.flag true, g, l), fun _ _ _ g l => (gh_result.void, g, l),
        fun _ _ g l => (gh_result.void, g, l), fun _ _ _ _ g l => (gh_result.void, g, l),
        fun _ g l => (gh_result.count 1, g, l)⟩
      none none Log.empty gh_call.try_lock =
      (gh_result.flag false, none, ⟨["unable to create gh_manager!"], []⟩) :=
  ⟨rfl,
    (gh_manager_without_instance
      ⟨fun _ g l => (gh_result.void, g, l), fun _ g l => (gh_result.void, g, l),
        fun _ _ _ _ _ g l => (gh_result.void, g, l), fun _ _ g l => (gh_result.void, g, l),
        fun _ g l => (gh_result.void, g, l), fun _ g l => (gh_result.void, g, l),
        fun _ g l => (gh_result.void, g, l), fun _ g l => (gh_result.void, g, l),
        fun g l => (gh_result.flag true, g, l), fun _ _ _ g l => (gh_result.void, g, l),
        fun _ _ g l => (gh_result.void, g, l), fun _ _ _ _ g l => (gh_result.void, g, l),
        fun _ g l => (gh_result.count 1, g, l)⟩
      none none Log.empty gh_call.try_lock rfl).1⟩

/-! ## Default and factory properties -/

/-- The test `name.compare ("default", 7)` is the test that the name begins, ignoring
letter case, with that word. -/
theorem compare_default (name : String) :
    caseless_str.compare name "default" 7 = starts_caseless "default" name :=
  compare_eq_starts name "default"

/-- The test `name.compare ("factory", 7)` is the test that the name begins, ignoring
letter case, with that word. -/
theorem compare_factory (name : String) :
    caseless_str.compare name "factory" 7 = starts_caseless "factory" name :=
  compare_eq_starts name "factory"

/-- C29: for a root, figure, axes or toolbar object and a name that begins, ignoring
letter case, with "default", `set` hands the rest of the name and the value to `set` of
the default property list and leaves the property table as it is, and `get` is answered
by `get_default` of the rest of the name, whatever the property table holds: on the root
from the default list, then from the factory list, then with an error, on a figure, an
axes or a toolbar object from the default list of the object, and for a name that this
list does not hold from the inherited defaults; on the root a name that begins with
"factory" and not with "default" is answered from the factory list, or with an error;
with any other name `set` and `get` go to the property table and `set` leaves the
default list as it is. -/
theorem defaults_dispatch {PL XP : Type} (env : defaults_env PL XP)
    (get_default : defaults_object PL XP → String → Log → Option octave_value × Log)
    (inherited : String → Log → Option octave_value × Log)
    (r : root_figure PL XP) (o : defaults_object PL XP) (name : String)
    (value : octave_value) (log : Log) :
    (starts_caseless "default" name = true →
      (root_figure.set env r name value log =
          ({ r with default_properties :=
                (env.plist_set r.default_properties (substr_from name 7) value log).1 },
            (env.plist_set r.default_properties (substr_from name 7) value log).2) ∧
        (root_figure.set env r name value log).1.xproperties = r.xproperties ∧
        (root_figure.set env r name value log).1.factory_properties = r.factory_properties) ∧
      (figure.set env o name value log =
          ({ o with default_properties :=
                (env.plist_set o.default_properties (substr_from name 7) value log).1 },
            (env.plist_set o.default_properties (substr_from name 7) value log).2) ∧
        (figure.set env o name value log).1.xproperties = o.xproperties) ∧
      axes.set env o name value log = figure.set env o name value log ∧
      uitoolbar.set env o name value log = figure.set env o name value log ∧
      root_figure.get env r name log = root_figure.get_default env r (substr_from name 7) log ∧
      (∀ xp, root_figure.get env { r with xproperties := xp } name log
        = root_figure.get env r name log) ∧
      figure.get env get_default o name log = get_default o (substr_from name 7) log ∧
      axes.get env get_default o name log = get_default o (substr_from name 7) log ∧
      uitoolbar.get env get_default o name log = get_default o (substr_from name 7) log ∧
      (∀ xp, figure.get env (defaults_object.get_default env inherited)
          { o with xproperties := xp } name log
        = defaults_object.get_default env inherited o (substr_from name 7) log) ∧
      (∀ xp, axes.get env (defaults_object.get_default env inherited)
          { o with xproperties := xp } name log
        = defaults_object.get_default env inherited o (substr_from name 7) log) ∧
      (∀ xp, uitoolbar.get env (defaults_object.get_default env inherited)
          { o with xproperties := xp } name log
        = defaults_object.get_default env inherited o (substr_from name 7) log)) ∧
    (∀ rest v, env.plist_lookup o.default_properties rest = some v →
      defaults_object.get_default env inherited o rest log = (some v, log)) ∧
    (∀ rest, env.plist_lookup o.default_properties rest = none →
      defaults_object.get_default env inherited o rest log = inherited rest log) ∧
    (∀ rest v, env.plist_lookup r.default_properties rest = some v →
      root_figure.get_default env r rest log = (some v, log)) ∧
    (∀ rest v, env.plist_lookup r.default_properties rest = none →
      env.plist_lookup r.factory_properties rest = some v →
      root_figure.get_default env r rest log = (some v, log)) ∧
    (∀ rest, env.plist_lookup r.default_properties rest = none →
      env.plist_lookup r.factory_properties rest = none →
      root_figure.get_default env r rest log =
        (none, log.error ("get: invalid default property `" ++ rest ++ "'"))) ∧
    (starts_caseless "default" name = false → starts_caseless "factory" name = true →
      root_figure.get env r name log
        = root_figure.get_factory_default env r (substr_from name 7) log ∧
      (∀ xp dp, root_figure.get env
          { r with xproperties := xp, default_properties := dp } name log
        = root_figure.get env r name log) ∧
      (∀ v, env.plist_lookup r.factory_properties (substr_from name 7) = some v →
        root_figure.get env r name log = (some v, log)) ∧
      (env.plist_lookup r.factory_properties (substr_from name 7) = none →
        root_figure.get env r name log = (none, log.error
          ("get: invalid factory default property `" ++ substr_from name 7 ++ "'")))) ∧
    (starts_caseless "default" name = false →
      (root_figure.set env r name value log =
          ({ r with xproperties := (env.props_set r.xproperties name value log).1 },
            (env.props_set r.xproperties name value log).2) ∧
        (root_figure.set env r name value log).1.default_properties = r.default_properties) ∧
      (figure.set env o name value log =
          ({ o with xproperties := (env.props_set o.xproperties name value log).1 },
            (env.props_set o.xproperties name value log).2) ∧
        (figure.set env o name value log).1.default_properties = o.default_properties) ∧
      axes.set env o name value log = figure.set env o name value log ∧
      uitoolbar.set env o name value log = figure.set env o name value log ∧
      (starts_caseless "factory" name = false →
        root_figure.get env r name log = env.props_get r.xproperties name log) ∧
      figure.get env get_default o name log = env.props_get o.xproperties name log ∧
      axes.get env get_default o name log = env.props_get o.xproperties name log ∧
      uitoolbar.get env get_default o name log = env.props_get o.xproperties name log) := by
  refine ⟨?_, ?_, ?_, ?_, ?_, ?_, ?_, ?_⟩
  · intro hd
    have hc : caseless_str.compare name "default" 7 = true := by rw [compare_default, hd]
    refine ⟨⟨?_, ?_, ?_⟩, ⟨?_, ?_⟩, ?_, ?_, ?_, ?_, ?_, ?_, ?_, ?_, ?_, ?_⟩ <;>
      simp [root_figure.set, figure.set, axes.set, uitoolbar.set, root_figure.get,
        figure.get, axes.get, uitoolbar.get, root_figure.get_default,
        defaults_object.get_default, hc]
  · intro rest v h1
    simp [defaults_object.get_default, h1]
  · intro rest h1
    simp [defaults_object.get_default, h1]
  · intro rest v h1
    simp [root_figure.get_default, h1]
  · intro rest v h1 h2
    simp [root_figure.get_default, h1, h2]
  · intro rest h1 h2
    simp [root_figure.get_default, h1, h2]
  · intro hd hf
    have hc : caseless_str.compare name "default" 7 = false := by rw [compare_default, hd]
    have hc2 : caseless_str.compare name "factory" 7 = true := by rw [compare_factory, hf]
    refine ⟨?_, ?_, ?_, ?_⟩
    · simp [root_figure.get, hc, hc2]
    · intro xp dp
      simp [root_figure.get, root_figure.get_factory_default, hc, hc2]
    · intro v hv
      simp [root_figure.get, root_figure.get_factory_default, hc, hc2, hv]
    · intro hv
      simp [root_figure.get, root_figure.get_factory_default, hc, hc2, hv]
  · intro hd
    have hc : caseless_str.compare name "default" 7 = false := by rw [compare_default, hd]
    refine ⟨⟨?_, ?_⟩, ⟨?_, ?_⟩, ?_, ?_, ?_, ?_, ?_, ?_⟩
    · simp [root_figure.set, hc]
    · simp [root_figure.set, hc]
    · simp [figure.set, hc]
    · simp [figure.set, hc]
    · simp [figure.set, axes.set, hc]
    · simp [figure.set, uitoolbar.set, hc]
    · intro hf
      have hc2 : caseless_str.compare name "factory" 7 = false := by
        rw [compare_factory, hf]
      simp [root_figure.get, hc, hc2]
    · simp [figure.get, hc]
    · simp [axes.get, hc]
    · simp [uitoolbar.get, hc]

/-- C29 at a figure, with property lists and the property table kept as association lists,
setting "DefaultLineColor" on a figure leaves the property table empty. -/
theorem defaults_dispatch_witness :
    starts_caseless "default" "DefaultLineColor" = true ∧
    (figure.set
      (⟨fun pl n v l => ((n, v) :: pl, l), fun pl n => pl.lookup n,
        fun xp n v l => ((n, v) :: xp, l), fun xp n l => (xp.lookup n, l)⟩ :
        defaults_env (List (String × octave_value)) (List (String × octave_value)))
      ⟨[], []⟩ "DefaultLineColor" (octave_value.string "red") Log.empty).1.xproperties = [] :=
  ⟨by decide,
    ((defaults_dispatch
      (⟨fun pl n v l => ((n, v) :: pl, l), fun pl n => pl.lookup n,
        fun xp n v l => ((n, v) :: xp, l), fun xp n l => (xp.lookup n, l)⟩ :
        defaults_env (List (String × octave_value)) (List (String × octave_value)))
      (fun o n l => (o.default_properties.lookup n, l)) (fun _ l => (none, l))
      ⟨[], [], []⟩ ⟨[], []⟩
      "DefaultLineColor" (octave_value.string "red") Log.empty).1 (by decide)).2.1.2⟩

/-! ## The name map of a property table -/

/-- Two names are equivalent under `cmp_caseless_str` exactly when they differ in letter
case only. -/
theorem cmp_caseless_equiv (a b : String) :
    (cmp_caseless_str a b = false ∧ cmp_caseless_str b a = false) ↔
      equals_caseless a b = true := by
  unfold cmp_caseless_str equals_caseless
  constructor
  · rintro ⟨h1, h2⟩
    have := congrArg String.data (string_less_total _ _ h1 h2)
    simp only at this
    simp [this]
  · intro h
    have h2 : fold_case b = fold_case a := by simpa using h
    rw [h2]
    exact ⟨string_less_strict_weak.irrefl _, string_less_strict_weak.irrefl _⟩

/-- The comparison `cmp_caseless_str` is a strict weak ordering. -/
theorem cmp_caseless_strict_weak : strict_weak cmp_caseless_str := by
  have hsw := string_less_strict_weak
  have heq : ∀ a b, cmp_caseless_str a b = false → cmp_caseless_str b a = false →
      fold_case a = fold_case b := by
    intro a b h1 h2
    exact congrArg String.data (string_less_total _ _ h1 h2)
  refine ⟨fun a => hsw.irrefl _, fun a b c => hsw.trans _ _ _, ?_, ?_⟩
  · intro a b c h1 h2
    unfold cmp_caseless_str
    rw [heq a b h1 h2]
  · intro a b c h1 h2
    unfold cmp_caseless_str
    rw [heq a b h1 h2]

/-- In a sorted map, `find` of a key equivalent to the key of an entry returns that
entry. -/
theorem std_map.find_of_mem_equiv {κ β : Type} {lt : κ → κ → Bool} (h : strict_weak lt)
    (p : κ × β) (key : κ) (h1 : lt p.1 key = false) (h2 : lt key p.1 = false) :
    ∀ m : List (κ × β), std_map.sorted lt m → p ∈ m → std_map.find lt m key = some p := by
  intro m
  induction m with
  | nil => intro _ hp; cases hp
  | cons e rest ih =>
    intro hs hp
    have hs2 := List.pairwise_cons.mp hs
    rcases List.mem_cons.mp hp with h3 | h3
    · rw [← h3]
      obtain ⟨k, v⟩ := p
      simp only at h1 h2
      simp [std_map.find, h1, h2]
    · have h4 : lt e.1 p.1 = true := hs2.1 p h3
      have h5 : lt e.1 key = true := by rw [← h.equiv_right p.1 key e.1 h1 h2]; exact h4
      obtain ⟨k, v⟩ := e
      simp only [std_map.find, h5, if_true]
      exact ih hs2.2 h3

/-- When `find (key)` finds an entry, `m[key] = val` keeps the keys of the map. -/
theorem std_map.assign_keys_of_find {κ β : Type} (lt : κ → κ → Bool) (key : κ) (val : β) :
    ∀ m : List (κ × β), (std_map.find lt m key).isSome = true →
      (std_map.assign lt m key val).map (fun p => p.1) = m.map (fun p => p.1) := by
  intro m
  induction m with
  | nil => intro h; simp [std_map.find] at h
  | cons e rest ih =>
    obtain ⟨k, v⟩ := e
    intro h
    cases hk : lt k key with
    | true =>
      simp only [std_map.find, hk, if_true] at h
      simp [std_map.assign, hk, ih h]
    | false =>
      cases hkk : lt key k with
      | true => simp [std_map.find, hk, hkk] at h
      | false => simp [std_map.assign, hk, hkk]

/-- When `find (key)` finds nothing, `m[key] = val` adds one entry. -/
theorem std_map.assign_length_of_find_none {κ β : Type} (lt : κ → κ → Bool) (key : κ)
    (val : β) : ∀ m : List (κ × β), std_map.find lt m key = none →
      (std_map.assign lt m key val).length = m.length + 1 := by
  intro m
  induction m with
  | nil => intro _; rfl
  | cons e rest ih =>
    obtain ⟨k, v⟩ := e
    intro h
    cases hk : lt k key with
    | true =>
      simp only [std_map.find, hk, if_true] at h
      simp [std_map.assign, hk, ih h]
    | false =>
      cases hkk : lt key k with
      | true => simp [std_map.assign, hk, hkk]
      | false => simp [std_map.find, hk, hkk] at h

/-- Two elements of a sorted set neither of which is less than the other are the same
element. -/
theorem std_set.sorted_equiv_eq {κ : Type} (lt : κ → κ → Bool) :
    ∀ l : List κ, List.Pairwise (fun a b => lt a b = true) l → ∀ a b, a ∈ l → b ∈ l →
      lt a b = false → lt b a = false → a = b := by
  intro l
  induction l with
  | nil => intro _ a b ha; cases ha
  | cons x rest ih =>
    intro hs a b ha hb h1 h2
    have hs2 := List.pairwise_cons.mp hs
    rcases List.mem_cons.mp ha with ha1 | ha1
    · rcases List.mem_cons.mp hb with hb1 | hb1
      · rw [ha1, hb1]
      · have := hs2.1 b hb1
        rw [← ha1, h1] at this
        cases this
    · rcases List.mem_cons.mp hb with hb1 | hb1
      · have := hs2.1 a ha1
        rw [← hb1, h2] at this
        cases this
      · exact ih hs2.2 a b ha1 hb1 h1 h2

/-- C30: after `insert_property (name, p)`, `find` of any name that differs from `name`
in letter case only returns `p`, with `name` and the handle of the table written into it,
under a key that differs from `name` in letter case only; when the table, in order, holds
a key that differs from `name` in letter case only, the keys and the number of entries
stay the same and that key now leads to `p`, and when `find (name)` finds nothing one
entry is added; the table stays in order, so no two keys differ in letter case only; and
the comparison `cmp_caseless_str` is a strict weak ordering, whose equivalence is to
differ in letter case only. -/
theorem all_props_caseless (bp : base_properties) (name name2 : String) (p : base_property)
    (hs : std_map.sorted cmp_caseless_str bp.all_props) :
    (equals_caseless name name2 = true →
      ∃ k, (bp.insert_property name p).find name2
          = some (k, { p with name := name, parent := bp.myhandle }) ∧
        equals_caseless name k = true) ∧
    (∀ k q, (k, q) ∈ bp.all_props → equals_caseless name k = true →
      (bp.insert_property name p).all_props.map (fun e => e.1)
          = bp.all_props.map (fun e => e.1) ∧
        (bp.insert_property name p).all_props.length = bp.all_props.length ∧
        (bp.insert_property name p).find k
          = some (k, { p with name := name, parent := bp.myhandle })) ∧
    (bp.find name = none →
      (bp.insert_property name p).all_props.length = bp.all_props.length + 1) ∧
    (std_map.sorted cmp_caseless_str (bp.insert_property name p).all_props ∧
      List.Pairwise (fun a b => equals_caseless a b = false)
        ((bp.insert_property name p).all_props.map (fun e => e.1))) ∧
    (strict_weak cmp_caseless_str ∧
      (∀ a b c, cmp_caseless_str a b = false → cmp_caseless_str b a = false →
        cmp_caseless_str b c = false → cmp_caseless_str c b = false →
        cmp_caseless_str a c = false ∧ cmp_caseless_str c a = false) ∧
      (∀ a b, (cmp_caseless_str a b = false ∧ cmp_caseless_str b a = false) ↔
        equals_caseless a b = true)) := by
  have hsw := cmp_caseless_strict_weak
  have hsorted : std_map.sorted cmp_caseless_str (bp.insert_property name p).all_props :=
    std_map.assign_sorted hsw _ _ _ hs
  refine ⟨?_, ?_, ?_, ⟨hsorted, ?_⟩, hsw, ?_, cmp_caseless_equiv⟩
  · intro he
    have h1 := (cmp_caseless_equiv name name2).mpr he
    obtain ⟨k0, hf, hb1, hb2⟩ := std_map.find_assign_equiv hsw name name2
      ({ p with name := name, parent := bp.myhandle } : base_property) h1.1 h1.2 bp.all_props
    exact ⟨k0, hf, (cmp_caseless_equiv name k0).mp ⟨hb2, hb1⟩⟩
  · intro k q hmem he
    have h1 := (cmp_caseless_equiv name k).mpr he
    have hfind : std_map.find cmp_caseless_str bp.all_props name = some (k, q) :=
      std_map.find_of_mem_equiv hsw (k, q) name h1.2 h1.1 _ hs hmem
    have hkeys := std_map.assign_keys_of_find cmp_caseless_str name
      ({ p with name := name, parent := bp.myhandle } : base_property) bp.all_props
      (by rw [hfind]; rfl)
    have hlen := congrArg List.length hkeys
    simp only [List.length_map] at hlen
    refine ⟨hkeys, hlen, ?_⟩
    obtain ⟨k0, hf, hb1, hb2⟩ := std_map.find_assign_equiv hsw name k
      ({ p with name := name, parent := bp.myhandle } : base_property) h1.1 h1.2 bp.all_props
    have h2 := std_map.find_some_mem cmp_caseless_str k _ _ hf
    have hk0 : k0 ∈ (std_map.assign cmp_caseless_str bp.all_props name
        ({ p with name := name, parent := bp.myhandle } : base_property)).map
        (fun e => e.1) := List.mem_map.mpr ⟨_, h2.1, rfl⟩
    rw [hkeys] at hk0
    obtain ⟨e, he1, he2⟩ := List.mem_map.mp hk0
    have hkm : k ∈ bp.all_props.map (fun e => e.1) := List.mem_map.mpr ⟨_, hmem, rfl⟩
    have hk0m : k0 ∈ bp.all_props.map (fun e => e.1) := List.mem_map.mpr ⟨_, he1, he2⟩
    have hkk0 : k0 = k :=
      std_set.sorted_equiv_eq cmp_caseless_str _
        ((std_map.sorted_iff_keys cmp_caseless_str bp.all_props).mp hs) k0 k hk0m hkm
        (by rw [hsw.equiv_left k0 name k hb1 hb2]; exact h1.1)
        (by rw [hsw.equiv_right k0 name k hb1 hb2]; exact h1.2)
    rw [hkk0] at hf
    exact hf
  · intro hnone
    exact std_map.assign_length_of_find_none cmp_caseless_str name _ _ hnone
  · have hpw := (std_map.sorted_iff_keys cmp_caseless_str _).mp hsorted
    refine hpw.imp ?_
    intro a b hab
    cases he : equals_caseless a b with
    | false => rfl
    | true =>
      have := (cmp_caseless_equiv a b).mpr he
      rw [this.1] at hab
      cases hab
  · intro a b c h1 h2 h3 h4
    constructor
    · rw [hsw.equiv_left a b c h1 h2]; exact h3
    · rw [hsw.equiv_right a b c h1 h2]; exact h4

/-- C30 at a table that holds a property under "Color", inserting under
"COLOR" and asking for "color" finds the property inserted. -/
theorem all_props_caseless_witness :
    std_map.sorted cmp_caseless_str
      [("Color", (⟨1, "Color", ⟨some 3⟩, false⟩ : base_property))] ∧
    equals_caseless "COLOR" "color" = true ∧
    base_properties.find
      (base_properties.insert_property
        ⟨[("Color", ⟨1, "Color", ⟨some 3⟩, false⟩)], ⟨some 3⟩⟩ "COLOR" ⟨2, "", ⟨none⟩, true⟩)
      "color" = some ("Color", ⟨2, "COLOR", ⟨some 3⟩, true⟩) ∧
    ∃ k, base_properties.find
      (base_properties.insert_property
        ⟨[("Color", ⟨1, "Color", ⟨some 3⟩, false⟩)], ⟨some 3⟩⟩ "COLOR" ⟨2, "", ⟨none⟩, true⟩)
      "color" = some (k, ⟨2, "COLOR", ⟨some 3⟩, true⟩) ∧ equals_caseless "COLOR" k = true :=
  ⟨by simp [std_map.sorted], by decide, by decide,
    (all_props_caseless ⟨[("Color", ⟨1, "Color", ⟨some 3⟩, false⟩)], ⟨some 3⟩⟩
      "COLOR" "color" ⟨2, "", ⟨none⟩, true⟩ (by simp [std_map.sorted])).1 (by decide)⟩

/-! ## Construction of a `children_property` -/

/-- The `push_front` loop over `xelem (0)`, ..., `xelem (n - 1)` stores the first `n`
elements last to first. -/
theorem push_front_range (l : List ℚ) : ∀ n, n ≤ l.length →
    (List.range n).foldl (fun acc i => l.getD i 0 :: acc) [] = (l.take n).reverse := by
  intro n
  induction n with
  | zero => intro _; simp
  | succ n ih =>
    intro hn
    have hlt : n < l.length := by omega
    rw [List.range_succ, List.foldl_append, ih (by omega), List.take_succ,
      List.getElem?_eq_getElem hlt]
    simp only [List.foldl_cons, List.foldl_nil, List.getD_eq_getElem _ _ hlt, Option.toList,
      List.reverse_append, List.reverse_cons, List.reverse_nil, List.nil_append,
      List.singleton_append]

/-- Adopting the children of a list one after the other stores them last to first, in
front of the children already there. -/
theorem adopt_all_reverse (vs : List ℚ) : ∀ p : children_property,
    (p.adopt_all vs).children_list = vs.reverse ++ p.children_list ∧
    (p.adopt_all vs).name = p.name := by
  induction vs with
  | nil => intro p; exact ⟨rfl, rfl⟩
  | cons v rest ih =>
    intro p
    have h := ih (p.adopt v)
    simp only [children_property.adopt_all, List.foldl_cons] at h ⊢
    refine ⟨?_, h.2⟩
    rw [h.1]
    simp [children_property.adopt, children_property.do_adopt_child]

/-- C36: the constructor `children_property (nm, h, val)` on the handles `v1, ..., vn`
stores the same child list as the property constructed from the empty matrix after
`adopt (v1)`, ..., `adopt (vn)` in that order, and that list is `vn, ..., v1`. -/
theorem children_new_eq_adopt_all (nm : String) (val : Matrix) :
    children_property.new nm val =
      (children_property.new nm Matrix.new).adopt_all val.data ∧
    (children_property.new nm val).children_list = val.data.reverse ∧
    (children_property.new nm Matrix.new).children_list = [] := by
  have h1 : (children_property.new nm val).children_list = val.data.reverse := by
    simp only [children_property.new, children_property.do_init_children_matrix,
      Matrix.numel, Matrix.xelem]
    rw [push_front_range val.data _ (le_refl _)]
    simp
  have h0 : children_property.new nm Matrix.new = ⟨nm, []⟩ := by
    simp [children_property.new, children_property.do_init_children_matrix, Matrix.new,
      Matrix.numel]
  refine ⟨?_, h1, by rw [h0]⟩
  have h2 := adopt_all_reverse val.data (children_property.new nm Matrix.new)
  have h3 : (children_property.new nm val).name = nm := rfl
  have h4 : ∀ a b : children_property, a.name = b.name → a.children_list = b.children_list →
      a = b := by
    intro a b hn hc
    cases a; cases b; simp_all
  apply h4
  · rw [h2.2, h0]; exact h3
  · rw [h1, h2.1, h0]; simp

/-! ## Listeners of a property -/

/-- Writing the list of a mode changes that list only. -/
theorem listener_map.get_set (m : listener_map) (mode mode2 : listener_mode)
    (l : List listener_value) :
    (m.set mode l).get mode2 = if mode2 = mode then l else m.get mode2 := by
  cases mode <;> cases mode2 <;> simp [listener_map.set, listener_map.get]

/-- C31: `add_listener (v, m)` makes the list of phase `m` the old list followed by `v`
and leaves the lists of the other phases as they are; after `L1` and then `L2` are added
for POSTSET the list is the old one followed by `L1, L2`, and that is the order in which
the listeners are run. -/
theorem add_listener_appends (listeners : listener_map) (v l1 l2 : listener_value)
    (m : listener_mode) :
    (base_property.add_listener listeners v m).get m = listeners.get m ++ [v] ∧
    (∀ m2, m2 ≠ m → (base_property.add_listener listeners v m).get m2 = listeners.get m2) ∧
    (base_property.add_listener
        (base_property.add_listener listeners l1 listener_mode.POSTSET) l2
        listener_mode.POSTSET).get listener_mode.POSTSET
      = listeners.get listener_mode.POSTSET ++ [l1, l2] ∧
    base_property.run_listeners
        (base_property.add_listener
          (base_property.add_listener listeners l1 listener_mode.POSTSET) l2
          listener_mode.POSTSET) listener_mode.POSTSET
      = base_property.run_listeners listeners listener_mode.POSTSET ++ [l1, l2] := by
  refine ⟨?_, ?_, ?_, ?_⟩
  · simp [base_property.add_listener, listener_map.get_set]
  · intro m2 hne
    simp [base_property.add_listener, listener_map.get_set, hne]
  · simp [base_property.add_listener, listener_map.get_set]
  · simp [base_property.run_listeners, base_property.add_listener, listener_map.get_set]

/-- C31 at a property with one POSTSET listener: a listener added for PREDELETE leaves
the POSTSET list as it is. -/
theorem add_listener_appends_witness :
    (base_property.add_listener ⟨[⟨some 1⟩], [], []⟩ ⟨some 2⟩ listener_mode.PREDELETE).get
      listener_mode.POSTSET = [⟨some 1⟩] :=
  (add_listener_appends ⟨[⟨some 1⟩], [], []⟩ ⟨some 2⟩ ⟨some 3⟩ ⟨some 4⟩
    listener_mode.PREDELETE).2.1 listener_mode.POSTSET (by decide)

/-- The inner loop finds a hit exactly when a persistent listener has the same
`internal_rep ()`. -/
theorem persistent_hit_iff (x : listener_value) (lp : List listener_value) :
    base_property.persistent_hit x lp = lp.any (fun y => x.internal_rep == y.internal_rep) := by
  induction lp with
  | nil => rfl
  | cons y rest ih =>
    cases h : (x.internal_rep == y.internal_rep) <;>
      simp [base_property.persistent_hit, h, ih]

/-- The outer loop appends, in the order walked, the entries that have a hit. -/
theorem retain_loop_eq (lp : List listener_value) : ∀ (l lnew : List listener_value),
    base_property.retain_loop lp l lnew =
      lnew ++ l.filter (fun x => base_property.persistent_hit x lp) := by
  intro l
  induction l with
  | nil => intro lnew; simp [base_property.retain_loop]
  | cons x rest ih =>
    intro lnew
    cases h : base_property.persistent_hit x lp <;>
      simp [base_property.retain_loop, ih, h, List.filter]

/-- Without a listener and for a phase other than PERSISTENT, `delete_listener` leaves of
the list of the phase the entries that have the `internal_rep ()` of a persistent
listener, last to first. -/
theorem delete_listener_retains_reversed (listeners : listener_map) (mode : listener_mode)
    (hmode : mode ≠ listener_mode.PERSISTENT) :
    (base_property.delete_listener listeners ⟨none⟩ mode).get mode =
      ((listeners.get mode).filter (fun x =>
        (listeners.get listener_mode.PERSISTENT).any
          (fun y => x.internal_rep == y.internal_rep))).reverse := by
  have hf : (fun x => base_property.persistent_hit x
      (listeners.get listener_mode.PERSISTENT)) =
      (fun x => (listeners.get listener_mode.PERSISTENT).any
        (fun y => x.internal_rep == y.internal_rep)) := by
    funext x; exact persistent_hit_iff x _
  simp only [base_property.delete_listener, listener_value.is_defined, Option.isSome_none,
    Bool.false_eq_true, if_false, beq_iff_eq, hmode, listener_map.get_set, if_true,
    retain_loop_eq, List.nil_append, hf, List.filter_reverse]

/-- C35 fails on the code: with the listeners `L1, L2` registered for POSTSET and both
persistent, `delete_listener ()` leaves the POSTSET list as `L2, L1`. -/
theorem delete_listener_reverses_order :
    (base_property.delete_listener
      ⟨[⟨some 1⟩, ⟨some 2⟩], [⟨some 1⟩, ⟨some 2⟩], []⟩ ⟨none⟩ listener_mode.POSTSET)
      = ⟨[⟨some 2⟩, ⟨some 1⟩], [⟨some 1⟩, ⟨some 2⟩], []⟩ := by
  decide

/-! ## Rounding -/

/-- The nearest integer is at most one half away. -/
theorem round_half_even_near (z : ℚ) : |(round_half_even z : ℚ) - z| ≤ 1 / 2 := by
  have h1 : (Int.floor z : ℚ) ≤ z := Int.floor_le z
  have h2 : z < Int.floor z + 1 := Int.lt_floor_add_one z
  unfold round_half_even
  simp only
  rw [abs_le]
  split_ifs with c1 c2 c3
  · constructor <;> linarith
  · push_cast; constructor <;> linarith
  · have : z - Int.floor z = 1 / 2 := le_antisymm (not_lt.mp c2) (not_lt.mp c1)
    constructor <;> linarith
  · have : z - Int.floor z = 1 / 2 := le_antisymm (not_lt.mp c2) (not_lt.mp c1)
    push_cast; constructor <;> linarith

/-- An integer is its own nearest integer. -/
theorem round_half_even_int (n : Int) : round_half_even (n : ℚ) = n := by
  simp [round_half_even]

/-- The binary exponent of a number below `2 ^ n` is below `n`. -/
theorem binary_exponent_lt (x : ℚ) (n : Int) (hn : 0 < n) (h : |x| < 2 ^ n) :
    Int.log 2 |x| < n := by
  rcases eq_or_lt_of_le (abs_nonneg x) with h0 | h0
  · rw [← h0, Int.log_zero_right]; exact hn
  · have := (Int.lt_zpow_iff_log_lt (R := ℚ) (b := 2) (by norm_num) (x := n) h0).mp
      (by simpa using h)
    exact this

/-- A number below `2 ^ n` in size is rounded to a number at most `2 ^ (n - p - 1)`
away. -/
theorem binary_nearest_near (p : Nat) (emin : Int) (x : ℚ) (n : Int) (hn : 0 < n)
    (hmin : emin < n) (h : |x| < 2 ^ n) :
    |binary_nearest p emin x - x| ≤ 2 ^ (n - p - 1) := by
  have he : max (Int.log 2 |x|) emin ≤ n - 1 := by
    have := binary_exponent_lt x n hn h
    omega
  unfold binary_nearest
  simp only
  set e := max (Int.log 2 |x|) emin with hedef
  have hq : (0 : ℚ) < 2 ^ (e - (p - 1)) := by positivity
  have h1 := round_half_even_near (x / 2 ^ (e - (p - 1)))
  have h2 : (round_half_even (x / 2 ^ (e - (p - 1))) : ℚ) * 2 ^ (e - (p - 1)) - x =
      ((round_half_even (x / 2 ^ (e - (p - 1))) : ℚ) - x / 2 ^ (e - (p - 1)))
        * 2 ^ (e - (p - 1)) := by
    field_simp
  rw [h2, abs_mul, abs_of_pos hq]
  have h3 : (2 : ℚ) ^ (e - (p - 1)) ≤ 2 ^ (n - p) := by
    apply zpow_le_zpow_right₀ (by norm_num)
    omega
  have h4 : (2 : ℚ) ^ (n - (p : Int) - 1) = 2 ^ (n - (p : Int)) / 2 := by
    rw [zpow_sub_one₀ (by norm_num)]; ring
  rw [h4]
  calc |(round_half_even (x / 2 ^ (e - (p - 1))) : ℚ) - x / 2 ^ (e - (p - 1))|
        * 2 ^ (e - (p - 1))
      ≤ 1 / 2 * 2 ^ (n - (p : Int)) := by
        apply mul_le_mul h1 h3 (le_of_lt hq) (by norm_num)
    _ = 2 ^ (n - (p : Int)) / 2 := by ring

/-- A number below `2 ^ 52` in size is rounded to a double at most a quarter away. -/
theorem double_round_near (x : ℚ) (h : |x| < 2 ^ 52) :
    ∃ r, double_round x = some r ∧ |r - x| ≤ 1 / 4 := by
  have hb := binary_nearest_near 53 (-1022) x 52 (by norm_num) (by norm_num)
    (by rw [show (52 : Int) = ((52 : Nat) : Int) from rfl, zpow_natCast]; exact h)
  have hb2 : |binary_nearest 53 (-1022) x - x| ≤ 1 / 4 := by
    have : (2 : ℚ) ^ ((52 : Int) - (53 : Nat) - 1) = 1 / 4 := by norm_num
    rw [this] at hb
    exact hb
  refine ⟨binary_nearest 53 (-1022) x, ?_, hb2⟩
  have hlt : |binary_nearest 53 (-1022) x| < 2 ^ ((1023 : Int) + 1) := by
    have h5 : |binary_nearest 53 (-1022) x| ≤ |binary_nearest 53 (-1022) x - x| + |x| := by
      have := abs_add (binary_nearest 53 (-1022) x - x) x
      simpa using this
    have h6 : (2 : ℚ) ^ (52 : Nat) + 1 / 4 < 2 ^ (1024 : Nat) := by norm_num
    rw [show ((1023 : Int) + 1) = ((1024 : Nat) : Int) from rfl, zpow_natCast]
    linarith
  unfold double_round binary_round
  simp only
  rw [if_pos hlt]

/-- A multiple of a power of two whose quotient has at most `p` bits is not changed by
rounding. -/
theorem binary_nearest_exact (p : Nat) (emin : Int) (n k : Int) (hk : emin - (p - 1) ≤ k)
    (hn : |(n : ℚ) * 2 ^ k| < 2 ^ (k + p)) :
    binary_nearest p emin ((n : ℚ) * 2 ^ k) = (n : ℚ) * 2 ^ k := by
  by_cases h0 : n = 0
  · simp [binary_nearest, h0, round_half_even]
  have hpos : (0 : ℚ) < |(n : ℚ) * 2 ^ k| := by
    apply abs_pos.mpr
    have : (n : ℚ) ≠ 0 := by exact_mod_cast h0
    positivity
  have hlog : Int.log 2 |(n : ℚ) * 2 ^ k| < k + p :=
    (Int.lt_zpow_iff_log_lt (R := ℚ) (b := 2) (by norm_num) hpos).mp (by simpa using hn)
  unfold binary_nearest
  simp only
  set e := max (Int.log 2 |(n : ℚ) * 2 ^ k|) emin with hedef
  have he : e ≤ k + p - 1 := by omega
  obtain ⟨d, hd⟩ : ∃ d : Nat, (d : Int) = k + p - 1 - e :=
    ⟨(k + p - 1 - e).toNat, by omega⟩
  have hq : (n : ℚ) * 2 ^ k / 2 ^ (e - (p - 1)) = ((n * 2 ^ d : Int) : ℚ) := by
    have h2 : (2 : ℚ) ^ k = 2 ^ (e - (p - 1)) * 2 ^ (d : Int) := by
      rw [← zpow_add₀ (by norm_num)]
      congr 1
      omega
    rw [h2, zpow_natCast]
    have : (2 : ℚ) ^ (e - (p - 1)) ≠ 0 := by positivity
    field_simp
    ring
  rw [hq, round_half_even_int, ← hq]
  have : (2 : ℚ) ^ (e - (p - 1)) ≠ 0 := by positivity
  field_simp

/-- The binary exponent of a number between two neighbouring powers of two. -/
theorem binary_exponent_eq (x : ℚ) (e : Int) (h1 : 2 ^ e ≤ |x|) (h2 : |x| < 2 ^ (e + 1)) :
    Int.log 2 |x| = e := by
  have hpos : (0 : ℚ) < |x| := lt_of_lt_of_le (by positivity) h1
  have ha : e ≤ Int.log 2 |x| :=
    (Int.zpow_le_iff_le_log (R := ℚ) (b := 2) (by norm_num) hpos).mp (by simpa using h1)
  have hb : Int.log 2 |x| < e + 1 :=
    (Int.lt_zpow_iff_log_lt (R := ℚ) (b := 2) (by norm_num) hpos).mp (by simpa using h2)
  omega

/-- Half a unit below `2 ^ 53` lies midway between two doubles and is rounded to the
even one, `2 ^ 53`. -/
theorem double_round_below_two_pow_53 : double_round (2 ^ 53 - 1 / 2) = some (2 ^ 53) := by
  have hlog : Int.log 2 |(2 : ℚ) ^ 53 - 1 / 2| = 52 :=
    binary_exponent_eq _ 52 (by rw [abs_of_pos (by norm_num)]; norm_num)
      (by rw [abs_of_pos (by norm_num)]; norm_num)
  have hf : Int.floor ((2 : ℚ) ^ 53 - 1 / 2) = 2 ^ 53 - 1 := by
    rw [Int.floor_eq_iff]; norm_num
  have hr : round_half_even ((2 : ℚ) ^ 53 - 1 / 2) = 2 ^ 53 := by
    unfold round_half_even
    simp only [hf]
    norm_num
  have hn : binary_nearest 53 (-1022) ((2 : ℚ) ^ 53 - 1 / 2) = 2 ^ 53 := by
    have hq : (2 : ℚ) ^ ((52 : Int) - (((53 : Nat) : Int) - 1)) = 1 := by norm_num
    unfold binary_nearest
    simp only [hlog, max_eq_left (show (-1022 : Int) ≤ 52 by norm_num), hq, div_one, hr]
    norm_num
  unfold double_round binary_round
  simp only [hn]
  norm_num

/-- Half a unit above `2 ^ 53` is rounded to `2 ^ 53`. -/
theorem double_round_above_two_pow_53 : double_round (2 ^ 53 + 1 / 2) = some (2 ^ 53) := by
  have hlog : Int.log 2 |(2 : ℚ) ^ 53 + 1 / 2| = 53 :=
    binary_exponent_eq _ 53 (by rw [abs_of_pos (by norm_num)]; norm_num)
      (by rw [abs_of_pos (by norm_num)]; norm_num)
  have hf : Int.floor (((2 : ℚ) ^ 53 + 1 / 2) / 2) = 2 ^ 52 := by
    rw [Int.floor_eq_iff]; norm_num
  have hr : round_half_even (((2 : ℚ) ^ 53 + 1 / 2) / 2) = 2 ^ 52 := by
    unfold round_half_even
    simp only [hf]
    norm_num
  have hn : binary_nearest 53 (-1022) ((2 : ℚ) ^ 53 + 1 / 2) = 2 ^ 53 := by
    have hq : (2 : ℚ) ^ ((53 : Int) - (((53 : Nat) : Int) - 1)) = 2 := by norm_num
    unfold binary_nearest
    simp only [hlog, max_eq_left (show (-1022 : Int) ≤ 53 by norm_num), hq, hr]
    norm_num
  unfold double_round binary_round
  simp only [hn]
  norm_num

/-! ## Limits of an axes object -/

/-- Appending the empty log changes nothing. -/
theorem Log.append_empty (a : Log) : a.append Log.empty = a := by
  cases a; simp [Log.append, Log.empty]

/-- A row vector property that accepts 1-by-2 matrices stores a pair different from the
one it holds, without a message. -/
theorem row_vector_set_pair (lims : array_property) (lo hi a b : ℚ) (log : Log)
    (hdata : lims.data = ⟨1, 2, [lo, hi]⟩)
    (hacc : ∀ x y, lims.validate (octave_value.matrix ⟨1, 2, [x, y]⟩) = true)
    (hne : ¬ (lo = a ∧ hi = b)) :
    (array_property.set row_vector_property.do_set lims
        (octave_value.matrix ⟨1, 2, [a, b]⟩) log).2.1.data = ⟨1, 2, [a, b]⟩ ∧
    (array_property.set row_vector_property.do_set lims
        (octave_value.matrix ⟨1, 2, [a, b]⟩) log).2.2 = log := by
  have hneq : (lims.is_equal (octave_value.matrix ⟨1, 2, [a, b]⟩)) = false := by
    simp only [array_property.is_equal, hdata]
    simpa using hne
  have hset : array_property.do_set lims (octave_value.matrix ⟨1, 2, [a, b]⟩) =
      (true, ({ lims with data := ⟨1, 2, [a, b]⟩ } : array_property).get_data_limits,
        Log.empty) := by
    simp [array_property.do_set, hacc, hneq, octave_value.array_value,
      octave_value.matrix_value]
  simp [array_property.set, row_vector_property.do_set, hset, Log.error_state, Log.empty,
    array_property.get_data_limits, Matrix.reshape, Log.append]

/-- A multiple of a power of two that fits the precision and lies within the finite range
is a number of the format: rounding leaves it as it is. -/
theorem binary_round_exact (p : Nat) (emin emax : Int) (n k : Int)
    (hk : emin - (p - 1) ≤ k) (hn : |(n : ℚ) * 2 ^ k| < 2 ^ (k + p))
    (hmax : |(n : ℚ) * 2 ^ k| < 2 ^ (emax + 1)) :
    binary_round p emin emax ((n : ℚ) * 2 ^ k) = some ((n : ℚ) * 2 ^ k) := by
  unfold binary_round
  simp only [binary_nearest_exact p emin n k hk hn]
  rw [if_pos hmax]

/-- Zero is a double. -/
theorem double_round_zero : double_round 0 = some 0 := by
  have h := binary_round_exact 53 (-1022) 1023 0 0 (by norm_num) (by norm_num)
    (by simp only [Int.cast_zero, zero_mul, abs_zero]; positivity)
  simpa [double_round] using h

/-- Zero is a float. -/
theorem float_round_zero : float_round 0 = some 0 := by
  have h := binary_round_exact 24 (-126) 127 0 0 (by norm_num) (by norm_num)
    (by simp only [Int.cast_zero, zero_mul, abs_zero]; positivity)
  simpa [float_round] using h

/-- One half is a float. -/
theorem float_round_half : float_round (1 / 2) = some (1 / 2) := by
  have habs : |((1 : Int) : ℚ) * 2 ^ (-1 : Int)| = 2 ^ (-1 : Int) := by
    rw [abs_of_pos (by positivity)]; simp
  have h := binary_round_exact 24 (-126) 127 1 (-1) (by norm_num)
    (by rw [habs]; exact zpow_lt_zpow_right₀ (by norm_num) (by norm_num))
    (by rw [habs]; exact zpow_lt_zpow_right₀ (by norm_num) (by norm_num))
  have h2 : ((1 : Int) : ℚ) * 2 ^ (-1 : Int) = 1 / 2 := by norm_num
  rw [h2] at h
  exact h

/-- The number `2 ^ 53` is a double. -/
theorem double_round_two_pow_53 : double_round (2 ^ 53) = some (2 ^ 53) := by
  have habs : |((1 : Int) : ℚ) * 2 ^ (53 : Int)| = 2 ^ (53 : Int) := by
    rw [abs_of_pos (by positivity)]; simp
  have h := binary_round_exact 53 (-1022) 1023 1 53 (by norm_num)
    (by rw [habs]; exact zpow_lt_zpow_right₀ (by norm_num) (by norm_num))
    (by rw [habs]; exact zpow_lt_zpow_right₀ (by norm_num) (by norm_num))
  have h2 : ((1 : Int) : ℚ) * 2 ^ (53 : Int) = 2 ^ 53 := by norm_num
  rw [h2] at h
  exact h

/-- A half-integer below `2 ^ 52` in size is a double. -/
theorem double_round_half_integer (n : Int) (h : |(n : ℚ) / 2| < 2 ^ 52) :
    double_round ((n : ℚ) / 2) = some ((n : ℚ) / 2) := by
  have h2 : (n : ℚ) * 2 ^ (-1 : Int) = (n : ℚ) / 2 := by
    rw [zpow_neg_one]; ring
  have h3 := binary_round_exact 53 (-1022) 1023 n (-1) (by norm_num)
    (by
      rw [h2]
      have : ((-1 : Int) + ((53 : Nat) : Int)) = ((52 : Nat) : Int) := by norm_num
      rw [this, zpow_natCast]
      exact h)
    (by
      rw [h2]
      refine lt_trans h ?_
      have : ((1023 : Int) + 1) = ((1024 : Nat) : Int) := by norm_num
      rw [this, zpow_natCast]
      norm_num)
  rw [h2] at h3
  exact h3

/-- A number that is at most half a unit beyond the largest finite double in size is
rounded to a finite double. -/
theorem double_round_finite (x : ℚ) (h : |x| ≤ 2 ^ 1024 - 2 ^ 971 + 1 / 2) :
    ∃ r, double_round x = some r := by
  have hlt : |x| < 2 ^ (1024 : Int) := by
    rw [show (1024 : Int) = ((1024 : Nat) : Int) from rfl, zpow_natCast]
    refine lt_of_le_of_lt h ?_
    norm_num
  have hb := binary_nearest_near 53 (-1022) x 1024 (by norm_num) (by norm_num) hlt
  have hb2 : |binary_nearest 53 (-1022) x - x| ≤ 2 ^ 970 := by
    have : (2 : ℚ) ^ ((1024 : Int) - (53 : Nat) - 1) = 2 ^ (970 : Nat) := by
      rw [show ((1024 : Int) - ((53 : Nat) : Int) - 1) = ((970 : Nat) : Int) from rfl,
        zpow_natCast]
    rw [this] at hb
    exact hb
  refine ⟨binary_nearest 53 (-1022) x, ?_⟩
  have hsmall : |binary_nearest 53 (-1022) x| < 2 ^ ((1023 : Int) + 1) := by
    have h5 : |binary_nearest 53 (-1022) x| ≤ |binary_nearest 53 (-1022) x - x| + |x| := by
      have := abs_add (binary_nearest 53 (-1022) x - x) x
      simpa using this
    have h6 : (2 : ℚ) ^ 970 + (2 ^ 1024 - 2 ^ 971 + 1 / 2) < 2 ^ (1024 : Nat) := by norm_num
    rw [show ((1023 : Int) + 1) = ((1024 : Nat) : Int) from rfl, zpow_natCast]
    linarith
  unfold double_round binary_round
  simp only
  rw [if_pos hsmall]

/-- A row vector property that accepts 1-by-2 matrices holds the pair it is given after
`set`, whether the pair differs from the one it held or not, without a message. -/
theorem row_vector_set_any_pair (lims : array_property) (lo hi a b : ℚ) (log : Log)
    (hdata : lims.data = ⟨1, 2, [lo, hi]⟩)
    (hacc : ∀ x y, lims.validate (octave_value.matrix ⟨1, 2, [x, y]⟩) = true) :
    (array_property.set row_vector_property.do_set lims
        (octave_value.matrix ⟨1, 2, [a, b]⟩) log).2.1.data = ⟨1, 2, [a, b]⟩ ∧
    (array_property.set row_vector_property.do_set lims
        (octave_value.matrix ⟨1, 2, [a, b]⟩) log).2.2 = log := by
  by_cases hne : lo = a ∧ hi = b
  · have heq : (lims.is_equal (octave_value.matrix ⟨1, 2, [a, b]⟩)) = true := by
      simp only [array_property.is_equal, hdata]
      simpa using hne
    have hset : array_property.do_set lims (octave_value.matrix ⟨1, 2, [a, b]⟩) =
        (false, lims, Log.empty) := by
      simp [array_property.do_set, hacc, heq]
    obtain ⟨h1, h2⟩ := hne
    simp [array_property.set, row_vector_property.do_set, hset, Log.error_state, Log.empty,
      Log.append, hdata, h1, h2]
  · exact row_vector_set_pair lims lo hi a b log hdata hacc hne

/-- On a pair of equal limits whose rounded difference and sum are the doubles `a` and
`b`, `fix_limits` stores `(a, b)`, without a message. -/
theorem fix_limits_equal (lims : array_property) (lo hi a b : ℚ) (log : Log)
    (hdata : lims.data = ⟨1, 2, [lo, hi]⟩)
    (hacc : ∀ x y, lims.validate (octave_value.matrix ⟨1, 2, [x, y]⟩) = true)
    (h : lo = hi) (ha : double_round (lo - 1 / 2) = some a)
    (hb : double_round (hi + 1 / 2) = some b) :
    axes.properties.fix_limits row_vector_property.do_set lims log =
      some ((array_property.set row_vector_property.do_set lims
          (octave_value.matrix ⟨1, 2, [a, b]⟩) log).2.1, log) := by
  have hs := row_vector_set_any_pair lims lo hi a b log hdata hacc
  have hnot : ¬ hi < hi := lt_irrefl hi
  subst h
  simp only [axes.properties.fix_limits, hdata, Matrix.is_empty, Matrix.numel,
    Matrix.xelem, Matrix.set_elem, List.length_cons, List.length_nil, List.getD_cons_zero,
    List.getD_cons_succ, List.set_cons_zero, List.set_cons_succ, gt_iff_lt, hnot,
    decide_False, beq_self_eq_true, if_true, if_false, ha, hb, hs.2]
  simp

/-- C34 fails on the code: the limits `(2 ^ 53, 2 ^ 53)` of a row vector property are
doubles, and `fix_limits` leaves them as they are, because the doubles nearest to
`2 ^ 53 - 0.5` and to `2 ^ 53 + 0.5` are both `2 ^ 53`; afterwards the pair is not
`(lo - 0.5, hi + 0.5)` and the first limit is not less than the second. -/
theorem fix_limits_absorbs_half :
    double_round (2 ^ 53) = some (2 ^ 53) ∧
    (axes.properties.fix_limits row_vector_property.do_set
        (row_vector_property.new "xlim" ⟨1, 2, [2 ^ 53, 2 ^ 53]⟩) Log.empty).map
      (fun r => r.1.data) = some ⟨1, 2, [2 ^ 53, 2 ^ 53]⟩ ∧
    (2 : ℚ) ^ 53 ≠ 2 ^ 53 - 1 / 2 ∧ ¬ ((2 : ℚ) ^ 53 < 2 ^ 53) := by
  refine ⟨double_round_two_pow_53, ?_, by norm_num, lt_irrefl _⟩
  have hacc : ∀ x y, (row_vector_property.new "xlim" ⟨1, 2, [2 ^ 53, 2 ^ 53]⟩).validate
      (octave_value.matrix ⟨1, 2, [x, y]⟩) = true := by
    intro x y
    simp [row_vector_property.new, array_property.validate, array_property.add_constraint,
      array_property.get_data_limits]
  rw [fix_limits_equal _ (2 ^ 53) (2 ^ 53) (2 ^ 53) (2 ^ 53) Log.empty rfl hacc rfl
    double_round_below_two_pow_53 double_round_above_two_pow_53]
  simp only [Option.map_some']
  rw [(row_vector_set_any_pair _ (2 ^ 53) (2 ^ 53) (2 ^ 53) (2 ^ 53) Log.empty rfl hacc).1]

/-- C34 as amended: on a limits property that holds the pair `(lo, hi)` and accepts 1-by-2
matrices, `fix_limits` leaves the pair as it is when `lo < hi`, stores `(0, 1)` when
`lo > hi`, and when `lo = hi` the doubles nearest to `lo - 0.5` and `hi + 0.5`, without a
message; these two doubles are finite when `lo` is no larger in size than the largest
finite double; for `|lo| ≤ 2 ^ 52 - 1` they lie within 0.25 of `lo - 0.5` and `hi + 0.5`,
the first below the second, and are `lo - 0.5` and `hi + 0.5` themselves when `lo` is a
multiple of 0.5; whenever `lo ≠ hi` or `|lo| ≤ 2 ^ 52 - 1`, the first limit is strictly
less than the second afterwards and `fix_limits` applied again changes nothing. -/
theorem fix_limits_orders (lims : array_property) (lo hi : ℚ) (log : Log)
    (hdata : lims.data = ⟨1, 2, [lo, hi]⟩)
    (hacc : ∀ x y, lims.validate (octave_value.matrix ⟨1, 2, [x, y]⟩) = true) :
    (lo < hi →
      axes.properties.fix_limits row_vector_property.do_set lims log = some (lims, log)) ∧
    (lo > hi →
      ∃ r, axes.properties.fix_limits row_vector_property.do_set lims log = some r ∧
        r.1.data = ⟨1, 2, [0, 1]⟩ ∧ r.2 = log) ∧
    (lo = hi → ∀ a b, double_round (lo - 1 / 2) = some a →
      double_round (hi + 1 / 2) = some b →
      ∃ r, axes.properties.fix_limits row_vector_property.do_set lims log = some r ∧
        r.1.data = ⟨1, 2, [a, b]⟩ ∧ r.2 = log) ∧
    (lo = hi → |lo| ≤ 2 ^ 1024 - 2 ^ 971 →
      ∃ a b r, double_round (lo - 1 / 2) = some a ∧ double_round (hi + 1 / 2) = some b ∧
        axes.properties.fix_limits row_vector_property.do_set lims log = some r ∧
        r.1.data = ⟨1, 2, [a, b]⟩ ∧ r.2 = log) ∧
    (lo = hi → |lo| ≤ 2 ^ 52 - 1 →
      ∃ a b, double_round (lo - 1 / 2) = some a ∧ double_round (hi + 1 / 2) = some b ∧
        |a - (lo - 1 / 2)| ≤ 1 / 4 ∧ |b - (hi + 1 / 2)| ≤ 1 / 4 ∧ a < b) ∧
    (lo = hi → |lo| ≤ 2 ^ 52 - 1 → (∃ n : Int, lo = (n : ℚ) / 2) →
      double_round (lo - 1 / 2) = some (lo - 1 / 2) ∧
      double_round (hi + 1 / 2) = some (hi + 1 / 2)) ∧
    (lo ≠ hi ∨ |lo| ≤ 2 ^ 52 - 1 →
      ∃ r, axes.properties.fix_limits row_vector_property.do_set lims log = some r ∧
        r.2 = log ∧ r.1.data.xelem 0 < r.1.data.xelem 1 ∧
        axes.properties.fix_limits row_vector_property.do_set r.1 r.2 = some r) := by
  have hlt : ∀ (p : array_property) (a b : ℚ) (lg : Log), p.data = ⟨1, 2, [a, b]⟩ → a < b →
      axes.properties.fix_limits row_vector_property.do_set p lg = some (p, lg) := by
    intro p a b lg hp hab
    have h1 : ¬ b < a := not_lt.mpr (le_of_lt hab)
    have h2 : ¬ a = b := ne_of_lt hab
    simp [axes.properties.fix_limits, hp, Matrix.is_empty, Matrix.numel, Matrix.xelem, h1, h2]
  have hgt : hi < lo →
      ∃ r, axes.properties.fix_limits row_vector_property.do_set lims log = some r ∧
        r.1.data = ⟨1, 2, [0, 1]⟩ ∧ r.2 = log := by
    intro h
    have hs := row_vector_set_any_pair lims lo hi 0 1 log hdata hacc
    refine ⟨((array_property.set row_vector_property.do_set lims
      (octave_value.matrix ⟨1, 2, [0, 1]⟩) log).2.1, log), ?_, hs.1, rfl⟩
    simp only [axes.properties.fix_limits, hdata, Matrix.is_empty, Matrix.numel,
      Matrix.xelem, Matrix.set_elem]
    simp [h, hs.2]
  have heq : lo = hi → ∀ a b, double_round (lo - 1 / 2) = some a →
      double_round (hi + 1 / 2) = some b →
      ∃ r, axes.properties.fix_limits row_vector_property.do_set lims log = some r ∧
        r.1.data = ⟨1, 2, [a, b]⟩ ∧ r.2 = log := by
    intro h a b ha hb
    exact ⟨_, fix_limits_equal lims lo hi a b log hdata hacc h ha hb,
      (row_vector_set_any_pair lims lo hi a b log hdata hacc).1, rfl⟩
  have hnear : lo = hi → |lo| ≤ 2 ^ 52 - 1 →
      ∃ a b, double_round (lo - 1 / 2) = some a ∧ double_round (hi + 1 / 2) = some b ∧
        |a - (lo - 1 / 2)| ≤ 1 / 4 ∧ |b - (hi + 1 / 2)| ≤ 1 / 4 ∧ a < b := by
    intro h hsmall
    have hl := abs_le.mp hsmall
    have h1 : |lo - 1 / 2| < 2 ^ 52 := by
      rw [abs_lt]; constructor <;> linarith
    have h2 : |hi + 1 / 2| < 2 ^ 52 := by
      rw [← h, abs_lt]; constructor <;> linarith
    obtain ⟨a, ha, hna⟩ := double_round_near _ h1
    obtain ⟨b, hb, hnb⟩ := double_round_near _ h2
    refine ⟨a, b, ha, hb, hna, hnb, ?_⟩
    have := abs_le.mp hna
    have := abs_le.mp hnb
    linarith
  refine ⟨hlt lims lo hi log hdata, hgt, heq, ?_, hnear, ?_, ?_⟩
  · intro h hfin
    have hl := abs_le.mp hfin
    obtain ⟨a, ha⟩ := double_round_finite (lo - 1 / 2) (by
      rw [abs_le]; constructor <;> linarith)
    obtain ⟨b, hb⟩ := double_round_finite (hi + 1 / 2) (by
      rw [← h, abs_le]; constructor <;> linarith)
    obtain ⟨r, hr, hrd, hrl⟩ := heq h a b ha hb
    exact ⟨a, b, r, ha, hb, hr, hrd, hrl⟩
  · rintro h hsmall ⟨n, hn⟩
    have hl := abs_le.mp hsmall
    have e1 : lo - 1 / 2 = ((n - 1 : Int) : ℚ) / 2 := by rw [hn]; push_cast; ring
    have e2 : hi + 1 / 2 = ((n + 1 : Int) : ℚ) / 2 := by rw [← h, hn]; push_cast; ring
    constructor
    · rw [e1]
      apply double_round_half_integer
      rw [← e1, abs_lt]; constructor <;> linarith
    · rw [e2]
      apply double_round_half_integer
      rw [← e2, ← h, abs_lt]; constructor <;> linarith
  · intro hcase
    rcases lt_trichotomy lo hi with h | h | h
    · refine ⟨(lims, log), hlt lims lo hi log hdata h, rfl, ?_, hlt lims lo hi log hdata h⟩
      rw [hdata]
      simpa [Matrix.xelem] using h
    · have hsmall : |lo| ≤ 2 ^ 52 - 1 := by
        rcases hcase with hc | hc
        · exact absurd h hc
        · exact hc
      obtain ⟨a, b, ha, hb, _, _, hab⟩ := hnear h hsmall
      obtain ⟨r, hr, hrd, hrl⟩ := heq h a b ha hb
      refine ⟨r, hr, hrl, ?_, ?_⟩
      · rw [hrd]
        simpa [Matrix.xelem] using hab
      · exact hlt r.1 a b r.2 hrd hab
    · obtain ⟨r, hr, hrd, hrl⟩ := hgt h
      refine ⟨r, hr, hrl, ?_, ?_⟩
      · rw [hrd]
        simp [Matrix.xelem]
      · exact hlt r.1 0 1 r.2 hrd (by norm_num)

/-- C34 at the limits `(3, 3)` of a row vector property: `fix_limits` stores a pair whose
first limit is less than the second, and changes nothing when applied again. -/
theorem fix_limits_orders_witness :
    |(3 : ℚ)| ≤ 2 ^ 52 - 1 ∧
    ∃ r, axes.properties.fix_limits row_vector_property.do_set
        (row_vector_property.new "xlim" ⟨1, 2, [3, 3]⟩) Log.empty = some r ∧
      r.2 = Log.empty ∧ r.1.data.xelem 0 < r.1.data.xelem 1 ∧
      axes.properties.fix_limits row_vector_property.do_set r.1 r.2 = some r :=
  ⟨by norm_num,
    (fix_limits_orders (row_vector_property.new "xlim" ⟨1, 2, [3, 3]⟩) 3 3 Log.empty rfl
      (by
        intro x y
        simp [row_vector_property.new, array_property.validate,
          array_property.add_constraint, array_property.get_data_limits])).2.2.2.2.2.2
      (Or.inr (by norm_num))⟩

/-! ## Pixel size of an image -/

/-- With coinciding data limits, `pixel_size` is 0.5 when the largest element is the
smallest positive one, and 0 otherwise, whatever the width of the index type. -/
theorem pixel_size_coinciding (w : Nat) (dim : Int) (limits : data_limits)
    (h : limits.min_val = limits.max_val) :
    image.properties.pixel_size w dim limits =
      if limits.min_pos = some limits.max_val then some (1 / 2) else some 0 := by
  by_cases hp : limits.min_pos = some limits.max_val
  · simp only [image.properties.pixel_size, h, hp, bne_self_eq_false, Bool.and_false,
      Bool.false_eq_true, if_false, beq_self_eq_true, if_true, Option.some_bind]
    exact float_round_half
  · have hp2 : (limits.min_pos == some limits.max_val) = false := by simpa using hp
    simp only [image.properties.pixel_size, h, hp, hp2, bne_self_eq_false, Bool.and_false,
      Bool.false_eq_true, if_false, sub_self, double_round_zero, Option.some_bind,
      zero_div, float_round_zero]

/-- C38 fails on the code: for an image two pixels wide whose `xdata` is `-1, -1`, the
limits are `(-1, -1, none, -1)` and `pixel_size` is 0, not 0.5, whatever the width of the
index type. -/
theorem pixel_size_negative_data_zero :
    array_property.get_limits (row_vector_property.new "xdata" ⟨1, 2, [-1, -1]⟩)
      = some ⟨-1, -1, none, some (-1)⟩ ∧
    ∀ w : Nat, image.properties.pixel_size w 2 ⟨-1, -1, none, some (-1)⟩ = some 0 := by
  constructor
  · decide
  · intro w
    rw [pixel_size_coinciding w 2 ⟨-1, -1, none, some (-1)⟩ rfl]
    simp

/-! ## The toolkit of a figure -/

/-- C37 fails on the code: with no toolkit loaded, `set___graphics_toolkit__ ("unknown")`
raises no error, replaces the toolkit of the figure by the default `graphics_toolkit ()`,
which is not valid, and marks the figure modified. -/
theorem set_graphics_toolkit_unknown_accepted :
    gtk_manager.new.do_loaded_toolkits_list = [] ∧
    figure.properties.set___graphics_toolkit__ gtk_manager.new
        ⟨⟨⟨"gnuplot", 1, true⟩⟩, false⟩ (octave_value.string "unknown") Log.empty
      = (⟨graphics_toolkit.new, true⟩, Log.empty) ∧
    graphics_toolkit.new.to_bool = false := by
  decide

/-- On a manager reached from a new one and for a name other than that of the default
toolkit, `set___graphics_toolkit__` replaces the toolkit and marks the figure modified
when the name is loaded, and raises the error and leaves the figure as it is when it is
not. -/
theorem set_graphics_toolkit_other_names (ops : List gtk_op) (p : figure_properties)
    (nm : String) (log : Log) (hlog : log.error_state = false)
    (hnm : nm ≠ "unknown") :
    (nm ∈ (gtk_manager.new.run ops).do_loaded_toolkits_list →
      figure.properties.set___graphics_toolkit__ (gtk_manager.new.run ops) p
          (octave_value.string nm) log
        = (⟨(gtk_manager.new.run ops).do_find_toolkit nm, true⟩, log)) ∧
    (nm ∉ (gtk_manager.new.run ops).do_loaded_toolkits_list →
      figure.properties.set___graphics_toolkit__ (gtk_manager.new.run ops) p
          (octave_value.string nm) log
        = (p, log.error "set___graphics_toolkit__: invalid graphics toolkit")) := by
  have hwf := gtk_manager.run_wf ops
  generalize gtk_manager.new.run ops = m at hwf
  constructor
  · intro hmem
    obtain ⟨e, he, hen⟩ := List.mem_map.mp hmem
    have hf := std_map.find_of_mem e (string_less_strict_weak.irrefl e.1) _ hwf.1 he
    have hname := hwf.2 e he
    rw [hen] at hf
    have hfind : m.do_find_toolkit nm = e.2 := by simp [gtk_manager.do_find_toolkit, hf]
    have hn2 : (m.do_find_toolkit nm).get_name = nm := by rw [hfind, ← hname, hen]
    simp [figure.properties.set___graphics_toolkit__, hlog, octave_value.is_string,
      octave_value.string_value, hn2, figure.properties.mark_modified,
      figure.properties.set_toolkit]
  · intro hno
    have hfind : m.do_find_toolkit nm = graphics_toolkit.new := by
      cases hf : std_map.find string_less m.loaded_toolkits nm with
      | none => simp [gtk_manager.do_find_toolkit, hf]
      | some e =>
        have h1 := std_map.find_some_mem string_less nm e _ hf
        have h2 : e.1 = nm := string_less_total _ _ h1.2.1 h1.2.2
        exact absurd (List.mem_map.mpr ⟨e, h1.1, h2⟩) hno
    have hn2 : (m.do_find_toolkit nm).get_name ≠ nm := by
      rw [hfind]
      intro h
      exact hnm h.symm
    simp [figure.properties.set___graphics_toolkit__, hlog, octave_value.is_string,
      octave_value.string_value, hn2]

/-! ## `DiagArray2` -/

/-- The `numel ()` of a diagonal array is the product of its dimensions in the index
type. -/
theorem diag_numel_eq {α : Type} (w : Nat) (r c : Int) (val : α) :
    (DiagArray2.new_fill r c val).numel w = idx_mul w r c := rfl

/-- C40 fails as stated: the diagonal array constructed with 65536 rows and 65536 columns
stores 65536 elements, and with an index type of 32 bits the product of its dimensions
does not fit the type, so that `numel ()` is not that product and `isempty ()` has no
value; the same holds with 64 bits at 4294967296 rows and columns. -/
theorem diag_numel_overflows :
    (DiagArray2.new_fill 65536 65536 (0 : ℚ)).diag_length = 65536 ∧
    (DiagArray2.new_fill 65536 65536 (0 : ℚ)).numel 32 = none ∧
    (DiagArray2.new_fill 65536 65536 (0 : ℚ)).numel 32 ≠ some (65536 * 65536) ∧
    (DiagArray2.new_fill 65536 65536 (0 : ℚ)).isempty 32 = none ∧
    (DiagArray2.new_fill 4294967296 4294967296 (0 : ℚ)).numel 64 = none := by
  have h32 : idx_mul 32 65536 65536 = none := by norm_num [idx_mul]
  have h64 : idx_mul 64 4294967296 4294967296 = none := by norm_num [idx_mul]
  refine ⟨?_, ?_, ?_, ?_, ?_⟩
  · unfold DiagArray2.diag_length DiagArray2.new_fill
    simp only [List.length_replicate]
    rfl
  · rw [diag_numel_eq, h32]
  · rw [diag_numel_eq, h32]; simp
  · unfold DiagArray2.isempty
    rw [diag_numel_eq, h32]
    rfl
  · rw [diag_numel_eq, h64]

/-- C40 as amended: for a diagonal array constructed with `r ≥ 0` rows and `c ≥ 0`
columns, `rows ()` is `r`, `cols ()` is `c`, `diag_length ()` and `length ()` are
`min (r, c)`; when `r * c` fits the index type of `w` bits, `numel ()` is `r * c` and
`isempty ()` holds exactly when `r * c = 0`; when it does not fit, `numel ()` and
`isempty ()` have no value; the read-only `elem (i, j)` is zero when `i ≠ j`, the stored
diagonal element `i` when `i = j` and `0 ≤ i < min (r, c)`, and has no value when `i = j`
lies outside the diagonal. -/
theorem diag_array_dimensions {α : Type} [Zero α] (w : Nat) (r c : Int) (val : α)
    (fresh : Nat → α) (hr : 0 ≤ r) (hc : 0 ≤ c) :
    ((DiagArray2.new r c fresh).rows = r ∧ (DiagArray2.new_fill r c val).rows = r) ∧
    ((DiagArray2.new r c fresh).cols = c ∧ (DiagArray2.new_fill r c val).cols = c) ∧
    ((DiagArray2.new r c fresh).diag_length = min r c ∧
      (DiagArray2.new r c fresh).length = min r c ∧
      (DiagArray2.new_fill r c val).diag_length = min r c ∧
      (DiagArray2.new_fill r c val).length = min r c) ∧
    (r * c < 2 ^ (w - 1) →
      (DiagArray2.new r c fresh).numel w = some (r * c) ∧
      (DiagArray2.new_fill r c val).numel w = some (r * c) ∧
      (DiagArray2.new r c fresh).isempty w = some (decide (r * c = 0)) ∧
      (DiagArray2.new_fill r c val).isempty w = some (decide (r * c = 0))) ∧
    (2 ^ (w - 1) ≤ r * c →
      (DiagArray2.new r c fresh).numel w = none ∧
      (DiagArray2.new_fill r c val).numel w = none ∧
      (DiagArray2.new r c fresh).isempty w = none ∧
      (DiagArray2.new_fill r c val).isempty w = none) ∧
    (∀ i j : Int, i ≠ j →
      (DiagArray2.new r c fresh).elem i j = some 0 ∧
      (DiagArray2.new_fill r c val).elem i j = some 0) ∧
    (∀ i : Int, 0 ≤ i → i < min r c →
      (DiagArray2.new r c fresh).elem i i = some (fresh i.toNat) ∧
      (DiagArray2.new_fill r c val).elem i i = some val ∧
      (DiagArray2.new r c fresh).elem i i = (DiagArray2.new r c fresh).elems.get? i.toNat) ∧
    (∀ i : Int, i < 0 ∨ min r c ≤ i →
      (DiagArray2.new r c fresh).elem i i = none ∧
      (DiagArray2.new_fill r c val).elem i i = none) := by
  have hmin : 0 ≤ min r c := le_min hr hc
  have hlen : (((min r c).toNat : Nat) : Int) = min r c := Int.toNat_of_nonneg hmin
  have hprod : 0 ≤ r * c := mul_nonneg hr hc
  have hpos : (0 : Int) < 2 ^ (w - 1) := by positivity
  refine ⟨⟨rfl, rfl⟩, ⟨rfl, rfl⟩, ?_, ?_, ?_, ?_, ?_, ?_⟩
  · simp [DiagArray2.diag_length, DiagArray2.length, DiagArray2.new, DiagArray2.new_fill,
      hlen]
  · intro hfit
    have hmul : idx_mul w r c = some (r * c) := by
      unfold idx_mul
      rw [if_pos ⟨by linarith, hfit⟩]
    simp only [DiagArray2.isempty, DiagArray2.numel, DiagArray2.nelem, DiagArray2.dim1,
      DiagArray2.dim2, DiagArray2.new, DiagArray2.new_fill, hmul, Option.map_some']
    exact ⟨trivial, trivial, rfl, rfl⟩
  · intro hbig
    have hmul : idx_mul w r c = none := by
      unfold idx_mul
      rw [if_neg (fun h => absurd h.2 (not_lt.mpr hbig))]
    simp [DiagArray2.isempty, DiagArray2.numel, DiagArray2.nelem, DiagArray2.dim1,
      DiagArray2.dim2, DiagArray2.new, DiagArray2.new_fill, hmul]
  · intro i j hij
    simp [DiagArray2.elem, hij]
  · intro i hi hlt
    have hi2 : i.toNat < (min r c).toNat := by
      have := Int.toNat_of_nonneg hi
      omega
    simp [DiagArray2.elem, DiagArray2.new, DiagArray2.new_fill, hi, hi2,
      List.getElem?_replicate]
  · intro i hi
    rcases hi with hneg | hbig
    · have : ¬ 0 ≤ i := not_le.mpr hneg
      simp [DiagArray2.elem, this]
    · by_cases h0 : 0 ≤ i
      · have hi2 : (min r c).toNat ≤ i.toNat := by
          have := Int.toNat_of_nonneg h0
          omega
        simp [DiagArray2.elem, DiagArray2.new, DiagArray2.new_fill, h0,
          List.getElem?_eq_none, hi2]
      · simp [DiagArray2.elem, h0]

/-- C40 at the 3-by-5 diagonal array filled with 7, with an index type of 64 bits:
`numel ()` is 15 and the element in place (2, 2) is 7. -/
theorem diag_array_dimensions_witness :
    ((0 : Int) ≤ 3 ∧ (0 : Int) ≤ 5 ∧ (3 : Int) * 5 < 2 ^ (64 - 1)) ∧
    (DiagArray2.new_fill 3 5 (7 : ℚ)).numel 64 = some (3 * 5) ∧
    (DiagArray2.new_fill 3 5 (7 : ℚ)).elem 2 2 = some 7 :=
  ⟨⟨by decide, by decide, by decide⟩,
    ((diag_array_dimensions 64 3 5 (7 : ℚ) (fun _ => 0) (by decide)
      (by decide)).2.2.2.1 (by decide)).2.1,
    ((diag_array_dimensions 64 3 5 (7 : ℚ) (fun _ => 0) (by decide)
      (by decide)).2.2.2.2.2.2.1 2 (by decide) (by decide)).2.1⟩

/-! ## Position of a text object -/

/-- A matrix with two elements is resized to one row of three whose third element is
zero. -/
theorem position_value_two (m : Matrix) (h : m.numel = 2) :
    text.properties.position_value (octave_value.matrix m)
      = octave_value.matrix (m.resize_fill 1 3) ∧
    (m.resize_fill 1 3).rows = 1 ∧ (m.resize_fill 1 3).cols = 3 ∧
    (m.resize_fill 1 3).numel = 3 ∧ (m.resize_fill 1 3).xelem 2 = 0 := by
  refine ⟨by simp [text.properties.position_value, octave_value.numel, h,
    octave_value.resize], rfl, rfl, by simp [Matrix.resize_fill, Matrix.numel], ?_⟩
  have hlen : m.data.length = 2 := h
  by_cases hc : 2 < m.cols
  · by_cases hr : 0 < m.rows
    · have : 2 ≤ 2 * m.rows := by omega
      have hout : m.data.length ≤ 2 * m.rows := by omega
      simp [Matrix.resize_fill, Matrix.xelem, List.range_succ, hc, hr,
        List.getD_eq_getElem?_getD, List.getElem?_eq_none hout]
    · simp [Matrix.resize_fill, Matrix.xelem, List.range_succ, hr]
  · simp [Matrix.resize_fill, Matrix.xelem, List.range_succ, hc]

/-- The generated setter, called while no error is pending on a `positionmode` with the
options `auto` and `manual`, leaves the mode at manual and the position as it is. -/
theorem set_positionmode_manual (q : text_properties) (lg : Log)
    (hlg : lg.error_state = false)
    (hopts : q.positionmode.vals.possible_vals = ["auto", "manual"]) :
    (text.properties.set_positionmode "manual" q lg).1.positionmode.current_val = "manual" ∧
    (text.properties.set_positionmode "manual" q lg).1.position = q.position := by
  have hc : radio_values.contains q.positionmode.vals "manual" "" = (true, "manual") := by
    unfold radio_values.contains
    rw [hopts]
    decide
  have hle : (!lg.error_state) = true := by rw [hlg]; rfl
  unfold text.properties.set_positionmode
  simp only [hle, if_true, and_true]
  by_cases hcur : q.positionmode.current_val = "manual"
  · simp [radio_property.do_set, octave_value.is_string, octave_value.string_value,
      radio_values.validate, hc, hcur]
  · have hcur2 : ¬ "manual" = q.positionmode.current_val := fun h => hcur h.symm
    simp [radio_property.do_set, octave_value.is_string, octave_value.string_value,
      radio_values.validate, hc, hcur2]

/-- The hooks with the generated setter do what `text_hooks.respects` says, and the
setter is guarded. -/
theorem generated_hooks_respects :
    text.properties.generated_hooks.respects ∧ text.properties.generated_hooks.guarded := by
  refine ⟨⟨?_, ?_, fun _ _ => rfl, fun _ _ => rfl, fun _ _ => rfl⟩, ?_⟩
  · intro q lg hlg hopts
    exact (set_positionmode_manual q lg hlg hopts).1
  · intro q lg
    show (text.properties.set_positionmode "manual" q lg).1.position = q.position
    unfold text.properties.set_positionmode
    split_ifs <;> rfl
  · intro v q lg hlg
    show text.properties.set_positionmode v q lg = (q, lg)
    simp [text.properties.set_positionmode, hlg]

/-- After `position.set` with an error pending that was not pending before, the value
was rejected: the result is false and the property is the one before. -/
theorem array_set_rejected (p : array_property) (v : octave_value) (log : Log)
    (hlog : log.error_state = false)
    (herr : (array_property.set array_property.do_set p v log).2.2.error_state = true) :
    (array_property.set array_property.do_set p v log).1 = false ∧
    (array_property.set array_property.do_set p v log).2.1 = p := by
  have hempty : log.errors = [] := by
    simpa [Log.error_state] using hlog
  unfold array_property.set array_property.do_set at herr ⊢
  by_cases hv : p.validate v = true
  · exfalso
    by_cases he : p.is_equal v = true
    · simp [hv, he, Log.append, Log.empty, Log.error_state, hempty] at herr
    · simp [hv, he, Log.append, Log.empty, Log.error_state, hempty] at herr
  · simp [hv]

/-- C39 fails for a value that is rejected: on a new text object, whose mode is `auto`,
with the generated setter of `positionmode`, `set_position` of a text raises the error of
`position.set`, and `set_positionmode ("manual")`, called with that error pending, leaves
the mode at `auto`. -/
theorem set_position_rejected_keeps_auto :
    Log.empty.error_state = false ∧
    (text.properties.set_position text.properties.generated_hooks text_properties.new
      (octave_value.string "x") Log.empty).1.positionmode.current_val = "auto" ∧
    (text.properties.set_position text.properties.generated_hooks text_properties.new
      (octave_value.string "x") Log.empty).2.errors
        = ["invalid value for array property \"position\""] ∧
    (text.properties.set_position text.properties.generated_hooks text_properties.new
      (octave_value.matrix ⟨1, 4, [1, 2, 3, 4]⟩) Log.empty).1.positionmode.current_val
        = "auto" := by
  refine ⟨rfl, ?_, ?_, ?_⟩ <;> decide

/-- C39 as amended: for a text object with no pending error, whose `positionmode` has the
options `auto` and `manual` and whose generated setter and hooks do what
`text_hooks.respects` says, `set_position (v)` leaves `positionmode` at manual whenever
`position.set` raises no error, whether it reports a change or not; when `position.set`
raises an error and the setter is guarded, `positionmode` and `position` are left as
they were; the stored position is the one that `position.set` leaves; a row `a, b` is
handed on as `a, b, 0`, a column `a, b` as `a, 0, 0`, every matrix of two elements as
one row of three whose third element is 0, and a position that accepts the row `a, b, 0`
holds it after `set_position` of the row `a, b`. -/
theorem set_position_manual (hooks : text_hooks) (p : text_properties) (val : octave_value)
    (log : Log) (hh : hooks.respects) (hlog : log.error_state = false)
    (hopts : p.positionmode.vals.possible_vals = ["auto", "manual"]) :
    ((array_property.set array_property.do_set p.position
        (text.properties.position_value val) log).2.2.error_state = false →
      (text.properties.set_position hooks p val log).1.positionmode.current_val
        = "manual") ∧
    (hooks.guarded →
      (array_property.set array_property.do_set p.position
        (text.properties.position_value val) log).2.2.error_state = true →
      (text.properties.set_position hooks p val log).1 = p) ∧
    (text.properties.set_position hooks p val log).1.position =
      (array_property.set array_property.do_set p.position
        (text.properties.position_value val) log).2.1 ∧
    (∀ a b, text.properties.position_value (octave_value.matrix ⟨1, 2, [a, b]⟩)
      = octave_value.matrix ⟨1, 3, [a, b, 0]⟩) ∧
    (∀ a b, text.properties.position_value (octave_value.matrix ⟨2, 1, [a, b]⟩)
      = octave_value.matrix ⟨1, 3, [a, 0, 0]⟩) ∧
    (∀ m : Matrix, m.numel = 2 →
      text.properties.position_value (octave_value.matrix m)
        = octave_value.matrix (m.resize_fill 1 3) ∧
      (m.resize_fill 1 3).rows = 1 ∧ (m.resize_fill 1 3).cols = 3 ∧
      (m.resize_fill 1 3).numel = 3 ∧ (m.resize_fill 1 3).xelem 2 = 0) ∧
    (∀ a b, p.position.validate (octave_value.matrix ⟨1, 3, [a, b, 0]⟩) = true →
      (text.properties.set_position hooks p (octave_value.matrix ⟨1, 2, [a, b]⟩)
        log).1.position.data = ⟨1, 3, [a, b, 0]⟩) := by
  obtain ⟨hmode, hpos, hupd, hrun, hmark⟩ := hh
  have hle : (!log.error_state) = true := by rw [hlog]; rfl
  have hposition : ∀ v : octave_value,
      (text.properties.set_position hooks p v log).1.position =
        (array_property.set array_property.do_set p.position
          (text.properties.position_value v) log).2.1 := by
    intro v
    simp only [text.properties.set_position, hle, if_true]
    cases hr : (array_property.set array_property.do_set p.position
        (text.properties.position_value v) log).1 with
    | true => simp only [if_true, hmark, hrun, hupd, hpos]
    | false => simp only [Bool.false_eq_true, if_false, hpos]
  have hrow : ∀ a b : ℚ,
      text.properties.position_value (octave_value.matrix ⟨1, 2, [a, b]⟩)
        = octave_value.matrix ⟨1, 3, [a, b, 0]⟩ := by
    intro a b
    simp [text.properties.position_value, octave_value.numel, Matrix.numel,
      octave_value.resize, Matrix.resize_fill, Matrix.xelem, List.range_succ]
  refine ⟨?_, ?_, hposition val, hrow, ?_, position_value_two, ?_⟩
  · intro hok
    simp only [text.properties.set_position, hle, if_true]
    cases hr : (array_property.set array_property.do_set p.position
        (text.properties.position_value val) log).1 with
    | true =>
      simp only [if_true, hmark, hrun, hupd]
      exact hmode _ _ hok hopts
    | false =>
      simp only [Bool.false_eq_true, if_false]
      exact hmode _ _ hok hopts
  · intro hg herr
    obtain ⟨h1, h2⟩ := array_set_rejected p.position _ log hlog herr
    simp only [text.properties.set_position, hle, if_true, h1, Bool.false_eq_true, if_false,
      h2]
    rw [hg "manual" _ _ herr]
  · intro a b
    simp [text.properties.position_value, octave_value.numel, Matrix.numel,
      octave_value.resize, Matrix.resize_fill, Matrix.xelem, List.range_succ]
  · intro a b hacc
    rw [hposition, hrow]
    simp only [array_property.set, array_property.do_set, hacc, if_true]
    cases heq : p.position.is_equal (octave_value.matrix ⟨1, 3, [a, b, 0]⟩) with
    | false =>
      simp [array_property.get_data_limits, octave_value.array_value,
        octave_value.matrix_value]
    | true =>
      simp only [Bool.not_true, Bool.false_eq_true, if_false]
      simpa [array_property.is_equal] using heq

/-- C39 at a new text object with the generated setter: `set_position` of the row `4, 5`
raises no error and leaves the mode at manual. -/
theorem set_position_manual_witness :
    Log.empty.error_state = false ∧
    text_properties.new.positionmode.vals.possible_vals = ["auto", "manual"] ∧
    (array_property.set array_property.do_set text_properties.new.position
      (text.properties.position_value (octave_value.matrix ⟨1, 2, [4, 5]⟩))
      Log.empty).2.2.error_state = false ∧
    (text.properties.set_position text.properties.generated_hooks text_properties.new
      (octave_value.matrix ⟨1, 2, [4, 5]⟩) Log.empty).1.positionmode.current_val
      = "manual" :=
  ⟨rfl, rfl, by decide,
    (set_position_manual text.properties.generated_hooks text_properties.new
      (octave_value.matrix ⟨1, 2, [4, 5]⟩) Log.empty generated_hooks_respects.1 rfl rfl).1
      (by decide)⟩

/-! ## Allocation and reuse of handles -/

/-- The comparison of handles is transitive. -/
theorem graphics_handle.lt_trans (a b c : graphics_handle)
    (h1 : graphics_handle.lt a b = true) (h2 : graphics_handle.lt b c = true) :
    graphics_handle.lt a c = true := by
  obtain ⟨x⟩ := a
  obtain ⟨y⟩ := b
  obtain ⟨z⟩ := c
  cases x <;> cases y <;> cases z <;>
    simp_all [graphics_handle.lt, graphics_handle.value]
  exact h1.trans h2

/-- A handle that is less than another is a different handle. -/
theorem graphics_handle.ne_of_lt (a b : graphics_handle)
    (h : graphics_handle.lt a b = true) : a ≠ b := by
  intro he
  rw [he, graphics_handle.lt_irrefl] at h
  cases h

/-- Inserting into a sorted set keeps it sorted when the comparison is transitive. -/
theorem std_set.insert_sorted_trans {κ : Type} {lt : κ → κ → Bool}
    (htrans : ∀ a b c, lt a b = true → lt b c = true → lt a c = true) (key : κ) :
    ∀ l : List κ, List.Pairwise (fun a b => lt a b = true) l →
      List.Pairwise (fun a b => lt a b = true) (std_set.insert lt l key) := by
  intro l
  induction l with
  | nil => intro _; simp [std_set.insert]
  | cons k rest ih =>
    intro hs
    have hs2 := List.pairwise_cons.mp hs
    cases hk : lt k key with
    | true =>
      simp only [std_set.insert, hk, if_true]
      refine List.pairwise_cons.mpr ⟨?_, ih hs2.2⟩
      intro n hn
      rcases std_set.mem_insert_imp lt key n rest hn with h1 | h1
      · rw [h1]; exact hk
      · exact hs2.1 n h1
    | false =>
      cases hkk : lt key k with
      | true =>
        simp only [std_set.insert, hk, hkk, if_true, Bool.false_eq_true, if_false]
        refine List.pairwise_cons.mpr ⟨?_, hs⟩
        intro n hn
        rcases List.mem_cons.mp hn with h1 | h1
        · rw [h1]; exact hkk
        · exact htrans key k n hkk (hs2.1 n h1)
      | false =>
        simp only [std_set.insert, hk, hkk, Bool.false_eq_true, if_false]
        exact hs

/-- After `erase (key)` a sorted set does not hold `key`. -/
theorem std_set.not_mem_erase {κ : Type} {lt : κ → κ → Bool}
    (hirr : ∀ a, lt a a = false) (key : κ) :
    ∀ l : List κ, List.Pairwise (fun a b => lt a b = true) l →
      key ∉ std_set.erase lt l key := by
  intro l
  induction l with
  | nil => intro _ h; cases h
  | cons k rest ih =>
    intro hs hmem
    have hs2 := List.pairwise_cons.mp hs
    cases hk : lt k key with
    | true =>
      simp only [std_set.erase, hk, if_true] at hmem
      rcases List.mem_cons.mp hmem with h1 | h1
      · rw [← h1, hirr key] at hk; cases hk
      · exact ih hs2.2 h1
    | false =>
      cases hkk : lt key k with
      | true =>
        simp only [std_set.erase, hk, hkk, if_true, Bool.false_eq_true, if_false] at hmem
        rcases List.mem_cons.mp hmem with h1 | h1
        · rw [← h1, hirr key] at hkk; cases hkk
        · have := hs2.1 key h1
          rw [hk] at this; cases this
      | false =>
        simp only [std_set.erase, hk, hkk, Bool.false_eq_true, if_false] at hmem
        have := hs2.1 key hmem
        rw [hk] at this; cases this

/-- After `insert (key)` a set holds `key`, when every element equivalent to `key` is
`key` itself. -/
theorem std_set.mem_insert_self {κ : Type} (lt : κ → κ → Bool) (key : κ) :
    ∀ l : List κ, (∀ k ∈ l, lt k key = false → lt key k = false → k = key) →
      key ∈ std_set.insert lt l key := by
  intro l
  induction l with
  | nil => intro _; simp [std_set.insert]
  | cons k rest ih =>
    intro heq
    cases hk : lt k key with
    | true =>
      simp only [std_set.insert, hk, if_true]
      exact List.mem_cons_of_mem _ (ih (fun x hx => heq x (List.mem_cons_of_mem _ hx)))
    | false =>
      cases hkk : lt key k with
      | true => simp [std_set.insert, hk, hkk]
      | false =>
        simp only [std_set.insert, hk, hkk, Bool.false_eq_true, if_false]
        rw [heq k (List.mem_cons_self _ _) hk hkk]
        exact List.mem_cons_self _ _

/-- What `do_get_handle` returns is a number that is neither a key of the map nor left in
the free set and lies beyond the counter, and the handle table stays well formed. -/
theorem gh_manager.get_handle_inv (advance : ℚ → ℚ) (hadv : ∀ x, advance x < x)
    (g : gh_manager) (hinv : g.handles_inv) :
    (gh_manager.do_get_handle advance g).1.ok = true ∧
    (gh_manager.do_get_handle advance g).1 ∉ (gh_manager.do_get_handle advance g).2.keys ∧
    (gh_manager.do_get_handle advance g).1 ∉
      (gh_manager.do_get_handle advance g).2.handle_free_list ∧
    graphics_handle.lt ⟨some (gh_manager.do_get_handle advance g).2.next_handle⟩
      (gh_manager.do_get_handle advance g).1 = true ∧
    (gh_manager.do_get_handle advance g).2.handles_inv ∧
    (gh_manager.do_get_handle advance g).2.handle_map = g.handle_map := by
  obtain ⟨h1, h2, h3, h4, h5, h6, h7⟩ := hinv
  obtain ⟨hm, fl, nh, figs, ep, eq⟩ := g
  simp only [gh_manager.keys] at h3 h5 h6
  simp only at h1 h2 h4 h7
  cases fl with
  | cons h rest =>
    have hs2 := List.pairwise_cons.mp h2
    refine ⟨h4 h (List.mem_cons_self _ _), ?_, ?_, h7 h (List.mem_cons_self _ _), ?_, rfl⟩
    · intro hk
      exact h5 h hk (List.mem_cons_self _ _)
    · intro hk
      exact graphics_handle.ne_of_lt h h (hs2.1 h hk) rfl
    · exact ⟨h1, hs2.2, h3, fun f hf => h4 f (List.mem_cons_of_mem _ hf),
        fun k hk hf => h5 k hk (List.mem_cons_of_mem _ hf), h6,
        fun f hf => h7 f (List.mem_cons_of_mem _ hf)⟩
  | nil =>
    have hstep : graphics_handle.lt ⟨some (advance nh)⟩ ⟨some nh⟩ = true := by
      simp [graphics_handle.lt, graphics_handle.value, hadv nh]
    refine ⟨rfl, ?_, ?_, hstep, ?_, rfl⟩
    · intro hk
      exact graphics_handle.ne_of_lt _ _ (h6 _ hk) rfl
    · intro hk
      cases hk
    · exact ⟨h1, List.Pairwise.nil, h3, fun f hf => absurd hf (List.not_mem_nil f),
        fun k _ hf => absurd hf (List.not_mem_nil k),
        fun k hk => graphics_handle.lt_trans _ _ _ hstep (h6 k hk),
        fun f hf => absurd hf (List.not_mem_nil f)⟩

/-- A manager with one more entry in its handle map, under a handle that is a number,
neither a key nor free and beyond the counter, stays well formed. -/
theorem gh_manager.assign_inv (g : gh_manager) (h : graphics_handle) (go : graphics_object)
    (hinv : g.handles_inv) (hok : h.ok = true) (hnf : h ∉ g.handle_free_list)
    (hlt : graphics_handle.lt ⟨some g.next_handle⟩ h = true) :
    gh_manager.handles_inv
      { g with handle_map := std_map.assign graphics_handle.lt g.handle_map h go } := by
  obtain ⟨h1, h2, h3, h4, h5, h6, h7⟩ := hinv
  have hkeys : ∀ k, k ∈ (std_map.assign graphics_handle.lt g.handle_map h go).map
      (fun e => e.1) → k = h ∨ k ∈ g.keys := by
    intro k hk
    rw [std_map.assign_keys] at hk
    exact std_set.mem_insert_imp _ _ _ _ hk
  refine ⟨?_, h2, ?_, h4, ?_, ?_, h7⟩
  · rw [std_map.sorted_iff_keys, std_map.assign_keys]
    exact std_set.insert_sorted_trans graphics_handle.lt_trans h _
      ((std_map.sorted_iff_keys _ _).mp h1)
  · intro k hk
    rcases hkeys k hk with h8 | h8
    · rw [h8]; exact hok
    · exact h3 k h8
  · intro k hk
    rcases hkeys k hk with h8 | h8
    · rw [h8]; exact hnf
    · exact h5 k h8
  · intro k hk
    rcases hkeys k hk with h8 | h8
    · rw [h8]; exact hlt
    · exact h6 k h8

/-- Making a handle keeps the handle table well formed. -/
theorem gh_manager.make_inv (advance : ℚ → ℚ) (hadv : ∀ x, advance x < x)
    (g : gh_manager) (go : graphics_object) (hinv : g.handles_inv) :
    (gh_manager.do_make_graphics_handle advance g go).2.handles_inv := by
  obtain ⟨hok, _, hnf, hlt, hinv2, _⟩ := gh_manager.get_handle_inv advance hadv g hinv
  exact gh_manager.assign_inv _ _ go hinv2 hok hnf hlt

/-- Freeing a handle that is a key of the map moves it from the keys to the free set. -/
theorem gh_manager.free_key (g : gh_manager) (h : graphics_handle) (hinv : g.handles_inv)
    (hkey : h ∈ g.keys) :
    g.do_free h =
      { g with handle_map := std_map.erase graphics_handle.lt g.handle_map h,
               handle_free_list := std_set.insert graphics_handle.lt g.handle_free_list h } ∧
    h ∉ (g.do_free h).keys ∧ h ∈ (g.do_free h).handle_free_list := by
  obtain ⟨h1, h2, h3, h4, h5, h6, h7⟩ := hinv
  have hok : h.ok = true := h3 h hkey
  obtain ⟨e, he, hen⟩ := List.mem_map.mp hkey
  have hfind : std_map.find graphics_handle.lt g.handle_map h = some e := by
    have := std_map.find_of_mem e (graphics_handle.lt_irrefl e.1) _ h1 he
    rw [hen] at this
    exact this
  have heq : g.do_free h =
      { g with handle_map := std_map.erase graphics_handle.lt g.handle_map h,
               handle_free_list :=
                 std_set.insert graphics_handle.lt g.handle_free_list h } := by
    simp [gh_manager.do_free, hok, hfind]
  refine ⟨heq, ?_, ?_⟩
  · rw [heq]
    simp only [gh_manager.keys, std_map.erase_keys]
    exact std_set.not_mem_erase graphics_handle.lt_irrefl h _
      ((std_map.sorted_iff_keys _ _).mp h1)
  · rw [heq]
    apply std_set.mem_insert_self
    intro k hk hk1 hk2
    exact graphics_handle.eq_of_not_lt k h (h4 k hk) hok hk1 hk2

/-- Freeing a handle keeps the handle table well formed. -/
theorem gh_manager.free_inv (g : gh_manager) (h : graphics_handle) (hinv : g.handles_inv) :
    (g.do_free h).handles_inv := by
  by_cases hkey : h ∈ g.keys
  · obtain ⟨heq, hnk, _⟩ := gh_manager.free_key g h hinv hkey
    obtain ⟨h1, h2, h3, h4, h5, h6, h7⟩ := hinv
    have hok : h.ok = true := h3 h hkey
    have hsub : ∀ k, k ∈ (std_map.erase graphics_handle.lt g.handle_map h).map
        (fun e => e.1) → k ∈ g.keys := by
      intro k hk
      rw [std_map.erase_keys] at hk
      exact (std_set.erase_sublist _ _ _).subset hk
    have hfree : ∀ f, f ∈ std_set.insert graphics_handle.lt g.handle_free_list h →
        f = h ∨ f ∈ g.handle_free_list := fun f hf => std_set.mem_insert_imp _ _ _ _ hf
    rw [heq] at hnk ⊢
    refine ⟨std_map.erase_sorted _ _ _ h1,
      std_set.insert_sorted_trans graphics_handle.lt_trans h _ h2,
      fun k hk => h3 k (hsub k hk), ?_, ?_, fun k hk => h6 k (hsub k hk), ?_⟩
    · intro f hf
      rcases hfree f hf with h8 | h8
      · rw [h8]; exact hok
      · exact h4 f h8
    · intro k hk hf
      rcases hfree k hf with h8 | h8
      · rw [h8] at hk; exact hnk hk
      · exact h5 k (hsub k hk) h8
    · intro f hf
      rcases hfree f hf with h8 | h8
      · rw [h8]; exact h6 h hkey
      · exact h7 f h8
  · have hsame : g.do_free h = g := by
      unfold gh_manager.do_free
      cases hok : h.ok with
      | false => simp
      | true =>
        cases hf : std_map.find graphics_handle.lt g.handle_map h with
        | none => simp
        | some e =>
          have h1 := std_map.find_some_mem graphics_handle.lt h e _ hf
          have h2 : e.1 = h := graphics_handle.eq_of_not_lt e.1 h
            (hinv.2.2.1 e.1 (List.mem_map.mpr ⟨e, h1.1, rfl⟩)) hok h1.2.1 h1.2.2
          exact absurd (List.mem_map.mpr ⟨e, h1.1, h2⟩) hkey
    rw [hsame]
    exact hinv

/-- Every sequence of calls keeps a well formed handle table well formed. -/
theorem gh_manager.handle_run_inv (advance : ℚ → ℚ) (hadv : ∀ x, advance x < x) :
    ∀ (ops : List handle_op) (g : gh_manager), g.handles_inv →
      (g.handle_run advance ops).handles_inv := by
  intro ops
  induction ops with
  | nil => intro g h; exact h
  | cons op rest ih =>
    intro g h
    apply ih
    cases op with
    | make go => exact gh_manager.make_inv advance hadv g go h
    | free hh => exact gh_manager.free_inv g hh h

/-- C32: on every handle table reached from an empty one by making and freeing handles,
with a counter that `advance` moves strictly on: when the free set is not empty,
`do_get_handle` returns its smallest member, takes it out of the free set and leaves the
counter as it is; when the free set is empty it returns the counter and advances it; the
handle returned is then neither a key of the map nor in the free set; no handle is both a
key of the map and in the free set; and freeing a key takes it out of the map and puts it
into the free set, so that the next `do_get_handle` returns the smallest freed handle,
which is that handle or a smaller one. -/
theorem handle_reuse (advance : ℚ → ℚ) (n0 : ℚ) (ops : List handle_op)
    (hadv : ∀ x, advance x < x) :
    (∀ h rest, ((gh_manager.fresh n0).handle_run advance ops).handle_free_list = h :: rest →
      gh_manager.do_get_handle advance ((gh_manager.fresh n0).handle_run advance ops) =
          (h, { (gh_manager.fresh n0).handle_run advance ops with
                handle_free_list := rest }) ∧
        (∀ f ∈ rest, graphics_handle.lt h f = true)) ∧
    (((gh_manager.fresh n0).handle_run advance ops).handle_free_list = [] →
      gh_manager.do_get_handle advance ((gh_manager.fresh n0).handle_run advance ops) =
        (⟨some ((gh_manager.fresh n0).handle_run advance ops).next_handle⟩,
          { (gh_manager.fresh n0).handle_run advance ops with
            next_handle :=
              advance ((gh_manager.fresh n0).handle_run advance ops).next_handle })) ∧
    ((gh_manager.do_get_handle advance
        ((gh_manager.fresh n0).handle_run advance ops)).1 ∉
        (gh_manager.do_get_handle advance
          ((gh_manager.fresh n0).handle_run advance ops)).2.keys ∧
      (gh_manager.do_get_handle advance
        ((gh_manager.fresh n0).handle_run advance ops)).1 ∉
        (gh_manager.do_get_handle advance
          ((gh_manager.fresh n0).handle_run advance ops)).2.handle_free_list) ∧
    (∀ h, ¬ (h ∈ ((gh_manager.fresh n0).handle_run advance ops).keys ∧
      h ∈ ((gh_manager.fresh n0).handle_run advance ops).handle_free_list)) ∧
    (∀ h ∈ ((gh_manager.fresh n0).handle_run advance ops).keys,
      h ∉ (((gh_manager.fresh n0).handle_run advance ops).do_free h).keys ∧
      h ∈ (((gh_manager.fresh n0).handle_run advance ops).do_free h).handle_free_list ∧
      ((gh_manager.do_get_handle advance
          (((gh_manager.fresh n0).handle_run advance ops).do_free h)).1 = h ∨
        graphics_handle.lt (gh_manager.do_get_handle advance
          (((gh_manager.fresh n0).handle_run advance ops).do_free h)).1 h = true) ∧
      (gh_manager.do_get_handle advance
          (((gh_manager.fresh n0).handle_run advance ops).do_free h)).2.next_handle
        = ((gh_manager.fresh n0).handle_run advance ops).next_handle) := by
  have hinv : ((gh_manager.fresh n0).handle_run advance ops).handles_inv := by
    apply gh_manager.handle_run_inv advance hadv
    exact ⟨List.Pairwise.nil, List.Pairwise.nil,
      fun k hk => absurd hk (List.not_mem_nil k),
      fun f hf => absurd hf (List.not_mem_nil f),
      fun k hk => absurd hk (List.not_mem_nil k),
      fun k hk => absurd hk (List.not_mem_nil k),
      fun f hf => absurd hf (List.not_mem_nil f)⟩
  generalize (gh_manager.fresh n0).handle_run advance ops = g at hinv
  have hget := gh_manager.get_handle_inv advance hadv g hinv
  refine ⟨?_, ?_, ⟨hget.2.1, hget.2.2.1⟩, ?_, ?_⟩
  · intro h rest hfl
    have hs := hinv.2.1
    rw [hfl] at hs
    refine ⟨by simp [gh_manager.do_get_handle, hfl], (List.pairwise_cons.mp hs).1⟩
  · intro hfl
    simp [gh_manager.do_get_handle, hfl]
  · rintro h ⟨hk, hf⟩
    exact hinv.2.2.2.2.1 h hk hf
  · intro h hkey
    obtain ⟨heq, hnk, hmem⟩ := gh_manager.free_key g h hinv hkey
    have hinv2 := gh_manager.free_inv g h hinv
    refine ⟨hnk, hmem, ?_, ?_⟩
    · cases hfl : (g.do_free h).handle_free_list with
      | nil => rw [hfl] at hmem; cases hmem
      | cons h2 rest =>
        have hs := hinv2.2.1
        rw [hfl] at hs hmem
        have hr : (gh_manager.do_get_handle advance (g.do_free h)).1 = h2 := by
          simp [gh_manager.do_get_handle, hfl]
        rw [hr]
        rcases List.mem_cons.mp hmem with h8 | h8
        · exact Or.inl h8.symm
        · exact Or.inr ((List.pairwise_cons.mp hs).1 h h8)
    · cases hfl : (g.do_free h).handle_free_list with
      | nil => rw [hfl] at hmem; cases hmem
      | cons h2 rest =>
        simp only [gh_manager.do_get_handle, hfl]
        rw [heq]

/-- C32 at a counter that steps down by one from -1: after two handles are made and the
first, -1, is freed, the next handle is -1 again and the counter stays at -3. -/
theorem handle_reuse_witness :
    (∀ x : ℚ, x - 1 < x) ∧
    gh_manager.do_get_handle (fun x => x - 1)
      ((gh_manager.fresh (-1)).handle_run (fun x => x - 1)
        [handle_op.make graphics_object.new, handle_op.make graphics_object.new,
          handle_op.free ⟨some (-1)⟩]) =
      (⟨some (-1)⟩,
        { (gh_manager.fresh (-1)).handle_run (fun x => x - 1)
            [handle_op.make graphics_object.new, handle_op.make graphics_object.new,
              handle_op.free ⟨some (-1)⟩] with handle_free_list := [] }) :=
  ⟨fun x => sub_one_lt x,
    ((handle_reuse (fun x => x - 1) (-1)
      [handle_op.make graphics_object.new, handle_op.make graphics_object.new,
        handle_op.free ⟨some (-1)⟩] (fun x => sub_one_lt x)).1 ⟨some (-1)⟩ []
      (by
        simp [gh_manager.handle_run, gh_manager.handle_step, gh_manager.fresh,
          gh_manager.do_make_graphics_handle, gh_manager.do_get_handle, gh_manager.do_free,
          std_map.assign, std_map.find, std_map.erase, std_set.insert, graphics_handle.lt,
          graphics_handle.value, graphics_handle.ok])).1⟩

/-! ## The event queue -/

/-- With a manager in place, a static entry point is the method behind it. -/
theorem gh_manager.with_instance_some (created : Option gh_manager) (g : gh_manager)
    (log : Log) (member : gh_manager → Log → gh_result × gh_manager × Log)
    (otherwise : gh_result) :
    gh_manager.with_instance created (some g) log member otherwise =
      ((member g log).1, some (member g log).2.1, (member g log).2.2) := by
  simp [gh_manager.with_instance, gh_manager.instance_ok]

/-- A request posted with a manager in place adds its event at the end of the queue. -/
theorem gh_manager.post_appends (ms : gh_members)
    (execute : graphics_event → gh_manager → Log → gh_manager × Log) (suppressed : Bool)
    (fuel : Nat) (created : Option gh_manager) (g : gh_manager) (log : Log)
    (r : post_request) :
    gh_manager.post (gh_manager.event_members ms execute suppressed fuel) created (some g)
        log r =
      (gh_result.void, some { g with event_queue := g.event_queue ++ [r.event] }, log) := by
  cases r <;>
    simp [gh_manager.post, gh_manager.post_callback, gh_manager.post_function,
      gh_manager.post_set, gh_manager.with_instance_some, gh_manager.event_members,
      gh_manager.do_post_callback, gh_manager.do_post_function, gh_manager.do_post_set,
      post_request.event]

/-- Requests posted one after the other add their events at the end of the queue, in the
order of the calls. -/
theorem gh_manager.post_all_appends (ms : gh_members)
    (execute : graphics_event → gh_manager → Log → gh_manager × Log) (suppressed : Bool)
    (fuel : Nat) (created : Option gh_manager) (log : Log) :
    ∀ (reqs : List post_request) (g : gh_manager),
      gh_manager.post_all (gh_manager.event_members ms execute suppressed fuel) created reqs
          (some g) log =
        (some { g with event_queue := g.event_queue ++ reqs.map post_request.event }, log) := by
  intro reqs
  induction reqs with
  | nil => intro g; simp [gh_manager.post_all]
  | cons r rest ih =>
    intro g
    simp only [gh_manager.post_all, gh_manager.post_appends, ih, List.map_cons,
      List.append_assoc, List.singleton_append]

/-- When executing an event neither reads nor writes the queue, a drain with as many
rounds as events are queued leaves the state that executing the queued events one after
the other, each once, leaves, with an empty queue. -/
theorem gh_manager.process_loop_drains
    (execute : graphics_event → gh_manager → Log → gh_manager × Log)
    (hexec : ∀ e g lg q, execute e { g with event_queue := q } lg =
      ({ (execute e g lg).1 with event_queue := q }, (execute e g lg).2)) :
    ∀ (q : List graphics_event) (fuel : Nat) (g : gh_manager) (log : Log),
      g.event_queue = q → q.length ≤ fuel →
      gh_manager.process_loop execute fuel g log =
        graphics_event.execute_all execute q ({ g with event_queue := [] }, log) := by
  intro q
  induction q with
  | nil =>
    intro fuel g log hq _
    have hg : ({ g with event_queue := [] } : gh_manager) = g := by
      cases g; simp only at hq; simp [hq]
    cases fuel with
    | zero => simp [gh_manager.process_loop, graphics_event.execute_all, hg]
    | succ f => simp [gh_manager.process_loop, graphics_event.execute_all, hg, hq]
  | cons e rest ih =>
    intro fuel g log hq hlen
    cases fuel with
    | zero => simp at hlen
    | succ f =>
      have h1 := hexec e g log rest
      have h2 := hexec e g log []
      simp only [gh_manager.process_loop, hq]
      rw [ih f _ _ (by rw [h1]) (by simpa using hlen)]
      simp only [graphics_event.execute_all, List.foldl_cons]
      rw [h1, h2]

/-- Executing events that neither read nor write the queue leaves the queue as it is. -/
theorem graphics_event.execute_all_queue
    (execute : graphics_event → gh_manager → Log → gh_manager × Log)
    (hexec : ∀ e g lg q, execute e { g with event_queue := q } lg =
      ({ (execute e g lg).1 with event_queue := q }, (execute e g lg).2)) :
    ∀ (events : List graphics_event) (s : gh_manager × Log),
      (graphics_event.execute_all execute events s).1.event_queue = s.1.event_queue := by
  intro events
  induction events with
  | nil => intro s; rfl
  | cons e rest ih =>
    intro s
    simp only [graphics_event.execute_all, List.foldl_cons]
    have h := ih (execute e s.1 s.2)
    simp only [graphics_event.execute_all] at h
    rw [h]
    have h1 := hexec e s.1 s.2 s.1.event_queue
    have hs : ({ s.1 with event_queue := s.1.event_queue } : gh_manager) = s.1 := rfl
    rw [hs] at h1
    rw [h1]

/-- C33: with the members of the event queue as the spec has them and a manager in place,
`post_callback`, `post_function` and `post_set` add their event at the end of the event
queue and leave the events queued before in place, so that requests posted one after
the other are queued in the order of the calls; when executing an event neither reads
nor writes the queue, `flush_events` with as many rounds as events are queued leaves the
state that executing the queued events one after the other, in the order in which they
were posted, each once, leaves, and the queue is empty; `process_events` does the same
unless background processing is suppressed, and then leaves every event queued. -/
theorem event_queue_fifo (ms : gh_members) (created : Option gh_manager) (g : gh_manager)
    (log : Log) (execute : graphics_event → gh_manager → Log → gh_manager × Log)
    (suppressed : Bool) (fuel : Nat) (h : graphics_handle) (name : String)
    (data value : octave_value) (notify_toolkit : Bool) (fcn fdata : Nat)
    (reqs : List post_request) :
    gh_manager.post_callback (gh_manager.event_members ms execute suppressed fuel) created
        (some g) log h name data =
      (gh_result.void,
        some { g with event_queue :=
          g.event_queue ++ [graphics_event.callback_event h name data] }, log) ∧
    gh_manager.post_function (gh_manager.event_members ms execute suppressed fuel) created
        (some g) log fcn fdata =
      (gh_result.void,
        some { g with event_queue :=
          g.event_queue ++ [graphics_event.function_event fcn fdata] }, log) ∧
    gh_manager.post_set (gh_manager.event_members ms execute suppressed fuel) created
        (some g) log h name value notify_toolkit =
      (gh_result.void,
        some { g with event_queue :=
          g.event_queue ++ [graphics_event.set_event h name value notify_toolkit] },
        log) ∧
    gh_manager.post_all (gh_manager.event_members ms execute suppressed fuel) created reqs
        (some g) log =
      (some { g with event_queue := g.event_queue ++ reqs.map post_request.event }, log) ∧
    ((∀ e g2 lg q, execute e { g2 with event_queue := q } lg =
        ({ (execute e g2 lg).1 with event_queue := q }, (execute e g2 lg).2)) →
      g.event_queue.length ≤ fuel →
      gh_manager.flush_events (gh_manager.event_members ms execute suppressed fuel) created
          (some g) log =
        (gh_result.count 0,
          some (graphics_event.execute_all execute g.event_queue
            ({ g with event_queue := [] }, log)).1,
          (graphics_event.execute_all execute g.event_queue
            ({ g with event_queue := [] }, log)).2) ∧
      (graphics_event.execute_all execute g.event_queue
        ({ g with event_queue := [] }, log)).1.event_queue = []) ∧
    ((∀ e g2 lg q, execute e { g2 with event_queue := q } lg =
        ({ (execute e g2 lg).1 with event_queue := q }, (execute e g2 lg).2)) →
      g.event_queue.length + reqs.length ≤ fuel →
      gh_manager.flush_events (gh_manager.event_members ms execute suppressed fuel) created
          (gh_manager.post_all (gh_manager.event_members ms execute suppressed fuel) created
            reqs (some g) log).1
          (gh_manager.post_all (gh_manager.event_members ms execute suppressed fuel) created
            reqs (some g) log).2 =
        (gh_result.count 0,
          some (graphics_event.execute_all execute
            (g.event_queue ++ reqs.map post_request.event)
            ({ g with event_queue := [] }, log)).1,
          (graphics_event.execute_all execute
            (g.event_queue ++ reqs.map post_request.event)
            ({ g with event_queue := [] }, log)).2)) ∧
    (suppressed = false →
      gh_manager.process_events (gh_manager.event_members ms execute suppressed fuel)
          created (some g) log =
        gh_manager.flush_events (gh_manager.event_members ms execute suppressed fuel)
          created (some g) log) ∧
    (suppressed = true →
      gh_manager.process_events (gh_manager.event_members ms execute suppressed fuel)
          created (some g) log = (gh_result.count 0, some g, log)) := by
  have hflush : ∀ g1 : gh_manager,
      (∀ e g2 lg q, execute e { g2 with event_queue := q } lg =
        ({ (execute e g2 lg).1 with event_queue := q }, (execute e g2 lg).2)) →
      g1.event_queue.length ≤ fuel →
      gh_manager.flush_events (gh_manager.event_members ms execute suppressed fuel) created
          (some g1) log =
        (gh_result.count 0,
          some (graphics_event.execute_all execute g1.event_queue
            ({ g1 with event_queue := [] }, log)).1,
          (graphics_event.execute_all execute g1.event_queue
            ({ g1 with event_queue := [] }, log)).2) := by
    intro g1 hexec hlen
    have hd := gh_manager.process_loop_drains execute hexec g1.event_queue fuel g1 log rfl hlen
    simp [gh_manager.flush_events, gh_manager.with_instance_some, gh_manager.event_members,
      gh_manager.do_process_events, hd]
  refine ⟨?_, ?_, ?_, gh_manager.post_all_appends ms execute suppressed fuel created log
    reqs g, ?_, ?_, ?_, ?_⟩
  · exact gh_manager.post_appends ms execute suppressed fuel created g log
      (post_request.callback h name data)
  · exact gh_manager.post_appends ms execute suppressed fuel created g log
      (post_request.func fcn fdata)
  · exact gh_manager.post_appends ms execute suppressed fuel created g log
      (post_request.property h name value notify_toolkit)
  · intro hexec hlen
    refine ⟨hflush g hexec hlen, ?_⟩
    rw [graphics_event.execute_all_queue execute hexec]
  · intro hexec hlen
    rw [gh_manager.post_all_appends]
    have h2 := hflush { g with event_queue := g.event_queue ++ reqs.map post_request.event }
      hexec (by simpa using hlen)
    simpa using h2
  · intro hs
    simp [gh_manager.process_events, gh_manager.flush_events, gh_manager.with_instance_some,
      gh_manager.event_members, gh_manager.do_process_events, hs]
  · intro hs
    simp [gh_manager.process_events, gh_manager.with_instance_some,
      gh_manager.event_members, gh_manager.do_process_events, hs]

/-- C33 at three callbacks posted to a manager with an empty queue, where executing a
callback notes its name in the messages: a flush of three rounds notes the three names in
the order in which the callbacks were posted, each once, and leaves the queue empty. -/
theorem event_queue_fifo_witness :
    ((gh_manager.fresh (-1)).event_queue.length + 3 ≤ 3) ∧
    gh_manager.flush_events
        (gh_manager.event_members
          ⟨fun _ g l => (gh_result.void, g, l), fun _ g l => (gh_result.void, g, l),
            fun _ _ _ _ _ g l => (gh_result.void, g, l),
            fun _ _ g l => (gh_result.void, g, l),
            fun _ g l => (gh_result.void, g, l), fun _ g l => (gh_result.void, g, l),
            fun _ g l => (gh_result.void, g, l), fun _ g l => (gh_result.void, g, l),
            fun g l => (gh_result.flag true, g, l),
            fun _ _ _ g l => (gh_result.void, g, l), fun _ _ g l => (gh_result.void, g, l),
            fun _ _ _ _ g l => (gh_result.void, g, l),
            fun _ g l => (gh_result.count 0, g, l)⟩
          (fun e g lg =>
            match e with
            | graphics_event.callback_event _ n _ => (g, lg.warning n)
            | _ => (g, lg))
          true 3)
        none
        (gh_manager.post_all
          (gh_manager.event_members
            ⟨fun _ g l => (gh_result.void, g, l), fun _ g l => (gh_result.void, g, l),
              fun _ _ _ _ _ g l => (gh_result.void, g, l),
              fun _ _ g l => (gh_result.void, g, l),
              fun _ g l => (gh_result.void, g, l), fun _ g l => (gh_result.void, g, l),
              fun _ g l => (gh_result.void, g, l), fun _ g l => (gh_result.void, g, l),
              fun g l => (gh_result.flag true, g, l),
              fun _ _ _ g l => (gh_result.void, g, l), fun _ _ g l => (gh_result.void, g, l),
              fun _ _ _ _ g l => (gh_result.void, g, l),
              fun _ g l => (gh_result.count 0, g, l)⟩
            (fun e g lg =>
              match e with
              | graphics_event.callback_event _ n _ => (g, lg.warning n)
              | _ => (g, lg))
            true 3)
          none
          [post_request.callback ⟨some 1⟩ "C1" octave_value.other,
            post_request.callback ⟨some 1⟩ "C2" octave_value.other,
            post_request.callback ⟨some 1⟩ "C3" octave_value.other]
          (some (gh_manager.fresh (-1))) Log.empty).1
        (gh_manager.post_all
          (gh_manager.event_members
            ⟨fun _ g l => (gh_result.void, g, l), fun _ g l => (gh_result.void, g, l),
              fun _ _ _ _ _ g l => (gh_result.void, g, l),
              fun _ _ g l => (gh_result.void, g, l),
              fun _ g l => (gh_result.void, g, l), fun _ g l => (gh_result.void, g, l),
              fun _ g l => (gh_result.void, g, l), fun _ g l => (gh_result.void, g, l),
              fun g l => (gh_result.flag true, g, l),
              fun _ _ _ g l => (gh_result.void, g, l), fun _ _ g l => (gh_result.void, g, l),
              fun _ _ _ _ g l => (gh_result.void, g, l),
              fun _ g l => (gh_result.count 0, g, l)⟩
            (fun e g lg =>
              match e with
              | graphics_event.callback_event _ n _ => (g, lg.warning n)
              | _ => (g, lg))
            true 3)
          none
          [post_request.callback ⟨some 1⟩ "C1" octave_value.other,
            post_request.callback ⟨some 1⟩ "C2" octave_value.other,
            post_request.callback ⟨some 1⟩ "C3" octave_value.other]
          (some (gh_manager.fresh (-1))) Log.empty).2
      = (gh_result.count 0, some (gh_manager.fresh (-1)), ⟨[], ["C1", "C2", "C3"]⟩) :=
  ⟨by decide,
    ((event_queue_fifo
      ⟨fun _ g l => (gh_result.void, g, l), fun _ g l => (gh_result.void, g, l),
        fun _ _ _ _ _ g l => (gh_result.void, g, l),
        fun _ _ g l => (gh_result.void, g, l),
        fun _ g l => (gh_result.void, g, l), fun _ g l => (gh_result.void, g, l),
        fun _ g l => (gh_result.void, g, l), fun _ g l => (gh_result.void, g, l),
        fun g l => (gh_result.flag true, g, l),
        fun _ _ _ g l => (gh_result.void, g, l), fun _ _ g l => (gh_result.void, g, l),
        fun _ _ _ _ g l => (gh_result.void, g, l),
        fun _ g l => (gh_result.count 0, g, l)⟩
      none (gh_manager.fresh (-1)) Log.empty
      (fun e g lg =>
        match e with
        | graphics_event.callback_event _ n _ => (g, lg.warning n)
        | _ => (g, lg))
      true 3 ⟨some 1⟩ "x" octave_value.other octave_value.other true 0 0
      [post_request.callback ⟨some 1⟩ "C1" octave_value.other,
        post_request.callback ⟨some 1⟩ "C2" octave_value.other,
        post_request.callback ⟨some 1⟩ "C3" octave_value.other]).2.2.2.2.2.1
      (fun e _ _ _ => by cases e <;> rfl) (by decide)).trans rfl⟩

end Graphics
